import Mathlib

/-!
minq: structure codec (`codec.go`) and path scheduler (`scheduler.go`)

A shallow embedding of the two source files and the properties proved about
them.

Conventions of the embedding.

* A Go `byte` is a `Nat` below 256, a `[]byte` or a Go `string` is a
  `List Nat` of such bytes.
* `uintptr` and `uint64` are 64 bits wide; every place where the source
  converts or wraps carries an explicit `% 2 ^ 64` (or `% 256` for `byte(..)`).
* A `reflect`ed struct is the list of its field values in declaration order;
  the method table of its type, looked up by `MethodByName(name + "__length")`,
  is a function from the field index to an optional length overrider. The
  struct is handed over by pointer and its fields are exported, so every
  field can be set; arrays and slices are of bytes.
* A run-time panic is a result of its own, not an error returned: in the codec
  an `Err` for which `Err.returned` is false, in the scheduler the result
  `none` of `Send`.
* Logging has no effect on the modelled state and is left out.
* `local` is a reserved word of Lean: the parameters, fields and constants the
  source calls `local` are called `loc` here.
-/

namespace Codec

/-- Constant `CodecDefaultSize = ^uintptr(0)`. -/
def CodecDefaultSize : Nat := 2 ^ 64 - 1

/-- The ways a call into the codec ends other than with success. The first
four are the errors it returns: the three `fmt.Errorf` messages of `codec.go`
and the `io.EOF` handed through from `bytes.Reader.Read`. The last two are the
run-time panics of the calls `arrayDecode` makes; with a panic the call does
not return. -/
inductive Err where
  /-- "Requested a length longer than the native type" -/
  | lengthOverflow
  /-- "Unknown type" -/
  | unknownType
  /-- "Not enough bytes in buffer" -/
  | notEnoughBytes
  /-- `io.EOF` -/
  | eof
  /-- the panic `runtime error: makeslice: len out of range` of `make` -/
  | makesliceLen
  /-- the panic `reflect: call of reflect.Value.SetBytes on array Value` -/
  | setBytesOnArray
deriving DecidableEq, Repr

/-- Whether the call returns this to its caller as an `error` value (true), or
ends in a panic and returns nothing (false). -/
def Err.returned : Err → Bool
  | .lengthOverflow => true
  | .unknownType => true
  | .notEnoughBytes => true
  | .eof => true
  | .makesliceLen => false
  | .setBytesOnArray => false

/-- The largest size the Go runtime allocates (`maxAlloc` of `runtime/malloc.go`
on the 64-bit platforms, where the heap has 48 address bits): `make([]byte, n)`
panics for every `n` above it. -/
def maxAlloc : Nat := 2 ^ 48

deriving instance DecidableEq for Except

/-- The four unsigned kinds the codec accepts:
`reflect.Uint8, reflect.Uint16, reflect.Uint32, reflect.Uint64`. -/
inductive UKind where
  | u8 | u16 | u32 | u64
deriving DecidableEq, Repr

/-- Native width `v.Type().Size()` of an unsigned kind, in bytes. -/
def UKind.size : UKind → Nat
  | .u8 => 1
  | .u16 => 2
  | .u32 => 4
  | .u64 => 8

/-- A reflected field value, by `field.Kind()`. -/
inductive Value where
  /-- an unsigned integer field and the number it holds (`v.Uint()`) -/
  | uint (kind : UKind) (val : Nat)
  /-- a byte slice (`reflect.Slice`) and its contents (`v.Bytes()`) -/
  | bytes (b : List Nat)
  /-- a byte array (`reflect.Array`) and its contents; the struct being
  addressable, `v.Bytes()` is a slice of them -/
  | array (b : List Nat)
  /-- a field of any other kind -/
  | other
deriving DecidableEq, Repr

/-- A struct instance: its fields in declaration order. -/
abbrev Struct := List Value

/-- The method table of the struct type: `methods j` is the result of
`MethodByName(<name of field j> + "__length")`, a function of the struct. -/
abbrev Methods := Nat → Option (Struct → Nat)

/-- The `encodingSize` computed in `encode` and `decode` for field `j`:
`CodecDefaultSize` unless a length overrider exists, else its result
converted by `uintptr(length_result[0].Uint())`. -/
def encodingSizeOf (methods : Methods) (i : Struct) (j : Nat) : Nat :=
  match methods j with
  | some lFunc => lFunc i % 2 ^ 64
  | none => CodecDefaultSize

/-- The write loop of `uintEncode`:
`for b := size; b > 0; b -= 1 { buf.WriteByte(byte(val >> ((b - 1) * 8))) }`. -/
def writeLoop (val : Nat) : Nat → List Nat → List Nat
  | 0, buf => buf
  | b + 1, buf => writeLoop val b (buf ++ [(val >>> (b * 8)) % 256])

/-- Function `uintEncode(buf, v, encodingSize)`; returns the grown buffer. -/
def uintEncode (buf : List Nat) (kind : UKind) (val : Nat) (encodingSize : Nat) :
    Except Err (List Nat) :=
  if encodingSize ≠ CodecDefaultSize then
    if encodingSize > kind.size then
      .error .lengthOverflow
    else
      .ok (writeLoop val encodingSize buf)
  else
    .ok (writeLoop val kind.size buf)

/-- Function `arrayEncode(buf, v)`: `buf.Write(v.Bytes())`, never fails. -/
def arrayEncode (buf : List Nat) (b : List Nat) : Except Err (List Nat) :=
  .ok (buf ++ b)

/-- The field loop of `encode`, from field `j` on; `fields` are the fields
`j, j+1, ..` of the struct `i` and `buf` is the buffer written so far. -/
def encodeLoop (methods : Methods) (i : Struct) : List Value → Nat → List Nat →
    Except Err (List Nat)
  | [], _, buf => .ok buf
  | field :: fields, j, buf =>
    match field with
    | .uint kind val =>
      match uintEncode buf kind val (encodingSizeOf methods i j) with
      | .error res => .error res
      | .ok buf1 => encodeLoop methods i fields (j + 1) buf1
    | .bytes b =>
      match arrayEncode buf b with
      | .error res => .error res
      | .ok buf1 => encodeLoop methods i fields (j + 1) buf1
    | .array b =>
      match arrayEncode buf b with
      | .error res => .error res
      | .ok buf1 => encodeLoop methods i fields (j + 1) buf1
    | .other => .error .unknownType

/-- Function `encode(i)`: the bytes of all fields, or the first error (and then
no bytes, `return nil, res`). -/
def encode (methods : Methods) (i : Struct) : Except Err (List Nat) :=
  encodeLoop methods i i 0 []

/-- Method `(*bytes.Reader).Read(val)` of the standard library on a reader
whose unread part is `r`, for `len(val) = n`: at the end of the data it returns
`(0, io.EOF)`, whatever `n` is; otherwise it copies `min n (len r)` bytes and
advances. The result is the bytes copied (their number is the `rv` of the
callers), the error and the reader left. -/
def readerRead (r : List Nat) (n : Nat) : List Nat × Option Err × List Nat :=
  if r.length = 0 then ([], some .eof, r)
  else (r.take n, none, r.drop n)

/-- The accumulation loop of `uintDecode`:
`tmp = (tmp << 8) + uint64(val[b])` in 64-bit arithmetic. -/
def accumulate (val : List Nat) : Nat :=
  val.foldl (fun tmp x => ((tmp <<< 8) % 2 ^ 64 + x) % 2 ^ 64) 0

/-- The part of `uintDecode` after `size` is fixed: read `size` bytes, check the
count read, accumulate, and store with `v.SetUint(tmp)` (which keeps the low
`8 * kind.size` bits). On success: the value stored, the reader left, `size`. -/
def uintRead (buf : List Nat) (kind : UKind) (size : Nat) :
    Except Err (Nat × List Nat × Nat) :=
  match readerRead buf size with
  | (_, some err, _) => .error err
  | (val, none, buf1) =>
    if val.length ≠ size then .error .notEnoughBytes
    else .ok (accumulate val % 2 ^ (8 * kind.size), buf1, size)

/-- Function `uintDecode(buf, v, encodingSize)` for a field of kind `kind`.
On success: the value stored in the field, the reader left, and the size
returned. -/
def uintDecode (buf : List Nat) (kind : UKind) (encodingSize : Nat) :
    Except Err (Nat × List Nat × Nat) :=
  if encodingSize ≠ CodecDefaultSize then
    if encodingSize > kind.size then
      .error .lengthOverflow
    else
      uintRead buf kind encodingSize
  else
    uintRead buf kind kind.size

/-- The part of `arrayDecode` after `encodingSize` is fixed. The allocation
`make([]byte, encodingSize)` comes first and panics above `maxAlloc` (up to it
the memory is taken to be there); then the read and the check of the count
read; then `v.SetBytes(val)`, which panics unless `v` is a slice (`slice` says
whether the field is of kind `reflect.Slice` rather than `reflect.Array`). On
success: the bytes stored, the reader left, `encodingSize`. -/
def arrayRead (buf : List Nat) (slice : Bool) (encodingSize : Nat) :
    Except Err (List Nat × List Nat × Nat) :=
  if encodingSize > maxAlloc then .error .makesliceLen
  else
    match readerRead buf encodingSize with
    | (_, some err, _) => .error err
    | (val, none, buf1) =>
      if val.length ≠ encodingSize then .error .notEnoughBytes
      else if slice then .ok (val, buf1, encodingSize)
      else .error .setBytesOnArray

/-- Function `arrayDecode(buf, v, encodingSize)` for a field that is a byte
slice (`slice = true`) or a byte array (`slice = false`). On success: the
bytes stored in the field, the reader left, and the size returned. -/
def arrayDecode (buf : List Nat) (slice : Bool) (encodingSize : Nat) :
    Except Err (List Nat × List Nat × Nat) :=
  if encodingSize = CodecDefaultSize then
    arrayRead buf slice (buf.length % 2 ^ 64)
  else
    arrayRead buf slice encodingSize

/-- What a run of `decode` leaves behind: the struct `i` it filled in place,
the unread part of the reader after the last field read successfully, the
count it returns and its error. When `err` is one of the two panics, the call
has not returned and `n` is the count reached. -/
structure Decoded where
  i : Struct
  buf : List Nat
  n : Nat
  err : Option Err
deriving DecidableEq, Repr

/-- The field loop of `decode`: `k` fields are still to be read, starting with
field `j`; `bytesread` is the running count. A field error returns
`bytesread, res`, an unknown kind returns `0, "Unknown type"` (the last case;
`j` is always below the number of fields). -/
def decodeLoop (methods : Methods) : Nat → Nat → Struct → List Nat → Nat → Decoded
  | 0, _, i, buf, bytesread => ⟨i, buf, bytesread, none⟩
  | k + 1, j, i, buf, bytesread =>
    match i[j]? with
    | some (.uint kind _) =>
      match uintDecode buf kind (encodingSizeOf methods i j) with
      | .error res => ⟨i, buf, bytesread, some res⟩
      | .ok (v, buf1, br) =>
        decodeLoop methods k (j + 1) (i.set j (.uint kind v)) buf1 (bytesread + br)
    | some (.bytes _) =>
      match arrayDecode buf true (encodingSizeOf methods i j) with
      | .error res => ⟨i, buf, bytesread, some res⟩
      | .ok (val, buf1, br) =>
        decodeLoop methods k (j + 1) (i.set j (.bytes val)) buf1 (bytesread + br)
    | some (.array _) =>
      match arrayDecode buf false (encodingSizeOf methods i j) with
      | .error res => ⟨i, buf, bytesread, some res⟩
      | .ok (val, buf1, br) =>
        decodeLoop methods k (j + 1) (i.set j (.array val)) buf1 (bytesread + br)
    | _ => ⟨i, buf, 0, some .unknownType⟩

/-- Function `decode(i, data)`: fills the struct `i` from `data`. -/
def decode (methods : Methods) (i : Struct) (data : List Nat) : Decoded :=
  decodeLoop methods i.length 0 i data 0

/-- The low-order `k` bytes of `v`, most significant first: byte `t` is
`(v >> 8*(k-1-t)) mod 256`. -/
def lowBytes (k v : Nat) : List Nat :=
  (List.range k).map (fun t => (v >>> (8 * (k - 1 - t))) % 256)

/-- The width at which an integer field of kind `kind` at index `j` goes on the
wire: the size its length overrider returns, or the native width when there is
no overrider or the overrider answers `CodecDefaultSize`. -/
def effectiveWidth (methods : Methods) (i : Struct) (j : Nat) (kind : UKind) : Nat :=
  if encodingSizeOf methods i j = CodecDefaultSize then kind.size
  else encodingSizeOf methods i j

/-- The encoding of one field by the wire format: an integer field is its
low-order bytes at its effective width, a byte sequence is its contents. -/
def fieldBytes (methods : Methods) (i : Struct) (j : Nat) : Value → List Nat
  | .uint kind val => lowBytes (effectiveWidth methods i j kind) val
  | .bytes b => b
  | .array b => b
  | .other => []

/-- The length of one field on the wire. -/
def fieldWidth (methods : Methods) (i : Struct) (j : Nat) : Value → Nat
  | .uint kind _ => effectiveWidth methods i j kind
  | .bytes b => b.length
  | .array b => b.length
  | .other => 0

/-- The wire format of a struct: the encodings of its fields, in declaration
order, one after the other. -/
def wireImage (methods : Methods) (i : Struct) : List Nat :=
  (i.enumFrom 0).flatMap (fun e => fieldBytes methods i e.1 e.2)

/-- The number of bytes field `j` of the struct `i` needs from the buffer when
`decode` reaches it: for an integer field the override width, or the native
width when no override is in force (`encodingSize` is `CodecDefaultSize`); for
a byte sequence the override width, and no fixed number when no override is in
force (it takes what is left). -/
def required (methods : Methods) (i : Struct) (j : Nat) : Option Nat :=
  match i[j]? with
  | some (.uint kind _) =>
    some (if encodingSizeOf methods i j = CodecDefaultSize then kind.size
          else encodingSizeOf methods i j)
  | some (.bytes _) =>
    if encodingSizeOf methods i j = CodecDefaultSize then none
    else some (encodingSizeOf methods i j)
  | some (.array _) =>
    if encodingSizeOf methods i j = CodecDefaultSize then none
    else some (encodingSizeOf methods i j)
  | _ => none

/-- A field with its contents erased: the zero value of its type. -/
def Value.zeroed : Value → Value
  | .uint kind _ => .uint kind 0
  | .bytes _ => .bytes []
  | .array b => .array (b.map (fun _ => 0))
  | .other => .other

/-- The wire format of the fields `j, j+1, ..` of a struct. -/
def wireFrom (methods : Methods) (i : Struct) (j : Nat) : List Nat :=
  ((i.drop j).enumFrom j).flatMap (fun e => fieldBytes methods i e.1 e.2)

/-- A value `v` that conforms to a schema with length overriders `methods`,
to be decoded into a struct `i0` of the same type:
every field is an unsigned integer or a byte slice; an integer fits its
type and is written at its native width; a byte slice has the length its
overrider gives, and one without an overrider in force is the last field; no
byte slice is longer than `maxAlloc`;
each overrider gives, when `decode` reaches its field, what it gave to
`encode`; and no byte-slice field starts where the encoded data ends. -/
structure Conforming (methods : Methods) (v i0 : Struct) : Prop where
  shape : i0.map Value.zeroed = v.map Value.zeroed
  supported : ∀ j : Nat, v[j]? ≠ some Value.other
  slices : ∀ (j : Nat) b, v[j]? ≠ some (Value.array b)
  sized : ∀ (j : Nat) b, v[j]? = some (.bytes b) → b.length ≤ maxAlloc
  uints : ∀ (j : Nat) kind x, v[j]? = some (.uint kind x) →
    x < 2 ^ (8 * kind.size) ∧ effectiveWidth methods v j kind = kind.size
  tail : ∀ (j : Nat) b, v[j]? = some (.bytes b) → encodingSizeOf methods v j = CodecDefaultSize →
    j + 1 = v.length ∧ b.length < 2 ^ 64
  bounded : ∀ (j : Nat) b, v[j]? = some (.bytes b) → encodingSizeOf methods v j ≠ CodecDefaultSize →
    b.length = encodingSizeOf methods v j
  stable : ∀ j, j < v.length →
    encodingSizeOf methods (v.take j ++ i0.drop j) j = encodingSizeOf methods v j
  fed : ∀ (j : Nat) b, v[j]? = some (.bytes b) → wireFrom methods v j ≠ []

/-- The number of bytes field `j` takes from the reader `buf` when `decode`
reaches it with the struct in state `i`: for an integer the override width, or
the native width when no override is in force; for a byte sequence the
override length, or all the bytes left when no override is in force. -/
def taken (methods : Methods) (i : Struct) (j : Nat) (buf : List Nat) : Nat :=
  match i[j]? with
  | some (.uint kind _) =>
    if encodingSizeOf methods i j = CodecDefaultSize then kind.size
    else encodingSizeOf methods i j
  | some (.bytes _) =>
    if encodingSizeOf methods i j = CodecDefaultSize then buf.length
    else encodingSizeOf methods i j
  | some (.array _) =>
    if encodingSizeOf methods i j = CodecDefaultSize then buf.length
    else encodingSizeOf methods i j
  | _ => 0

/-- A length overrider as a struct with a length field has it: it returns the
number held by field `t` of the struct (0 if field `t` is not an integer). -/
def lengthFrom (t : Nat) (s : Struct) : Nat :=
  match s[t]? with
  | some (.uint _ n) => n
  | _ => 0

end Codec


namespace Minq

/-- A Go map as the list of its entries. `insert` is `m[k] = v`, `delete` is
`delete(m, k)`, `lookup` is the two-valued `m[k]`; after either update the key
occurs at most once, whatever the list was. The order of the entries is the
order a `range` loop visits them in; Go leaves it unspecified, and nothing
below depends on it. -/
abbrev GoMap (K V : Type) := List (K × V)

/-- Map update `m[k] = v`. -/
def GoMap.insert {K V : Type} [DecidableEq K] (m : GoMap K V) (k : K) (v : V) : GoMap K V :=
  m.filter (fun e => decide (e.1 ≠ k)) ++ [(k, v)]

/-- Builtin `delete(m, k)`. -/
def GoMap.delete {K V : Type} [DecidableEq K] (m : GoMap K V) (k : K) : GoMap K V :=
  m.filter (fun e => decide (e.1 ≠ k))

/-- Lookup `v, ok := m[k]`. -/
def GoMap.lookup {K V : Type} [DecidableEq K] (m : GoMap K V) (k : K) : Option V :=
  (m.find? (fun e => decide (e.1 = k))).map Prod.snd

/-- The keys of a map, in entry order. -/
def GoMap.keys {K V : Type} (m : GoMap K V) : List K :=
  m.map Prod.fst

/-- The values of a map, in entry order. -/
def GoMap.values {K V : Type} (m : GoMap K V) : List V :=
  m.map Prod.snd

/-- A Go string as its bytes. -/
abbrev GoString := List Nat

/-- The bytes of an ASCII text, to write Go strings down. -/
def ascii (s : String) : GoString :=
  s.toList.map Char.toNat

/-- A `*net.UDPAddr` of the standard library, by the two things the scheduler
asks of it: `str` is the result of its `String()` method and `is4` says
whether `IP.To4() != nil`. -/
structure UDPAddr where
  str : GoString
  is4 : Bool
deriving DecidableEq, Repr

/-- Function `adler32.Checksum` of the standard library `hash/adler32`:
`s1 = 1 + sum of the bytes`, `s2 = sum of the running s1`, both modulo 65521,
packed as `s2<<16 | s1`. -/
def adler32 (p : List Nat) : Nat :=
  let s := p.foldl (fun (s : Nat × Nat) x =>
    let s1 := (s.1 + x) % 65521
    (s1, (s.2 + s1) % 65521)) (1, 0)
  (s.2 <<< 16) ||| s.1

/-- Function `xor(local, remote)`: two append loops, first over `local`, then
over `remote`. -/
def xor (loc remote : List Nat) : List Nat :=
  let rval := loc.foldl (fun rval b => rval ++ [b]) []
  remote.foldl (fun rval b => rval ++ [b]) rval

/-- A `Transport`: the initial transport handed to `NewScheduler`, or the
result of `NewUdpTransport(usock, remote)`. -/
inductive Transport where
  | initTrans
  | udp (usock : Nat) (remote : UDPAddr)
deriving DecidableEq, Repr

/-- Modelled from the spec: the `Path` type, declared outside the two source
files. The fields are those the scheduler reads (`transport`, `pathID`,
`local`, `remote`), the primary flag and the metric of the spec; a nil pointer
or nil interface is `none`. -/
structure Path where
  isPathZero : Bool
  transport : Option Transport
  pathID : Nat
  metric : Nat
  loc : Option UDPAddr
  remote : Option UDPAddr
deriving DecidableEq, Repr

/-- The zero value of `Path`, which a map lookup yields for a missing key. -/
def Path.zero : Path := ⟨false, none, 0, 0, none, none⟩

/-- Modelled from the spec: the constructor `NewPath(connection, transport,
pathId, local, remote)`, declared outside the two source files: a path that is
not path zero, with the given ID, endpoints and transport and the placeholder
metric. -/
def NewPath (transport : Transport) (pathId : Nat) (loc remote : UDPAddr) : Path :=
  ⟨false, some transport, pathId, 100, some loc, some remote⟩

/-- Modelled from the spec: method `Path.contains(address)`, declared outside
the two source files: true if either endpoint stringifies to `address`. The
`String()` of a nil `*net.UDPAddr` is `"<nil>"`. -/
def Path.contains (p : Path) (address : GoString) : Bool :=
  let str := fun (a : Option UDPAddr) =>
    match a with
    | some x => x.str
    | none => ascii "<nil>"
  decide (str p.loc = address) || decide (str p.remote = address)

/-- The `Scheduler` struct, without the connection, the address helper, the
channel and the locks. `pathIds`, `lastPath` are `[]uint32`, `uint32`. -/
structure Scheduler where
  paths : GoMap Nat Path
  referenceRTT : Nat
  pathZero : Path
  pathIds : List Nat
  lastPath : Nat
  localAddrs : GoMap GoString UDPAddr
  localAddrsBool : GoMap GoString Bool
  remoteAddrs : GoMap GoString UDPAddr
  isInitialized : Bool
deriving DecidableEq, Repr

/-- Function `NewScheduler(initTrans, connection, ah)`; `ipAddresses` and
`ipAddressesBool` are the two tables of the address helper `ah`. -/
def NewScheduler (ipAddresses : GoMap GoString UDPAddr)
    (ipAddressesBool : GoMap GoString Bool) : Scheduler :=
  let pathZero : Path := ⟨true, some .initTrans, 0, 100, none, none⟩
  let paths : GoMap Nat Path := GoMap.insert [] pathZero.pathID pathZero
  let pathIds : List Nat := [] ++ [pathZero.pathID]
  { paths := paths
    referenceRTT := 0
    pathZero := pathZero
    pathIds := pathIds
    lastPath := 0
    localAddrs := ipAddresses
    localAddrsBool := ipAddressesBool
    remoteAddrs := []
    isInitialized := false }

/-- Method `Scheduler.Send(p)`. `transportSend` is the collaborator
`Transport.Send`, returning an error or `none`. The result is `none` when the
Go code panics: a modulo by zero, an index out of range, a call on the nil
transport of a missing path, or the `*local`, `*remote` of the log line on a
nil endpoint. Otherwise it is the state left and the error returned. -/
def Send (transportSend : Transport → List Nat → Option Nat) (s : Scheduler) (p : List Nat) :
    Option (Scheduler × Option Nat) :=
  let n := s.pathIds.length % 2 ^ 32
  if n = 0 then none
  else
    let s1 := { s with lastPath := ((s.lastPath + 1) % 2 ^ 32) % n }
    match s1.pathIds[s1.lastPath]? with
    | none => none
    | some id =>
      let path := (s1.paths.lookup id).getD Path.zero
      match path.transport with
      | none => none
      | some transport =>
        match transportSend transport p with
        | some err => some (s1, some err)
        | none =>
          if s1.lastPath = 0 then some (s1, none)
          else
            match path.loc, path.remote with
            | some _, some _ => some (s1, none)
            | _, _ => none

/-- Method `Scheduler.newPath(local, remote)`. `openSocket` is the collaborator
`AddressHelper.openSocket`, returning a socket or `none` for an error. -/
def newPath (openSocket : UDPAddr → Option Nat) (s : Scheduler) (loc remote : UDPAddr) :
    Scheduler :=
  match openSocket loc with
  | none => s
  | some usock =>
    let transport := Transport.udp usock remote
    let checksum := adler32 (xor loc.str remote.str)
    let p := NewPath transport checksum loc remote
    { s with paths := s.paths.insert p.pathID p, pathIds := s.pathIds ++ [p.pathID] }

/-- Function `isSameVersion(local, remote)`. -/
def isSameVersion (loc remote : UDPAddr) : Bool :=
  if loc.is4 = false ∧ remote.is4 = false then true
  else if loc.is4 = true ∧ remote.is4 = true then true
  else false

/-- Method `Scheduler.addLocalAddress(local)`. -/
def addLocalAddress (openSocket : UDPAddr → Option Nat) (s : Scheduler) (loc : UDPAddr) :
    Scheduler :=
  s.remoteAddrs.values.foldl
    (fun s remote => if isSameVersion loc remote then newPath openSocket s loc remote else s) s

/-- Method `Scheduler.addRemoteAddress(remote)`. -/
def addRemoteAddress (openSocket : UDPAddr → Option Nat) (s : Scheduler) (remote : UDPAddr) :
    Scheduler :=
  let s1 := { s with remoteAddrs := s.remoteAddrs.insert remote.str remote }
  s1.localAddrs.values.foldl
    (fun s loc => if isSameVersion loc remote then newPath openSocket s loc remote else s) s1

/-- Method `Scheduler.removePath(pathId)`. -/
def removePath (s : Scheduler) (pathId : Nat) : Scheduler :=
  { s with paths := s.paths.delete pathId }

/-- The two values of `direcionAddr`. -/
inductive direcionAddr where
  | loc | remote
deriving DecidableEq, Repr

/-- Method `Scheduler.containsBlocking(addr, direcion)`. -/
def containsBlocking (s : Scheduler) (addr : UDPAddr) (direcion : direcionAddr) : Bool :=
  match direcion with
  | .loc => (s.localAddrs.lookup addr.str).isSome
  | .remote => (s.remoteAddrs.lookup addr.str).isSome

/-- Method `Scheduler.delete(addr, direction)`. -/
def delete (s : Scheduler) (addr : UDPAddr) (direction : direcionAddr) : Scheduler :=
  match direction with
  | .loc => { s with localAddrs := s.localAddrs.delete addr.str }
  | .remote => { s with remoteAddrs := s.remoteAddrs.delete addr.str }

/-- Method `Scheduler.removeAddress(address)`; the `range` loop visits the
entries the path table has when the loop starts. -/
def removeAddress (s : Scheduler) (address : UDPAddr) : Scheduler :=
  let s1 := if containsBlocking s address .remote then delete s address .remote else s
  let s2 := if containsBlocking s1 address .loc then delete s1 address .loc else s1
  s2.paths.foldl
    (fun s e => if e.2.contains address.str then removePath s e.1 else s) s2

/-- Method `Scheduler.initializePaths()`. -/
def initializePaths (openSocket : UDPAddr → Option Nat) (s : Scheduler) : Scheduler :=
  let s1 := s.localAddrs.values.foldl
    (fun s loc => s.remoteAddrs.values.foldl
      (fun s remote => if isSameVersion loc remote then newPath openSocket s loc remote else s) s) s
  { s1 with isInitialized := true }

/-- The path ID `newPath` derives for a pair of endpoints: the Adler-32
checksum of `xor` of their string forms. -/
def derivedID (loc remote : UDPAddr) : Nat :=
  adler32 (xor loc.str remote.str)

/-- The scheduler states that `NewScheduler` followed by any sequence of
`Send`, `newPath`, `addLocalAddress`, `addRemoteAddress`, `initializePaths`,
`removePath` and `removeAddress` can produce (a `Send` that panics produces
none). -/
inductive Reachable : Scheduler → Prop where
  | init (ipAddresses : GoMap GoString UDPAddr) (ipAddressesBool : GoMap GoString Bool) :
      Reachable (NewScheduler ipAddresses ipAddressesBool)
  | send {s s1 : Scheduler} (transportSend : Transport → List Nat → Option Nat)
      (p : List Nat) (err : Option Nat) :
      Reachable s → Send transportSend s p = some (s1, err) → Reachable s1
  | newPath {s : Scheduler} (openSocket : UDPAddr → Option Nat) (loc remote : UDPAddr) :
      Reachable s → Reachable (newPath openSocket s loc remote)
  | addLocalAddress {s : Scheduler} (openSocket : UDPAddr → Option Nat) (loc : UDPAddr) :
      Reachable s → Reachable (addLocalAddress openSocket s loc)
  | addRemoteAddress {s : Scheduler} (openSocket : UDPAddr → Option Nat) (remote : UDPAddr) :
      Reachable s → Reachable (addRemoteAddress openSocket s remote)
  | initializePaths {s : Scheduler} (openSocket : UDPAddr → Option Nat) :
      Reachable s → Reachable (initializePaths openSocket s)
  | removePath {s : Scheduler} (pathId : Nat) :
      Reachable s → Reachable (removePath s pathId)
  | removeAddress {s : Scheduler} (address : UDPAddr) :
      Reachable s → Reachable (removeAddress s address)

/-- The consistency of the path table and the path-ID sequence: every ID in
`pathIds` is a key of `paths`, and every key of `paths` is in `pathIds`. -/
def Mirrored (s : Scheduler) : Prop :=
  (∀ id, id ∈ s.pathIds → id ∈ s.paths.keys) ∧ (∀ id, id ∈ s.paths.keys → id ∈ s.pathIds)

/-- Half of the consistency of `paths` and `pathIds`: every key of the path
table is in the path-ID sequence. -/
def KeysListed (s : Scheduler) : Prop :=
  ∀ id, id ∈ s.paths.keys → id ∈ s.pathIds

/-- A freshly constructed scheduler whose remote table holds `remoteAddrs`:
the state `initializePaths` is meant to run in, once the address tables are
populated. -/
def freshScheduler (ipAddresses : GoMap GoString UDPAddr)
    (ipAddressesBool : GoMap GoString Bool) (remoteAddrs : GoMap GoString UDPAddr) :
    Scheduler :=
  { NewScheduler ipAddresses ipAddressesBool with remoteAddrs := remoteAddrs }

/-- The IPv4 endpoint whose `String()` is the ASCII text `s`. -/
def ipv4 (s : String) : UDPAddr :=
  ⟨ascii s, true⟩

/-- The calls of `newPath` a method makes, as (local, remote) pairs, oldest
first. -/
abbrev Calls := List (UDPAddr × UDPAddr)

/-- Method `Scheduler.newPath` on a scheduler paired with the log of the calls
made so far. -/
def newPathLogged (openSocket : UDPAddr → Option Nat) (t : Scheduler × Calls)
    (loc remote : UDPAddr) : Scheduler × Calls :=
  (newPath openSocket t.1 loc remote, t.2 ++ [(loc, remote)])

/-- Method `Scheduler.addLocalAddress(local)`, with the log of its `newPath`
calls. -/
def addLocalAddressLogged (openSocket : UDPAddr → Option Nat) (t : Scheduler × Calls)
    (loc : UDPAddr) : Scheduler × Calls :=
  t.1.remoteAddrs.values.foldl
    (fun t remote =>
      if isSameVersion loc remote then newPathLogged openSocket t loc remote else t) t

/-- Method `Scheduler.addRemoteAddress(remote)`, with the log of its `newPath`
calls. -/
def addRemoteAddressLogged (openSocket : UDPAddr → Option Nat) (t : Scheduler × Calls)
    (remote : UDPAddr) : Scheduler × Calls :=
  let t1 : Scheduler × Calls :=
    ({ t.1 with remoteAddrs := t.1.remoteAddrs.insert remote.str remote }, t.2)
  t1.1.localAddrs.values.foldl
    (fun t loc =>
      if isSameVersion loc remote then newPathLogged openSocket t loc remote else t) t1

/-- Method `Scheduler.initializePaths()`, with the log of its `newPath`
calls. -/
def initializePathsLogged (openSocket : UDPAddr → Option Nat) (t : Scheduler × Calls) :
    Scheduler × Calls :=
  let t1 := t.1.localAddrs.values.foldl
    (fun t loc => t.1.remoteAddrs.values.foldl
      (fun t remote =>
        if isSameVersion loc remote then newPathLogged openSocket t loc remote else t) t) t
  ({ t1.1 with isInitialized := true }, t1.2)

/-- Method `Scheduler.Send(p)`, with the calls of `Transport.Send` it makes, as
(transport, payload) pairs. The first component is the result of `Send`. -/
def SendLogged (transportSend : Transport → List Nat → Option Nat) (s : Scheduler)
    (p : List Nat) : Option (Scheduler × Option Nat) × List (Transport × List Nat) :=
  let n := s.pathIds.length % 2 ^ 32
  if n = 0 then (none, [])
  else
    let s1 := { s with lastPath := ((s.lastPath + 1) % 2 ^ 32) % n }
    match s1.pathIds[s1.lastPath]? with
    | none => (none, [])
    | some id =>
      let path := (s1.paths.lookup id).getD Path.zero
      match path.transport with
      | none => (none, [])
      | some transport =>
        match transportSend transport p with
        | some err => (some (s1, some err), [(transport, p)])
        | none =>
          if s1.lastPath = 0 then (some (s1, none), [(transport, p)])
          else
            match path.loc, path.remote with
            | some _, some _ => (some (s1, none), [(transport, p)])
            | _, _ => (none, [(transport, p)])

/-- The two values of `operation` the listener uses. -/
inductive operation where
  | kAddAddress | kDeleteAddress
deriving DecidableEq, Repr

/-- Modelled from the spec: the `frame` type of the Frame Builder, declared
outside the two source files: a full snapshot of the local addresses, or a
single address change. -/
inductive frame where
  | AddrArray (addrs : List UDPAddr)
  | AddrMod (op : operation) (addr : UDPAddr)
deriving DecidableEq, Repr

/-- Modelled from the spec: the constructor `newAddrModFrame(stream, op, addr)`,
declared outside the two source files: it wraps a single address event. -/
def newAddrModFrame (op : operation) (addr : UDPAddr) : frame :=
  frame.AddrMod op addr

/-- Method `Scheduler.assembleAddrModFrame(delete, addr)`. -/
def assembleAddrModFrame (delete : operation) (addr : UDPAddr) : List frame :=
  [] ++ [newAddrModFrame delete addr]

/-- Method `Scheduler.write(addr)`. -/
def write (s : Scheduler) (addr : UDPAddr) : Scheduler :=
  { s with localAddrsBool := s.localAddrsBool.insert addr.str false }

/-- What the goroutine of `ListenOnChannel` works on: the scheduler, whether
`s.connection.state == StateEstablished`, the addresses waiting to be received
from `s.addrChan` (oldest first), and the frame lists handed to
`connection.sendFramesInPacket` so far. -/
structure Listener where
  s : Scheduler
  established : Bool
  addrChan : List UDPAddr
  sent : List (List frame)
deriving DecidableEq, Repr

/-- One turn of the `for` loop in the goroutine of `ListenOnChannel`. In the
Established state it receives one address (and waits, leaving everything as it
is, while none is there) and adds or deletes it; otherwise it only looks at the
clock for its log line. -/
def listenStep (w : Listener) : Listener :=
  if w.established = true then
    match w.addrChan with
    | [] => w
    | addr :: rest =>
      if !containsBlocking w.s addr .loc then
        { w with
          s := write w.s addr
          addrChan := rest
          sent := w.sent ++ [assembleAddrModFrame .kAddAddress addr] }
      else
        { w with
          s := delete w.s addr .loc
          addrChan := rest
          sent := w.sent ++ [assembleAddrModFrame .kDeleteAddress addr] }
  else w

/-- The state of a new scheduler after `n` calls of `newPath(loc, remote)`. -/
def newPathTimes (openSocket : UDPAddr → Option Nat) (loc remote : UDPAddr) : Nat → Scheduler
  | 0 => NewScheduler [] []
  | n + 1 => newPath openSocket (newPathTimes openSocket loc remote n) loc remote

/-- The cursor of `Send` is usable: the path-ID sequence is not empty and
`lastPath` is an index into it. -/
def CursorValid (s : Scheduler) : Prop :=
  s.pathIds ≠ [] ∧ s.lastPath < s.pathIds.length

/-- What `Send` needs of the paths it finds: every entry of the path table has
a transport, and every path found under an ID that stands in `pathIds` after
the first position has both its endpoints. -/
def PathsSound (s : Scheduler) : Prop :=
  (∀ e, e ∈ s.paths → e.2.transport.isSome = true) ∧
  (∀ id, id ∈ s.pathIds.tail → ∀ path, s.paths.lookup id = some path →
    path.loc.isSome = true ∧ path.remote.isSome = true)

/-- The cursor is usable and the paths `Send` can find are usable. -/
def SendReady (s : Scheduler) : Prop :=
  CursorValid s ∧ PathsSound s

end Minq


/-! ## The codec -/

namespace Codec

theorem lowBytes_succ (k v : Nat) :
    lowBytes (k + 1) v = (v >>> (k * 8)) % 256 :: lowBytes k v := by
  unfold lowBytes
  rw [List.range_succ_eq_map, List.map_cons, List.map_map]
  congr 1
  · simp [Nat.mul_comm]
  · apply List.map_congr_left
    intro t _
    simp only [Function.comp_apply, Nat.succ_eq_add_one]
    congr 3
    omega

theorem lowBytes_length (k v : Nat) : (lowBytes k v).length = k := by
  simp [lowBytes]

theorem lowBytes_lt (k v x : Nat) (h : x ∈ lowBytes k v) : x < 256 := by
  simp only [lowBytes, List.mem_map] at h
  obtain ⟨t, _, rfl⟩ := h
  exact Nat.mod_lt _ (by norm_num)

theorem writeLoop_eq (val : Nat) : ∀ (b : Nat) (buf : List Nat),
    writeLoop val b buf = buf ++ lowBytes b val
  | 0, buf => by simp [writeLoop, lowBytes]
  | b + 1, buf => by
    rw [writeLoop, writeLoop_eq val b, lowBytes_succ]
    simp

/-- The accumulation without the 64-bit wrap. -/
theorem foldl_lowBytes (v : Nat) : ∀ (k acc : Nat),
    (lowBytes k v).foldl (fun tmp x => tmp * 256 + x) acc = acc * 256 ^ k + v % 256 ^ k
  | 0, acc => by simp [lowBytes, Nat.mod_one]
  | k + 1, acc => by
    rw [lowBytes_succ, List.foldl_cons, foldl_lowBytes v k, Nat.mod_pow_succ,
      Nat.shiftRight_eq_div_pow]
    have h : (2 : Nat) ^ (k * 8) = 256 ^ k := by
      rw [Nat.mul_comm, pow_mul]; norm_num
    rw [h]
    ring

theorem foldl_wrap_eq : ∀ (l : List Nat) (acc : Nat), (∀ x ∈ l, x < 256) →
    (acc + 1) * 256 ^ l.length ≤ 2 ^ 64 →
    l.foldl (fun tmp x => ((tmp <<< 8) % 2 ^ 64 + x) % 2 ^ 64) acc
      = l.foldl (fun tmp x => tmp * 256 + x) acc
  | [], _, _, _ => rfl
  | x :: l, acc, hx, hb => by
    have hx0 : x < 256 := hx x (List.mem_cons_self _ _)
    have hpos : 0 < 256 ^ l.length := Nat.pow_pos (by norm_num)
    have hs : 256 ^ (x :: l).length = 256 ^ l.length * 256 := by
      rw [List.length_cons, pow_succ]
    rw [hs] at hb
    have h1 : (acc * 256 + x + 1) * 256 ^ l.length ≤ 2 ^ 64 := by nlinarith
    have h2 : acc * 256 + x < 2 ^ 64 := by nlinarith
    have h3 : acc * 256 < 2 ^ 64 := by omega
    have e : ((acc <<< 8) % 2 ^ 64 + x) % 2 ^ 64 = acc * 256 + x := by
      rw [Nat.shiftLeft_eq]
      have h8 : (2 : Nat) ^ 8 = 256 := by norm_num
      rw [h8, Nat.mod_eq_of_lt h3, Nat.mod_eq_of_lt h2]
    rw [List.foldl_cons, List.foldl_cons, e]
    exact foldl_wrap_eq l _ (fun y hy => hx y (List.mem_cons_of_mem _ hy)) h1

theorem accumulate_lowBytes (k v : Nat) (hk : k ≤ 8) :
    accumulate (lowBytes k v) = v % 2 ^ (8 * k) := by
  unfold accumulate
  have hp : (256 : Nat) ^ k ≤ 2 ^ 64 := by
    calc (256 : Nat) ^ k ≤ 256 ^ 8 := Nat.pow_le_pow_right (by norm_num) hk
      _ = 2 ^ 64 := by norm_num
  rw [foldl_wrap_eq _ _ (lowBytes_lt k v) (by simpa [lowBytes_length] using hp),
    foldl_lowBytes]
  have h : (2 : Nat) ^ (8 * k) = 256 ^ k := by rw [pow_mul]; norm_num
  simp [h]

theorem UKind.size_le (kind : UKind) : kind.size ≤ 8 := by
  cases kind <;> simp [UKind.size]

theorem UKind.size_pos (kind : UKind) : 0 < kind.size := by
  cases kind <;> simp [UKind.size]

theorem UKind.size_ne_default (kind : UKind) : kind.size ≠ CodecDefaultSize := by
  cases kind <;> simp [UKind.size, CodecDefaultSize]

theorem uintEncode_eq (buf : List Nat) (kind : UKind) (val es : Nat)
    (h : es = CodecDefaultSize ∨ es ≤ kind.size) :
    uintEncode buf kind val es
      = .ok (buf ++ lowBytes (if es = CodecDefaultSize then kind.size else es) val) := by
  unfold uintEncode
  by_cases hd : es = CodecDefaultSize
  · simp [hd, writeLoop_eq]
  · have hle : es ≤ kind.size := h.resolve_left hd
    simp [hd, Nat.not_lt.mpr hle, writeLoop_eq]

theorem uintEncode_error (buf : List Nat) (kind : UKind) (val es : Nat)
    (hd : es ≠ CodecDefaultSize) (hw : kind.size < es) :
    uintEncode buf kind val es = .error .lengthOverflow := by
  simp [uintEncode, hd, hw]

theorem uintEncode_cases (buf : List Nat) (kind : UKind) (val es : Nat) :
    uintEncode buf kind val es = .error .lengthOverflow ∨
    uintEncode buf kind val es
      = .ok (buf ++ lowBytes (if es = CodecDefaultSize then kind.size else es) val) := by
  by_cases hd : es = CodecDefaultSize
  · exact Or.inr (uintEncode_eq buf kind val es (Or.inl hd))
  · by_cases hw : kind.size < es
    · exact Or.inl (uintEncode_error buf kind val es hd hw)
    · exact Or.inr (uintEncode_eq buf kind val es (Or.inr (Nat.not_lt.mp hw)))

/-- What `uintEncode` does when handed a size `k` below the native width: it
adds exactly `k` bytes to the buffer, the low-order `k` bytes of `v`, most
significant first. -/
theorem uintEncode_truncates (buf : List Nat) (kind : UKind) (v k : Nat)
    (hk : k < kind.size) :
    uintEncode buf kind v k = .ok (buf ++ lowBytes k v) ∧
    (lowBytes k v).length = k ∧
    ∀ t, t < k → (lowBytes k v)[t]? = some ((v >>> (8 * (k - 1 - t))) % 256) := by
  have hd : k ≠ CodecDefaultSize := by
    have := UKind.size_le kind
    simp only [CodecDefaultSize]
    omega
  refine ⟨?_, lowBytes_length k v, ?_⟩
  · rw [uintEncode_eq buf kind v k (Or.inr (Nat.le_of_lt hk))]
    simp [hd]
  · intro t ht
    simp [lowBytes, List.getElem?_map, List.getElem?_range ht]

/-- What `uintDecode` does when handed a size `k` with `1 ≤ k ≤ kind.size` on a
reader that starts with the low-order `k` bytes of `v`: it takes these `k`
bytes and stores `v mod 2^(8k)`, a value of the native width. -/
theorem uintDecode_lowBytes (kind : UKind) (v k : Nat) (rest : List Nat)
    (h1 : 1 ≤ k) (hk : k ≤ kind.size) :
    uintDecode (lowBytes k v ++ rest) kind k = .ok (v % 2 ^ (8 * k), rest, k) ∧
    v % 2 ^ (8 * k) < 2 ^ (8 * kind.size) := by
  have h8 := UKind.size_le kind
  have hd : k ≠ CodecDefaultSize := by
    simp only [CodecDefaultSize]
    omega
  have hmono : (2 : Nat) ^ (8 * k) ≤ 2 ^ (8 * kind.size) :=
    Nat.pow_le_pow_right (by norm_num) (by omega)
  have hlt : v % 2 ^ (8 * k) < 2 ^ (8 * kind.size) :=
    Nat.lt_of_lt_of_le (Nat.mod_lt _ (Nat.pow_pos (by norm_num))) hmono
  refine ⟨?_, hlt⟩
  have hne : (lowBytes k v ++ rest).length ≠ 0 := by
    simp [lowBytes_length]
    omega
  have htake : (lowBytes k v ++ rest).take k = lowBytes k v := by
    have := List.take_left (lowBytes k v) rest
    rwa [lowBytes_length] at this
  have hdrop : (lowBytes k v ++ rest).drop k = rest := by
    have := List.drop_left (lowBytes k v) rest
    rwa [lowBytes_length] at this
  simp only [uintDecode, uintRead, readerRead, hd, ne_eq, not_false_eq_true, if_true,
    Nat.not_lt.mpr hk, if_false, hne, htake, hdrop, lowBytes_length, not_true_eq_false,
    accumulate_lowBytes k v (by omega), Nat.mod_eq_of_lt hlt]

/-- The two helpers handed the same size `k` with `1 ≤ k ≤ kind.size`:
`uintDecode` of the bytes of `uintEncode` takes `k` bytes and stores
`v mod 2^(8k)`. -/
theorem uintDecode_uintEncode (kind : UKind) (v k : Nat) (rest : List Nat)
    (h1 : 1 ≤ k) (hk : k ≤ kind.size) :
    ∃ bs, uintEncode [] kind v k = .ok bs ∧
      uintDecode (bs ++ rest) kind k = .ok (v % 2 ^ (8 * k), rest, k) ∧
      v % 2 ^ (8 * k) < 2 ^ (8 * kind.size) := by
  have h8 := UKind.size_le kind
  have hd : k ≠ CodecDefaultSize := by
    simp only [CodecDefaultSize]
    omega
  refine ⟨lowBytes k v, ?_, uintDecode_lowBytes kind v k rest h1 hk⟩
  rw [uintEncode_eq [] kind v k (Or.inr hk)]
  simp [hd]

theorem encodeLoop_overflow (methods : Methods) (i : Struct) :
    ∀ (fields : List Value) (j t : Nat) (buf : List Nat) (kind : UKind) (v : Nat),
    fields[t]? = some (.uint kind v) → (∀ u, u < t → fields[u]? ≠ some .other) →
    encodingSizeOf methods i (j + t) ≠ CodecDefaultSize →
    kind.size < encodingSizeOf methods i (j + t) →
    encodeLoop methods i fields j buf = .error .lengthOverflow
  | [], _, _, _, _, _, hf, _, _, _ => by simp at hf
  | f :: fields, j, 0, buf, kind, v, hf, _, hd, hw => by
    simp only [List.getElem?_cons_zero, Option.some.injEq] at hf
    subst hf
    simp only [Nat.add_zero] at hd hw
    simp [encodeLoop, uintEncode_error buf kind v _ hd hw]
  | f :: fields, j, t + 1, buf, kind, v, hf, hpre, hd, hw => by
    simp only [List.getElem?_cons_succ] at hf
    have hpre1 : ∀ u, u < t → fields[u]? ≠ some .other := fun u hu => by
      have := hpre (u + 1) (by omega)
      simpa using this
    have hj : j + (t + 1) = j + 1 + t := by omega
    rw [hj] at hd hw
    cases f with
    | uint kind0 val0 =>
      rcases uintEncode_cases buf kind0 val0 (encodingSizeOf methods i j) with h | h
      · simp [encodeLoop, h]
      · simp only [encodeLoop, h]
        exact encodeLoop_overflow methods i fields (j + 1) t _ kind v hf hpre1 hd hw
    | bytes b =>
      simp only [encodeLoop, arrayEncode]
      exact encodeLoop_overflow methods i fields (j + 1) t _ kind v hf hpre1 hd hw
    | array b =>
      simp only [encodeLoop, arrayEncode]
      exact encodeLoop_overflow methods i fields (j + 1) t _ kind v hf hpre1 hd hw
    | other =>
      have := hpre 0 (by omega)
      simp at this

/-- C4, as amended. In a struct whose fields up to field `j` are unsigned
integers or byte sequences, if field `j` is an unsigned integer of native
width `kind.size` and its length overrider returns a value that exceeds
`kind.size` and is not `CodecDefaultSize` (2^64 - 1), then `encode` fails with
the length-overflow error and returns no bytes. -/
theorem encode_override_overflow (methods : Methods) (i : Struct) (j : Nat)
    (kind : UKind) (v : Nat) (lFunc : Struct → Nat)
    (hf : i[j]? = some (.uint kind v)) (hpre : ∀ u, u < j → i[u]? ≠ some .other)
    (hm : methods j = some lFunc) (hw : kind.size < lFunc i % 2 ^ 64)
    (hd : lFunc i % 2 ^ 64 ≠ CodecDefaultSize) :
    encode methods i = .error .lengthOverflow := by
  have he : encodingSizeOf methods i (0 + j) = lFunc i % 2 ^ 64 := by
    simp [encodingSizeOf, hm]
  exact encodeLoop_overflow methods i i 0 j [] kind v hf hpre (by rw [he]; exact hd)
    (by rw [he]; exact hw)

/-- The example of C4: override 8 on a 4-byte field. -/
theorem encode_override_overflow_witness :
    encode (fun _ => some (fun _ => 8)) [.uint .u32 0x12345678] = .error .lengthOverflow :=
  encode_override_overflow (fun _ => some (fun _ => 8)) [.uint .u32 0x12345678] 0 .u32
    0x12345678 (fun _ => 8) rfl (by intro u hu; omega) rfl (by decide) (by decide)

/-- C4 fails at the largest value an overrider can return: a 4-byte field
whose overrider returns `2^64 - 1`, which exceeds 4, is encoded at its native
width and `encode` succeeds. -/
theorem encode_override_default_size :
    UKind.u32.size < encodingSizeOf (fun _ => some (fun _ => 2 ^ 64 - 1))
      [.uint .u32 0x12345678] 0 ∧
    encode (fun _ => some (fun _ => 2 ^ 64 - 1)) [.uint .u32 0x12345678]
      = .ok [0x12, 0x34, 0x56, 0x78] := by
  decide

theorem decodeLoop_add (methods : Methods) : ∀ (a b j : Nat) (i : Struct) (buf : List Nat)
    (br : Nat),
    decodeLoop methods (a + b) j i buf br =
      if (decodeLoop methods a j i buf br).err = none then
        decodeLoop methods b (j + a) (decodeLoop methods a j i buf br).i
          (decodeLoop methods a j i buf br).buf (decodeLoop methods a j i buf br).n
      else decodeLoop methods a j i buf br
  | 0, b, j, i, buf, br => by simp [decodeLoop]
  | a + 1, b, j, i, buf, br => by
    have hab : a + 1 + b = (a + b) + 1 := by omega
    have hja : j + (a + 1) = j + 1 + a := by omega
    rw [hab, hja]
    simp only [decodeLoop]
    split
    · split
      · simp
      · exact decodeLoop_add methods a b (j + 1) _ _ _
    · split
      · simp
      · exact decodeLoop_add methods a b (j + 1) _ _ _
    · split
      · simp
      · exact decodeLoop_add methods a b (j + 1) _ _ _
    · simp

theorem decodeLoop_length (methods : Methods) : ∀ (k j : Nat) (i : Struct) (buf : List Nat)
    (br : Nat), (decodeLoop methods k j i buf br).i.length = i.length
  | 0, _, _, _, _ => rfl
  | k + 1, j, i, buf, br => by
    simp only [decodeLoop]
    split
    · split
      · rfl
      · rw [decodeLoop_length methods k]; simp
    · split
      · rfl
      · rw [decodeLoop_length methods k]; simp
    · split
      · rfl
      · rw [decodeLoop_length methods k]; simp
    · rfl

theorem uintRead_short (buf : List Nat) (kind : UKind) (size : Nat) (h : buf.length < size) :
    ∃ e, uintRead buf kind size = .error e ∧ e.returned = true := by
  unfold uintRead readerRead
  by_cases h0 : buf.length = 0
  · exact ⟨.eof, by simp [h0], rfl⟩
  · refine ⟨.notEnoughBytes, ?_, rfl⟩
    have : min size buf.length ≠ size := by omega
    simp [h0, this]

theorem uintDecode_short (buf : List Nat) (kind : UKind) (es n : Nat)
    (hn : n = if es = CodecDefaultSize then kind.size else es) (h : buf.length < n) :
    ∃ e, uintDecode buf kind es = .error e ∧ e.returned = true := by
  unfold uintDecode
  by_cases hd : es = CodecDefaultSize
  · simp only [hd, if_true] at hn
    simp only [hd, ne_eq, not_true_eq_false, if_false]
    exact uintRead_short buf kind kind.size (hn ▸ h)
  · simp only [hd, if_false] at hn
    simp only [hd, ne_eq, not_false_eq_true, if_true]
    by_cases hw : es > kind.size
    · exact ⟨.lengthOverflow, by simp [hw], rfl⟩
    · simp only [hw, if_false]
      exact uintRead_short buf kind es (hn ▸ h)

theorem arrayRead_short (buf : List Nat) (slice : Bool) (n : Nat) (h : buf.length < n)
    (hm : n ≤ maxAlloc) : ∃ e, arrayRead buf slice n = .error e ∧ e.returned = true := by
  unfold arrayRead readerRead
  rw [if_neg (Nat.not_lt.mpr hm)]
  by_cases h0 : buf.length = 0
  · exact ⟨.eof, by simp [h0], rfl⟩
  · refine ⟨.notEnoughBytes, ?_, rfl⟩
    have : min n buf.length ≠ n := by omega
    simp [h0, this]

theorem arrayDecode_short (buf : List Nat) (slice : Bool) (es : Nat)
    (hd : es ≠ CodecDefaultSize) (h : buf.length < es) (hm : es ≤ maxAlloc) :
    ∃ e, arrayDecode buf slice es = .error e ∧ e.returned = true := by
  unfold arrayDecode
  rw [if_neg hd]
  exact arrayRead_short buf slice es h hm

theorem decodeLoop_short (methods : Methods) (k j : Nat) (i : Struct) (buf : List Nat)
    (br n : Nat) (hreq : required methods i j = some n) (h : buf.length < n)
    (hm : n ≤ maxAlloc) :
    ∃ e, (decodeLoop methods (k + 1) j i buf br).err = some e ∧ e.returned = true := by
  unfold required at hreq
  simp only [decodeLoop]
  split at hreq
  next kind val hf =>
    simp only [Option.some.injEq] at hreq
    obtain ⟨e, he, hr⟩ := uintDecode_short buf kind (encodingSizeOf methods i j) n hreq.symm h
    exact ⟨e, by simp [hf, he], hr⟩
  next b hf =>
    by_cases hd : encodingSizeOf methods i j = CodecDefaultSize
    · simp [hd] at hreq
    · simp only [hd, if_false, Option.some.injEq] at hreq
      obtain ⟨e, he, hr⟩ := arrayDecode_short buf true (encodingSizeOf methods i j) hd
        (hreq ▸ h) (hreq ▸ hm)
      exact ⟨e, by simp [hf, he], hr⟩
  next b hf =>
    by_cases hd : encodingSizeOf methods i j = CodecDefaultSize
    · simp [hd] at hreq
    · simp only [hd, if_false, Option.some.injEq] at hreq
      obtain ⟨e, he, hr⟩ := arrayDecode_short buf false (encodingSizeOf methods i j) hd
        (hreq ▸ h) (hreq ▸ hm)
      exact ⟨e, by simp [hf, he], hr⟩
  next => simp at hreq

/-- Where C5 holds: if `decode` has read the fields before field `j` without
error, the bytes then left in the buffer are fewer than field `j` requires
(its override width, or its native width when no override is in force), and
that width is one the runtime allocates (at most `maxAlloc`, as every integer
width is), then `decode` returns an error. -/
theorem decode_short_returns (methods : Methods) (i : Struct) (data : List Nat) (j n : Nat)
    (hj : j < i.length)
    (hok : (decodeLoop methods j 0 i data 0).err = none)
    (hreq : required methods (decodeLoop methods j 0 i data 0).i j = some n)
    (hshort : (decodeLoop methods j 0 i data 0).buf.length < n)
    (hm : n ≤ maxAlloc) :
    ∃ e, (decode methods i data).err = some e ∧ e.returned = true := by
  have hlen : i.length = j + ((i.length - j - 1) + 1) := by omega
  unfold decode
  rw [hlen, decodeLoop_add, if_pos hok, Nat.zero_add]
  exact decodeLoop_short methods _ j _ _ _ n hreq hshort hm

/-- The example of C5, `[0x01]` against a schema of one 2-byte integer field:
`decode` returns an error. -/
theorem decode_short_returns_example :
    ∃ e, (decode (fun _ => none) [.uint .u16 0] [0x01]).err = some e ∧ e.returned = true :=
  decode_short_returns (fun _ => none) [.uint .u16 0] [0x01] 0 2 (by decide) rfl rfl
    (by decide) (by decide)

/-- C5 at a byte-sequence field whose length overrider returns `2^62`, with one
byte in the buffer. The field requires `2^62` bytes and one is left, so the
claim has `decode` fail with an error. `arrayDecode` allocates
`make([]byte, encodingSize)` before it looks at the buffer, and the allocation
panics (`makeslice: len out of range`): `decode` returns nothing. With an
override the runtime can allocate, as in the second part with `2^40`, the same
buffer is rejected with an error. -/
theorem decode_short_huge_override :
    required (fun _ => some (fun _ => 2 ^ 62)) [.bytes []] 0 = some (2 ^ 62) ∧
    [0x01].length < 2 ^ 62 ∧
    decode (fun _ => some (fun _ => 2 ^ 62)) [.bytes []] [0x01]
      = ⟨[.bytes []], [0x01], 0, some .makesliceLen⟩ ∧
    Err.makesliceLen.returned = false ∧
    decode (fun _ => some (fun _ => 2 ^ 40)) [.bytes []] [0x01]
      = ⟨[.bytes []], [0x01], 0, some .notEnoughBytes⟩ := by
  decide

/-- A byte-array field. `encode` writes its bytes; `decode` reads them and then
panics in `v.SetBytes`, which takes slices only. -/
theorem decode_array_field :
    encode (fun _ => none) [.array [0xAA, 0xBB]] = .ok [0xAA, 0xBB] ∧
    decode (fun _ => none) [.array [0, 0]] [0xAA, 0xBB]
      = ⟨[.array [0, 0]], [0xAA, 0xBB], 0, some .setBytesOnArray⟩ ∧
    Err.setBytesOnArray.returned = false := by
  decide

theorem encodeLoop_ok (methods : Methods) (i : Struct) :
    ∀ (fields : List Value) (j : Nat) (buf out : List Nat),
    encodeLoop methods i fields j buf = .ok out →
    out = buf ++ (fields.enumFrom j).flatMap (fun e => fieldBytes methods i e.1 e.2)
  | [], j, buf, out, h => by
    simp only [encodeLoop, Except.ok.injEq] at h
    simp [h]
  | f :: fields, j, buf, out, h => by
    rw [List.enumFrom_cons, List.flatMap_cons, ← List.append_assoc]
    cases f with
    | uint kind val =>
      rcases uintEncode_cases buf kind val (encodingSizeOf methods i j) with hu | hu
      · simp [encodeLoop, hu] at h
      · simp only [encodeLoop, hu] at h
        exact encodeLoop_ok methods i fields (j + 1) _ out h
    | bytes b =>
      simp only [encodeLoop, arrayEncode] at h
      exact encodeLoop_ok methods i fields (j + 1) _ out h
    | array b =>
      simp only [encodeLoop, arrayEncode] at h
      exact encodeLoop_ok methods i fields (j + 1) _ out h
    | other => simp [encodeLoop] at h

theorem fieldBytes_length (methods : Methods) (i : Struct) (j : Nat) (f : Value) :
    (fieldBytes methods i j f).length = fieldWidth methods i j f := by
  cases f <;> simp [fieldBytes, fieldWidth, lowBytes_length]

/-- C7. Wire format: when `encode` succeeds, its output is the concatenation,
in declaration order, of the fields' encodings and nothing else: an integer
field gives its big-endian low-order bytes at its effective width, a byte
sequence gives its contents (with or without a length overrider). So the
length of the output is the sum of the fields' widths. -/
theorem encode_wire_format (methods : Methods) (i : Struct) (out : List Nat)
    (h : encode methods i = .ok out) :
    out = wireImage methods i ∧
    out.length = ((i.enumFrom 0).map (fun e => fieldWidth methods i e.1 e.2)).sum := by
  have h1 : out = wireImage methods i := by
    have := encodeLoop_ok methods i i 0 [] out h
    simpa [wireImage] using this
  refine ⟨h1, ?_⟩
  rw [h1, wireImage, List.length_flatMap]
  congr 1
  apply List.map_congr_left
  intro e _
  exact fieldBytes_length methods i e.1 e.2

/-- A struct of a 4-byte integer cut to 2 bytes, a byte sequence with a length
overrider and a 1-byte integer: 2 + 3 + 1 bytes. -/
theorem encode_wire_format_witness :
    [0x56, 0x78, 0xAA, 0xBB, 0xCC, 0x07]
      = wireImage (fun j => if j = 2 then none else some (fun _ => 2))
          [.uint .u32 0x12345678, .bytes [0xAA, 0xBB, 0xCC], .uint .u8 7] ∧
    [0x56, 0x78, 0xAA, 0xBB, 0xCC, 0x07].length
      = (([Value.uint .u32 0x12345678, .bytes [0xAA, 0xBB, 0xCC], .uint .u8 7].enumFrom 0).map
          (fun e => fieldWidth (fun j => if j = 2 then none else some (fun _ => 2))
            [.uint .u32 0x12345678, .bytes [0xAA, 0xBB, 0xCC], .uint .u8 7] e.1 e.2)).sum :=
  encode_wire_format (fun j => if j = 2 then none else some (fun _ => 2))
    [.uint .u32 0x12345678, .bytes [0xAA, 0xBB, 0xCC], .uint .u8 7]
    [0x56, 0x78, 0xAA, 0xBB, 0xCC, 0x07] (by decide)

/-- The field loop of `encode` over a list of fields in two parts: the second
part starts from the buffer the first part leaves. -/
theorem encodeLoop_append (methods : Methods) (i : Struct) :
    ∀ (l1 l2 : List Value) (j : Nat) (buf : List Nat),
    encodeLoop methods i (l1 ++ l2) j buf =
      match encodeLoop methods i l1 j buf with
      | .error e => .error e
      | .ok b => encodeLoop methods i l2 (j + l1.length) b
  | [], l2, j, buf => by simp [encodeLoop]
  | f :: l1, l2, j, buf => by
    have hj : j + (f :: l1).length = j + 1 + l1.length := by
      rw [List.length_cons]
      omega
    rw [hj]
    cases f with
    | uint kind val =>
      simp only [List.cons_append, encodeLoop]
      cases uintEncode buf kind val (encodingSizeOf methods i j) with
      | error e => rfl
      | ok b => exact encodeLoop_append methods i l1 l2 (j + 1) b
    | bytes b =>
      simp only [List.cons_append, encodeLoop, arrayEncode]
      exact encodeLoop_append methods i l1 l2 (j + 1) _
    | array b =>
      simp only [List.cons_append, encodeLoop, arrayEncode]
      exact encodeLoop_append methods i l1 l2 (j + 1) _
    | other => simp [encodeLoop]

/-- What `encode` does at an integer field `j` whose length overrider returns
a size `k` that is in force and fits the field: with `pre` the bytes of the
fields before it, the buffer after the field is `pre` and the low-order `k`
bytes of the value, and `encode` goes on from there. -/
theorem encode_uint_field (methods : Methods) (i : Struct) (j : Nat) (kind : UKind)
    (v k : Nat) (lFunc : Struct → Nat) (pre : List Nat)
    (hf : i[j]? = some (.uint kind v)) (hm : methods j = some lFunc)
    (hl : lFunc i % 2 ^ 64 = k) (hk : k ≤ kind.size)
    (hpre : encodeLoop methods i (i.take j) 0 [] = .ok pre) :
    encodeLoop methods i (i.take (j + 1)) 0 [] = .ok (pre ++ lowBytes k v) ∧
    encode methods i
      = encodeLoop methods i (i.drop (j + 1)) (j + 1) (pre ++ lowBytes k v) ∧
    ∀ out, encode methods i = .ok out →
      out = pre ++ lowBytes k v ++ wireFrom methods i (j + 1) := by
  have hj : j < i.length := by
    rcases Nat.lt_or_ge j i.length with h | h
    · exact h
    · rw [List.getElem?_eq_none h] at hf
      simp at hf
  have hes : encodingSizeOf methods i j = k := by
    unfold encodingSizeOf
    rw [hm]
    exact hl
  have hd : k ≠ CodecDefaultSize := by
    have := UKind.size_le kind
    simp only [CodecDefaultSize]
    omega
  have hlenj : (i.take j).length = j := by
    rw [List.length_take]
    omega
  have hdrop : i.drop j = .uint kind v :: i.drop (j + 1) := by
    rw [List.drop_eq_getElem_cons hj]
    congr 1
    rw [List.getElem?_eq_getElem hj] at hf
    exact Option.some.inj hf
  have hsplit : i.take j ++ (.uint kind v :: i.drop (j + 1)) = i := by
    rw [← hdrop, List.take_append_drop]
  have hstep : ∀ rest, encodeLoop methods i (i.take j ++ (.uint kind v :: rest)) 0 []
      = encodeLoop methods i rest (j + 1) (pre ++ lowBytes k v) := by
    intro rest
    rw [encodeLoop_append, hpre]
    simp only [Nat.zero_add, hlenj, encodeLoop, hes]
    rw [uintEncode_eq pre kind v k (Or.inr hk), if_neg hd]
  have h2 : encode methods i
      = encodeLoop methods i (i.drop (j + 1)) (j + 1) (pre ++ lowBytes k v) := by
    have := hstep (i.drop (j + 1))
    rw [hsplit] at this
    exact this
  refine ⟨?_, h2, ?_⟩
  · rw [List.take_succ, hf]
    exact hstep []
  · intro out hout
    rw [h2] at hout
    exact encodeLoop_ok methods i _ _ _ out hout

/-- C2. Truncation. In a struct whose field `j` is an unsigned integer of
native width `kind.size` holding `v` and whose length overrider for that field
returns `k < kind.size`, `encode` emits for the field exactly `k` bytes, the
low-order `k` bytes of `v`, most significant first (byte `t` is
`(v >> 8*(k-1-t)) mod 256`): with `pre` the bytes of the fields before it, the
buffer after the field is `pre` followed by these `k` bytes, `encode` goes on
from this buffer with the fields after `j`, and the output of a successful
`encode` is `pre`, these `k` bytes, and the bytes of the fields after `j`. -/
theorem encode_truncates (methods : Methods) (i : Struct) (j : Nat) (kind : UKind)
    (v k : Nat) (lFunc : Struct → Nat) (pre : List Nat)
    (hf : i[j]? = some (.uint kind v)) (hm : methods j = some lFunc)
    (hl : lFunc i % 2 ^ 64 = k) (hk : k < kind.size)
    (hpre : encodeLoop methods i (i.take j) 0 [] = .ok pre) :
    encodeLoop methods i (i.take (j + 1)) 0 [] = .ok (pre ++ lowBytes k v) ∧
    encode methods i
      = encodeLoop methods i (i.drop (j + 1)) (j + 1) (pre ++ lowBytes k v) ∧
    (∀ out, encode methods i = .ok out →
      out = pre ++ lowBytes k v ++ wireFrom methods i (j + 1)) ∧
    (lowBytes k v).length = k ∧
    ∀ t, t < k → (lowBytes k v)[t]? = some ((v >>> (8 * (k - 1 - t))) % 256) := by
  obtain ⟨h1, h2, h3⟩ :=
    encode_uint_field methods i j kind v k lFunc pre hf hm hl (Nat.le_of_lt hk) hpre
  refine ⟨h1, h2, h3, lowBytes_length k v, ?_⟩
  intro t ht
  simp [lowBytes, List.getElem?_map, List.getElem?_range ht]

/-- The example of C2: a struct of a 1-byte integer and a 4-byte integer
holding `0x12345678` whose length overrider returns 2 encodes to the byte of
the first field and `[0x56, 0x78]`. -/
theorem encode_truncates_witness :
    encode (fun j => if j = 1 then some (fun _ => 2) else none)
      [.uint .u8 7, .uint .u32 0x12345678] = .ok [0x07, 0x56, 0x78] :=
  ((encode_truncates (fun j => if j = 1 then some (fun _ => 2) else none)
    [.uint .u8 7, .uint .u32 0x12345678] 1 .u32 0x12345678 2 (fun _ => 2) [0x07]
    rfl rfl (by decide) (by decide) (by decide)).2.1).trans (by decide)

/-- C3, as amended. Round trip of an integer field at an override width. Let
field `j` of the struct `v` be an unsigned integer of native width `kind.size`
holding `x`, with a length overrider that returns `k`, `1 ≤ k ≤ kind.size`,
on `v`; let `encode` succeed on `v` with output `out`, `pre` being the bytes of
the fields before `j`. If `decode` of `out` into a struct `i0` reads the fields
before `j` without error, has then taken exactly the bytes `pre`, and the
overrider returns the same `k` on the struct as decoded so far, then `decode`
reads field `j` without error, takes exactly the `k` bytes `encode` wrote for
it and stores `x mod 2^(8k)`, a value of the native width, in the field. -/
theorem decode_encode_override (methods : Methods) (v i0 : Struct) (j : Nat) (kind : UKind)
    (x y k : Nat) (lFunc : Struct → Nat) (pre out : List Nat)
    (hf : v[j]? = some (.uint kind x)) (hm : methods j = some lFunc)
    (hl : lFunc v % 2 ^ 64 = k) (h1 : 1 ≤ k) (hk : k ≤ kind.size)
    (hpre : encodeLoop methods v (v.take j) 0 [] = .ok pre)
    (henc : encode methods v = .ok out)
    (hok : (decodeLoop methods j 0 i0 out 0).err = none)
    (hpos : (decodeLoop methods j 0 i0 out 0).buf = out.drop pre.length)
    (hi : (decodeLoop methods j 0 i0 out 0).i[j]? = some (.uint kind y))
    (hsame : lFunc (decodeLoop methods j 0 i0 out 0).i % 2 ^ 64 = k) :
    decodeLoop methods (j + 1) 0 i0 out 0
      = ⟨(decodeLoop methods j 0 i0 out 0).i.set j (.uint kind (x % 2 ^ (8 * k))),
          out.drop (pre.length + k), (decodeLoop methods j 0 i0 out 0).n + k, none⟩ ∧
    x % 2 ^ (8 * k) < 2 ^ (8 * kind.size) := by
  obtain ⟨_, _, h3⟩ := encode_uint_field methods v j kind x k lFunc pre hf hm hl hk hpre
  have hout := h3 out henc
  obtain ⟨hdec, hlt⟩ := uintDecode_lowBytes kind x k (wireFrom methods v (j + 1)) h1 hk
  have hes : encodingSizeOf methods (decodeLoop methods j 0 i0 out 0).i j = k := by
    unfold encodingSizeOf
    rw [hm]
    exact hsame
  have hbuf : (decodeLoop methods j 0 i0 out 0).buf
      = lowBytes k x ++ wireFrom methods v (j + 1) := by
    rw [hpos, hout, List.append_assoc, List.drop_left]
  have hrest : out.drop (pre.length + k) = wireFrom methods v (j + 1) := by
    have hlen : pre.length + k = (pre ++ lowBytes k x).length := by
      rw [List.length_append, lowBytes_length]
    rw [hout, hlen, List.drop_left]
  refine ⟨?_, hlt⟩
  rw [decodeLoop_add, if_pos hok, Nat.zero_add]
  simp only [decodeLoop, hi, hes, hbuf, hdec, hrest]

/-- The example of C3 behind a length field: `{u8 = 2; u32 = 0x12345678}`, the
second field with an overrider that returns the number in the first, encodes
to `[0x02, 0x56, 0x78]`, and decoding gives `{u8 = 2; u32 = 0x5678}`. -/
theorem decode_encode_override_witness :
    encode (fun j => if j = 1 then some (lengthFrom 0) else none)
      [.uint .u8 2, .uint .u32 0x12345678] = .ok [0x02, 0x56, 0x78] ∧
    decode (fun j => if j = 1 then some (lengthFrom 0) else none)
      [.uint .u8 0, .uint .u32 0] [0x02, 0x56, 0x78]
      = ⟨[.uint .u8 2, .uint .u32 0x5678], [], 3, none⟩ :=
  ⟨by decide,
   ((decode_encode_override (fun j => if j = 1 then some (lengthFrom 0) else none)
    [.uint .u8 2, .uint .u32 0x12345678] [.uint .u8 0, .uint .u32 0] 1 .u32 0x12345678 0 2
    (lengthFrom 0) [0x02] [0x02, 0x56, 0x78]
    rfl rfl (by decide) (by decide) (by decide) (by decide) (by decide) (by decide)
    (by decide) (by decide) (by decide)).1).trans (by decide)⟩

/-- C3 fails when the override width depends on a field that comes later. In
`{u32 = 0x12345678; u8 = 2}` the overrider of the first field returns the
number in the second: 2 when `encode` runs, which writes `[0x56, 0x78, 0x02]`,
but 0 when `decode` reaches the first field of the struct it fills, the second
field not being read yet. So `decode` takes no byte for the first field and
stores 0, not `0x12345678 mod 2^16 = 0x5678`, and goes on without error. -/
theorem decode_override_later_field :
    encodingSizeOf (fun j => if j = 0 then some (lengthFrom 1) else none)
      [.uint .u32 0x12345678, .uint .u8 2] 0 = 2 ∧
    encode (fun j => if j = 0 then some (lengthFrom 1) else none)
      [.uint .u32 0x12345678, .uint .u8 2] = .ok [0x56, 0x78, 0x02] ∧
    decode (fun j => if j = 0 then some (lengthFrom 1) else none)
      [.uint .u32 0, .uint .u8 0] [0x56, 0x78, 0x02]
      = ⟨[.uint .u32 0, .uint .u8 0x56], [0x78, 0x02], 1, none⟩ ∧
    0x12345678 % 2 ^ (8 * 2) = 0x5678 := by
  decide

theorem uintRead_ok (buf : List Nat) (kind : UKind) (size v : Nat) (buf1 : List Nat)
    (br : Nat) (h : uintRead buf kind size = .ok (v, buf1, br)) :
    br + buf1.length = buf.length := by
  unfold uintRead readerRead at h
  by_cases h0 : buf.length = 0
  · simp [h0] at h
  · by_cases hl : buf.length < size
    · simp [h0, hl] at h
    · simp only [h0, if_false, List.length_take, ne_eq, Nat.min_eq_left (Nat.not_lt.mp hl),
        not_true_eq_false, Except.ok.injEq, Prod.mk.injEq] at h
      obtain ⟨_, rfl, rfl⟩ := h
      simp only [List.length_drop]
      omega

theorem uintDecode_ok (buf : List Nat) (kind : UKind) (es v : Nat) (buf1 : List Nat)
    (br : Nat) (h : uintDecode buf kind es = .ok (v, buf1, br)) :
    br + buf1.length = buf.length := by
  unfold uintDecode at h
  split_ifs at h
  · exact uintRead_ok buf kind es v buf1 br h
  · exact uintRead_ok buf kind kind.size v buf1 br h

/-- A successful `arrayRead`: the field is a slice, the size is one the runtime
allocates, the reader is not at its end and holds that many bytes, which are
the bytes stored. -/
theorem arrayRead_inv (buf : List Nat) (slice : Bool) (n : Nat) (val buf1 : List Nat)
    (br : Nat) (h : arrayRead buf slice n = .ok (val, buf1, br)) :
    slice = true ∧ n ≤ maxAlloc ∧ buf ≠ [] ∧ n ≤ buf.length ∧
    val = buf.take n ∧ buf1 = buf.drop n ∧ br = n := by
  unfold arrayRead readerRead at h
  by_cases hm : n > maxAlloc
  · simp [hm] at h
  · by_cases h0 : buf.length = 0
    · simp [hm, h0] at h
    · by_cases hl : buf.length < n
      · simp [hm, h0, hl] at h
      · cases slice with
        | false => simp [hm, h0, Nat.min_eq_left (Nat.not_lt.mp hl)] at h
        | true =>
          simp only [hm, h0, if_false, List.length_take, ne_eq,
            Nat.min_eq_left (Nat.not_lt.mp hl), not_true_eq_false, if_true, Except.ok.injEq,
            Prod.mk.injEq] at h
          obtain ⟨h1, h2, h3⟩ := h
          refine ⟨rfl, Nat.not_lt.mp hm, ?_, Nat.not_lt.mp hl, h1.symm, h2.symm, h3.symm⟩
          intro hb
          exact h0 (by rw [hb]; rfl)

/-- Where `arrayRead` succeeds. -/
theorem arrayRead_eq (buf : List Nat) (n : Nat) (hm : n ≤ maxAlloc) (hne : buf ≠ [])
    (hn : n ≤ buf.length) : arrayRead buf true n = .ok (buf.take n, buf.drop n, n) := by
  have h0 : buf.length ≠ 0 := fun h => hne (List.length_eq_zero.mp h)
  unfold arrayRead readerRead
  simp [Nat.not_lt.mpr hm, h0, Nat.min_eq_left hn]

theorem arrayRead_ok (buf : List Nat) (slice : Bool) (n : Nat) (val buf1 : List Nat)
    (br : Nat) (h : arrayRead buf slice n = .ok (val, buf1, br)) :
    br + buf1.length = buf.length := by
  obtain ⟨_, _, _, hn, _, h2, h3⟩ := arrayRead_inv buf slice n val buf1 br h
  rw [h2, h3, List.length_drop]
  omega

theorem arrayDecode_ok (buf : List Nat) (slice : Bool) (es : Nat) (val buf1 : List Nat)
    (br : Nat) (h : arrayDecode buf slice es = .ok (val, buf1, br)) :
    br + buf1.length = buf.length := by
  unfold arrayDecode at h
  split_ifs at h
  · exact arrayRead_ok buf slice _ val buf1 br h
  · exact arrayRead_ok buf slice _ val buf1 br h

/-- An error-free run of the field loop counts exactly the bytes it took from
the reader. -/
theorem decodeLoop_consumed (methods : Methods) : ∀ (k j : Nat) (i : Struct)
    (buf : List Nat) (br : Nat), (decodeLoop methods k j i buf br).err = none →
    (decodeLoop methods k j i buf br).n + (decodeLoop methods k j i buf br).buf.length
      = br + buf.length
  | 0, _, _, _, _, _ => rfl
  | k + 1, j, i, buf, br, h => by
    cases hi : i[j]? with
    | none => simp [decodeLoop, hi] at h
    | some f =>
      cases f with
      | uint kind val =>
        cases hu : uintDecode buf kind (encodingSizeOf methods i j) with
        | error e => simp [decodeLoop, hi, hu] at h
        | ok r =>
          obtain ⟨v, buf1, n1⟩ := r
          simp only [decodeLoop, hi, hu] at h ⊢
          rw [decodeLoop_consumed methods k _ _ _ _ h]
          have := uintDecode_ok _ _ _ _ _ _ hu
          omega
      | bytes b =>
        cases hu : arrayDecode buf true (encodingSizeOf methods i j) with
        | error e => simp [decodeLoop, hi, hu] at h
        | ok r =>
          obtain ⟨v, buf1, n1⟩ := r
          simp only [decodeLoop, hi, hu] at h ⊢
          rw [decodeLoop_consumed methods k _ _ _ _ h]
          have := arrayDecode_ok _ _ _ _ _ _ hu
          omega
      | array b =>
        cases hu : arrayDecode buf false (encodingSizeOf methods i j) with
        | error e => simp [decodeLoop, hi, hu] at h
        | ok r =>
          obtain ⟨v, buf1, n1⟩ := r
          simp only [decodeLoop, hi, hu] at h ⊢
          rw [decodeLoop_consumed methods k _ _ _ _ h]
          have := arrayDecode_ok _ _ _ _ _ _ hu
          omega
      | other => simp [decodeLoop, hi] at h

/-- Where C6 holds: the last field `j` is a byte sequence without a length
overrider, the fields before it are read without error, and at least one byte
is left. Then the field gets all the bytes left and `decode` succeeds with the
length of the buffer as its count. -/
theorem decode_tail_nonempty (methods : Methods) (i : Struct) (data : List Nat) (j : Nat)
    (b0 : List Nat) (hj : j + 1 = i.length)
    (hok : (decodeLoop methods j 0 i data 0).err = none)
    (hf : (decodeLoop methods j 0 i data 0).i[j]? = some (.bytes b0))
    (hm : methods j = none)
    (hne : (decodeLoop methods j 0 i data 0).buf ≠ [])
    (hlen : data.length ≤ maxAlloc) :
    decode methods i data
      = ⟨(decodeLoop methods j 0 i data 0).i.set j
          (.bytes (decodeLoop methods j 0 i data 0).buf), [], data.length, none⟩ := by
  have hc := decodeLoop_consumed methods j 0 i data 0 hok
  have hb : (decodeLoop methods j 0 i data 0).buf.length ≤ maxAlloc := by omega
  have hmod : (decodeLoop methods j 0 i data 0).buf.length % 2 ^ 64
      = (decodeLoop methods j 0 i data 0).buf.length :=
    Nat.mod_eq_of_lt (Nat.lt_of_le_of_lt hb (by decide))
  unfold decode
  rw [← hj, decodeLoop_add, if_pos hok, Nat.zero_add]
  simp only [decodeLoop, hf, arrayDecode, encodingSizeOf, hm, if_true, hmod,
    arrayRead_eq _ _ hb hne (Nat.le_refl _), List.take_length, List.drop_length]
  congr 1
  omega

theorem wireFrom_step (methods : Methods) (v : Struct) (j : Nat) (f : Value)
    (hf : v[j]? = some f) :
    wireFrom methods v j = fieldBytes methods v j f ++ wireFrom methods v (j + 1) := by
  have hj : j < v.length := by
    rcases Nat.lt_or_ge j v.length with h | h
    · exact h
    · rw [List.getElem?_eq_none h] at hf
      simp at hf
  have hd : v.drop j = f :: v.drop (j + 1) := by
    rw [List.drop_eq_getElem_cons hj]
    congr 1
    rw [List.getElem?_eq_getElem hj] at hf
    exact Option.some.inj hf
  simp [wireFrom, hd, List.enumFrom_cons]

theorem wireFrom_end (methods : Methods) (v : Struct) (j : Nat) (hj : v.length ≤ j) :
    wireFrom methods v j = [] := by
  simp [wireFrom, List.drop_eq_nil_of_le hj]

theorem wireFrom_zero (methods : Methods) (v : Struct) :
    wireFrom methods v 0 = wireImage methods v := by
  simp [wireFrom, wireImage]

theorem take_drop_set (v i0 : Struct) (j : Nat) (f : Value) (hf : v[j]? = some f)
    (hl : i0.length = v.length) :
    (v.take j ++ i0.drop j).set j f = v.take (j + 1) ++ i0.drop (j + 1) := by
  have hj : j < v.length := by
    rcases Nat.lt_or_ge j v.length with h | h
    · exact h
    · rw [List.getElem?_eq_none h] at hf
      simp at hf
  have hj0 : j < i0.length := by omega
  have ht : (v.take j).length = j := by simp [List.length_take]; omega
  rw [List.set_append_right _ _ (by omega), ht, Nat.sub_self,
    List.drop_eq_getElem_cons hj0, List.set_cons_zero, List.take_succ, hf]
  simp

theorem zeroed_getElem? (v i0 : Struct) (h : i0.map Value.zeroed = v.map Value.zeroed)
    (j : Nat) : (i0[j]?).map Value.zeroed = (v[j]?).map Value.zeroed := by
  rw [← List.getElem?_map, ← List.getElem?_map, h]

theorem take_drop_getElem? (v i0 : Struct) (j : Nat) (hj : j < v.length) : (v.take j ++ i0.drop j)[j]? = i0[j]? := by
  have ht : (v.take j).length = j := by simp [List.length_take]; omega
  rw [List.getElem?_append_right (by omega), ht, Nat.sub_self]
  simp

theorem uintRead_lowBytes (kind : UKind) (x : Nat) (rest : List Nat)
    (hx : x < 2 ^ (8 * kind.size)) :
    uintRead (lowBytes kind.size x ++ rest) kind kind.size = .ok (x, rest, kind.size) := by
  have hp := UKind.size_pos kind
  have hne : (lowBytes kind.size x ++ rest).length ≠ 0 := by
    simp [lowBytes_length]
    omega
  have htake : (lowBytes kind.size x ++ rest).take kind.size = lowBytes kind.size x := by
    have := List.take_left (lowBytes kind.size x) rest
    rwa [lowBytes_length] at this
  have hdrop : (lowBytes kind.size x ++ rest).drop kind.size = rest := by
    have := List.drop_left (lowBytes kind.size x) rest
    rwa [lowBytes_length] at this
  simp only [uintRead, readerRead, hne, if_false, htake, hdrop, lowBytes_length, ne_eq,
    not_true_eq_false, accumulate_lowBytes kind.size x (UKind.size_le kind),
    Nat.mod_eq_of_lt hx, Nat.mod_mod]

theorem arrayRead_exact (b rest : List Nat) (hne : b ++ rest ≠ [])
    (hm : b.length ≤ maxAlloc) :
    arrayRead (b ++ rest) true b.length = .ok (b, rest, b.length) := by
  rw [arrayRead_eq _ _ hm hne (by simp), List.take_left, List.drop_left]

theorem Conforming.length_eq {methods : Methods} {v i0 : Struct}
    (hc : Conforming methods v i0) : i0.length = v.length := by
  simpa using congrArg List.length hc.shape

theorem Conforming.uintDecode_eq {methods : Methods} {v i0 : Struct}
    (hc : Conforming methods v i0) (j : Nat) (kind : UKind) (x : Nat) (rest : List Nat)
    (hf : v[j]? = some (.uint kind x)) :
    uintDecode (lowBytes kind.size x ++ rest) kind (encodingSizeOf methods v j)
      = .ok (x, rest, kind.size) := by
  obtain ⟨hx, hw⟩ := hc.uints j kind x hf
  unfold uintDecode
  unfold effectiveWidth at hw
  by_cases hd : encodingSizeOf methods v j = CodecDefaultSize
  · simp [hd, uintRead_lowBytes kind x _ hx]
  · simp only [hd, if_false] at hw
    simp [hd, hw, uintRead_lowBytes kind x _ hx]

theorem Conforming.arrayDecode_eq {methods : Methods} {v i0 : Struct}
    (hc : Conforming methods v i0) (j : Nat) (b : List Nat)
    (hf : v[j]? = some (.bytes b)) :
    arrayDecode (b ++ wireFrom methods v (j + 1)) true (encodingSizeOf methods v j)
      = .ok (b, wireFrom methods v (j + 1), b.length) := by
  have hne : b ++ wireFrom methods v (j + 1) ≠ [] := by
    have := hc.fed j b hf
    rwa [wireFrom_step methods v j _ hf] at this
  have hm := hc.sized j b hf
  unfold arrayDecode
  by_cases hd : encodingSizeOf methods v j = CodecDefaultSize
  · obtain ⟨hlast, hlt⟩ := hc.tail j b hf hd
    have hw : wireFrom methods v (j + 1) = [] := wireFrom_end methods v (j + 1) (by omega)
    rw [if_pos hd, hw, List.append_nil, Nat.mod_eq_of_lt hlt]
    have := arrayRead_exact b [] (by rw [List.append_nil]; rw [hw, List.append_nil] at hne; exact hne) hm
    rwa [List.append_nil] at this
  · rw [if_neg hd, ← hc.bounded j b hf hd]
    exact arrayRead_exact b _ hne hm

theorem decodeLoop_conforming (methods : Methods) (v i0 : Struct)
    (hc : Conforming methods v i0) :
    ∀ (k j br : Nat), j + k = v.length →
    decodeLoop methods k j (v.take j ++ i0.drop j) (wireFrom methods v j) br
      = ⟨v, [], br + (wireFrom methods v j).length, none⟩
  | 0, j, br, h => by
    have hl := hc.length_eq
    simp [decodeLoop, wireFrom_end methods v j (by omega),
      List.take_of_length_le (show v.length ≤ j by omega),
      List.drop_eq_nil_of_le (show i0.length ≤ j by omega)]
  | k + 1, j, br, h => by
    have hl := hc.length_eq
    have hj : j < v.length := by omega
    obtain ⟨f, hf⟩ : ∃ f, v[j]? = some f := ⟨v[j], List.getElem?_eq_getElem hj⟩
    have hcur := take_drop_getElem? v i0 j hj
    have hz := zeroed_getElem? v i0 hc.shape j
    have hes := hc.stable j hj
    rw [wireFrom_step methods v j f hf]
    rw [hf] at hz
    cases f with
    | uint kind x =>
      obtain ⟨y, hy⟩ : ∃ y, i0[j]? = some (.uint kind y) := by
        cases hi : i0[j]? with
        | none => simp [hi] at hz
        | some g =>
          cases g with
          | uint kind0 y =>
            simp only [hi, Option.map_some', Value.zeroed, Option.some.injEq,
              Value.uint.injEq, and_true] at hz
            exact ⟨y, by rw [hz]⟩
          | bytes b => simp [hi, Value.zeroed] at hz
          | array b => simp [hi, Value.zeroed] at hz
          | other => simp [hi, Value.zeroed] at hz
      have hud := hc.uintDecode_eq j kind x (wireFrom methods v (j + 1)) hf
      simp only [decodeLoop, hcur, hy, hes, fieldBytes, (hc.uints j kind x hf).2, hud]
      rw [take_drop_set v i0 j _ hf hl, decodeLoop_conforming methods v i0 hc k (j + 1) _
        (by omega)]
      simp only [List.length_append, lowBytes_length, Decoded.mk.injEq, true_and, and_true]
      omega
    | bytes b =>
      obtain ⟨y, hy⟩ : ∃ y, i0[j]? = some (.bytes y) := by
        cases hi : i0[j]? with
        | none => simp [hi] at hz
        | some g =>
          cases g with
          | uint kind0 y => simp [hi, Value.zeroed] at hz
          | bytes y => exact ⟨y, rfl⟩
          | array y => simp [hi, Value.zeroed] at hz
          | other => simp [hi, Value.zeroed] at hz
      have had := hc.arrayDecode_eq j b hf
      simp only [decodeLoop, hcur, hy, hes, fieldBytes, had]
      rw [take_drop_set v i0 j _ hf hl, decodeLoop_conforming methods v i0 hc k (j + 1) _
        (by omega)]
      simp only [List.length_append, Decoded.mk.injEq, true_and, and_true]
      omega
    | array b => exact absurd hf (hc.slices j b)
    | other => exact absurd hf (hc.supported j)

theorem encodeLoop_conforming (methods : Methods) (v i0 : Struct)
    (hc : Conforming methods v i0) :
    ∀ (k j : Nat) (buf : List Nat), j + k = v.length →
    encodeLoop methods v (v.drop j) j buf = .ok (buf ++ wireFrom methods v j)
  | 0, j, buf, h => by
    simp [encodeLoop, wireFrom_end methods v j (by omega),
      List.drop_eq_nil_of_le (show v.length ≤ j by omega)]
  | k + 1, j, buf, h => by
    have hj : j < v.length := by omega
    obtain ⟨f, hf⟩ : ∃ f, v[j]? = some f := ⟨v[j], List.getElem?_eq_getElem hj⟩
    have hd : v.drop j = f :: v.drop (j + 1) := by
      rw [List.drop_eq_getElem_cons hj]
      congr 1
      rw [List.getElem?_eq_getElem hj] at hf
      exact Option.some.inj hf
    rw [hd, wireFrom_step methods v j f hf]
    cases f with
    | uint kind x =>
      obtain ⟨_, hw⟩ := hc.uints j kind x hf
      have hue : uintEncode buf kind x (encodingSizeOf methods v j)
          = .ok (buf ++ lowBytes kind.size x) := by
        unfold effectiveWidth at hw
        by_cases hdef : encodingSizeOf methods v j = CodecDefaultSize
        · rw [uintEncode_eq buf kind x _ (Or.inl hdef), if_pos hdef]
        · rw [if_neg hdef] at hw
          rw [uintEncode_eq buf kind x _ (Or.inr (by omega)), if_neg hdef, hw]
      simp only [encodeLoop, hue, fieldBytes, hw]
      rw [encodeLoop_conforming methods v i0 hc k (j + 1) _ (by omega), List.append_assoc]
    | bytes b =>
      simp only [encodeLoop, arrayEncode, fieldBytes]
      rw [encodeLoop_conforming methods v i0 hc k (j + 1) _ (by omega), List.append_assoc]
    | array b => exact absurd hf (hc.slices j b)
    | other => exact absurd hf (hc.supported j)

/-- Where C1 holds: for a conforming value none of whose byte-sequence fields
starts at the end of the encoded data, `encode` succeeds with the wire format
of the value, and `decode` of these bytes into a struct of the same type
succeeds, yields the value and returns the number of bytes. -/
theorem decode_encode_conforming (methods : Methods) (v i0 : Struct)
    (hc : Conforming methods v i0) :
    encode methods v = .ok (wireImage methods v) ∧
    decode methods i0 (wireImage methods v)
      = ⟨v, [], (wireImage methods v).length, none⟩ := by
  constructor
  · have := encodeLoop_conforming methods v i0 hc v.length 0 [] (by omega)
    simpa [encode, wireFrom_zero] using this
  · have := decodeLoop_conforming methods v i0 hc v.length 0 0 (by omega)
    simpa [decode, hc.length_eq, wireFrom_zero] using this

/-- The struct `{u16 = 1; bytes = [0xAA, 0xBB, 0xCC]}` without length overriders
conforms, and makes the round trip. -/
theorem decode_encode_conforming_example :
    Conforming (fun _ => none) [.uint .u16 1, .bytes [0xAA, 0xBB, 0xCC]]
      [.uint .u16 0, .bytes []] ∧
    decode (fun _ => none) [.uint .u16 0, .bytes []] [0x00, 0x01, 0xAA, 0xBB, 0xCC]
      = ⟨[.uint .u16 1, .bytes [0xAA, 0xBB, 0xCC]], [], 5, none⟩ := by
  have hc : Conforming (fun _ => none) [.uint .u16 1, .bytes [0xAA, 0xBB, 0xCC]]
      [.uint .u16 0, .bytes []] := by
    refine ⟨rfl, ?_, ?_, ?_, ?_, ?_, ?_, ?_, ?_⟩
    · intro j
      match j with
      | 0 => simp
      | 1 => simp
      | j + 2 => simp
    · intro j b
      match j with
      | 0 => simp
      | 1 => simp
      | j + 2 => simp
    · intro j b hf
      match j with
      | 0 => simp at hf
      | 1 =>
        simp only [List.getElem?_cons_succ, List.getElem?_cons_zero, Option.some.injEq,
          Value.bytes.injEq] at hf
        subst hf
        decide
      | j + 2 => simp at hf
    · intro j kind x hf
      match j with
      | 0 =>
        simp only [List.getElem?_cons_zero, Option.some.injEq, Value.uint.injEq] at hf
        obtain ⟨rfl, rfl⟩ := hf
        decide
      | 1 => simp at hf
      | j + 2 => simp at hf
    · intro j b hf _
      match j with
      | 0 => simp at hf
      | 1 =>
        simp only [List.getElem?_cons_succ, List.getElem?_cons_zero, Option.some.injEq,
          Value.bytes.injEq] at hf
        subst hf
        decide
      | j + 2 => simp at hf
    · intro j b _ hd
      exact absurd rfl hd
    · intro j _
      rfl
    · intro j b hf
      match j with
      | 0 => simp at hf
      | 1 => decide
      | j + 2 => simp at hf
  exact ⟨hc, (decode_encode_conforming _ _ _ hc).2⟩

/-- C1 at a value with an empty trailing byte sequence. The struct
`{u16 = 7; bytes = []}` has no length overrider and encodes to `[0x00, 0x07]`;
decoding these two bytes into a zeroed struct reads the integer, then fails on
the byte sequence with `io.EOF`, the reader being at its end. -/
theorem decode_encode_empty_tail :
    encode (fun _ => none) [.uint .u16 7, .bytes []] = .ok [0x00, 0x07] ∧
    decode (fun _ => none) [.uint .u16 0, .bytes []] [0x00, 0x07]
      = ⟨[.uint .u16 7, .bytes []], [], 2, some .eof⟩ := by
  decide

/-- C6 at a buffer that ends with the preceding fields. Against `{u16; bytes}`
with no length overrider the buffer `[0x00, 0x01]` gives `u16 = 1` and then
`io.EOF` on the byte sequence, where nothing is left to take; with bytes left,
as in `[0x00, 0x01, 0xAA, 0xBB, 0xCC]`, the byte sequence takes them all and
`decode` returns 5. -/
theorem decode_tail_at_end :
    decode (fun _ => none) [.uint .u16 0, .bytes []] [0x00, 0x01]
      = ⟨[.uint .u16 1, .bytes []], [], 2, some .eof⟩ ∧
    decode (fun _ => none) [.uint .u16 0, .bytes []] [0x00, 0x01, 0xAA, 0xBB, 0xCC]
      = ⟨[.uint .u16 1, .bytes [0xAA, 0xBB, 0xCC]], [], 5, none⟩ := by
  decide

end Codec

/-! ## The scheduler -/

namespace Minq

theorem GoMap.keys_insert {K V : Type} [DecidableEq K] (m : GoMap K V) (k : K) (v : V) :
    (m.insert k v).keys = (m.keys.filter (fun x => decide (x ≠ k))) ++ [k] := by
  simp [GoMap.insert, GoMap.keys, List.filter_map, Function.comp_def]

theorem GoMap.keys_delete {K V : Type} [DecidableEq K] (m : GoMap K V) (k : K) :
    (m.delete k).keys = m.keys.filter (fun x => decide (x ≠ k)) := by
  simp [GoMap.delete, GoMap.keys, List.filter_map, Function.comp_def]

theorem GoMap.mem_keys_insert {K V : Type} [DecidableEq K] (m : GoMap K V) (k x : K) (v : V) :
    x ∈ (m.insert k v).keys ↔ x = k ∨ x ∈ m.keys := by
  rw [GoMap.keys_insert]
  simp only [List.mem_append, List.mem_filter, List.mem_singleton, decide_eq_true_eq]
  by_cases h : x = k <;> simp [h]

theorem GoMap.count_keys_insert {K V : Type} [DecidableEq K] (m : GoMap K V) (k : K) (v : V) :
    (m.insert k v).keys.count k = 1 := by
  rw [GoMap.keys_insert, List.count_append]
  have h : (m.keys.filter (fun x => decide (x ≠ k))).count k = 0 := by
    rw [List.count_eq_zero]
    intro hmem
    simp at hmem
  rw [h]
  simp

theorem GoMap.lookup_insert {K V : Type} [DecidableEq K] (m : GoMap K V) (k : K) (v : V) :
    (m.insert k v).lookup k = some v := by
  unfold GoMap.lookup GoMap.insert
  rw [List.find?_append]
  have h : (m.filter (fun e => decide (e.1 ≠ k))).find? (fun e => decide (e.1 = k)) = none := by
    rw [List.find?_eq_none]
    intro e he
    simp at he
    simp [he.2]
  simp [h]

theorem foldl_snoc (l : List Nat) : ∀ (init : List Nat),
    l.foldl (fun rval b => rval ++ [b]) init = init ++ l := by
  induction l with
  | nil => intro init; simp
  | cons x l ih => intro init; simp [ih]

theorem xor_eq_append (loc remote : List Nat) : xor loc remote = loc ++ remote := by
  simp [xor, foldl_snoc]

theorem newPath_of_socket (openSocket : UDPAddr → Option Nat) (s : Scheduler)
    (loc remote : UDPAddr) (usock : Nat) (h : openSocket loc = some usock) :
    newPath openSocket s loc remote =
      { s with
        paths := s.paths.insert (derivedID loc remote)
          (NewPath (Transport.udp usock remote) (derivedID loc remote) loc remote)
        pathIds := s.pathIds ++ [derivedID loc remote] } := by
  simp [newPath, h, derivedID, NewPath]

/-- C9. Path idempotence: when the socket opens, calling `newPath(local,
remote)` a second time leaves the keys of the path table as the first call
left them; the table holds exactly one entry for the pair, under the key
`adler32(local.String() ++ remote.String())`, and that entry has the two
endpoints. -/
theorem newPath_twice (s : Scheduler) (loc remote : UDPAddr)
    (open1 open2 : UDPAddr → Option Nat) (u1 u2 : Nat)
    (h1 : open1 loc = some u1) (h2 : open2 loc = some u2) :
    (newPath open2 (newPath open1 s loc remote) loc remote).paths.keys
      = (newPath open1 s loc remote).paths.keys ∧
    (newPath open2 (newPath open1 s loc remote) loc remote).paths.keys.count
      (adler32 (loc.str ++ remote.str)) = 1 ∧
    (newPath open2 (newPath open1 s loc remote) loc remote).paths.lookup
      (adler32 (loc.str ++ remote.str))
      = some (NewPath (Transport.udp u2 remote) (adler32 (loc.str ++ remote.str)) loc remote) := by
  have hid : derivedID loc remote = adler32 (loc.str ++ remote.str) := by
    simp [derivedID, xor_eq_append]
  rw [newPath_of_socket open2 _ loc remote u2 h2, newPath_of_socket open1 s loc remote u1 h1]
  simp only [hid]
  refine ⟨?_, GoMap.count_keys_insert _ _ _, GoMap.lookup_insert _ _ _⟩
  rw [GoMap.keys_insert, GoMap.keys_insert]
  simp [List.filter_append, List.filter_filter]

/-- One pair created twice on a new scheduler: the path table keeps the two
keys 0 and the derived ID. -/
theorem newPath_twice_witness :
    (newPath (fun _ => some 4)
      (newPath (fun _ => some 3) (NewScheduler [] []) (ipv4 "10.0.0.1:443")
        (ipv4 "192.168.0.1:80"))
      (ipv4 "10.0.0.1:443") (ipv4 "192.168.0.1:80")).paths.keys
      = (newPath (fun _ => some 3) (NewScheduler [] []) (ipv4 "10.0.0.1:443")
          (ipv4 "192.168.0.1:80")).paths.keys ∧
    (newPath (fun _ => some 4)
      (newPath (fun _ => some 3) (NewScheduler [] []) (ipv4 "10.0.0.1:443")
        (ipv4 "192.168.0.1:80"))
      (ipv4 "10.0.0.1:443") (ipv4 "192.168.0.1:80")).paths.keys.count
      (adler32 ((ipv4 "10.0.0.1:443").str ++ (ipv4 "192.168.0.1:80").str)) = 1 ∧
    (newPath (fun _ => some 4)
      (newPath (fun _ => some 3) (NewScheduler [] []) (ipv4 "10.0.0.1:443")
        (ipv4 "192.168.0.1:80"))
      (ipv4 "10.0.0.1:443") (ipv4 "192.168.0.1:80")).paths.lookup
      (adler32 ((ipv4 "10.0.0.1:443").str ++ (ipv4 "192.168.0.1:80").str))
      = some (NewPath (Transport.udp 4 (ipv4 "192.168.0.1:80"))
          (adler32 ((ipv4 "10.0.0.1:443").str ++ (ipv4 "192.168.0.1:80").str))
          (ipv4 "10.0.0.1:443") (ipv4 "192.168.0.1:80")) :=
  newPath_twice (NewScheduler [] []) (ipv4 "10.0.0.1:443") (ipv4 "192.168.0.1:80")
    (fun _ => some 3) (fun _ => some 4) 3 4 rfl rfl

theorem foldl_preserves {α β : Type} (P : α → Prop) (f : α → β → α)
    (hf : ∀ a b, P a → P (f a b)) : ∀ (l : List β) (a : α), P a → P (l.foldl f a)
  | [], _, h => h
  | b :: l, a, h => foldl_preserves P f hf l (f a b) (hf a b h)

theorem KeysListed.congr (s t : Scheduler) (hp : t.paths = s.paths)
    (hi : t.pathIds = s.pathIds) (h : KeysListed s) : KeysListed t := by
  intro id hid
  rw [hi]
  rw [hp] at hid
  exact h id hid

theorem newPath_keysListed (openSocket : UDPAddr → Option Nat) (s : Scheduler)
    (loc remote : UDPAddr) (h : KeysListed s) : KeysListed (newPath openSocket s loc remote) := by
  unfold newPath
  cases openSocket loc with
  | none => exact h
  | some usock =>
    intro id hid
    simp only [NewPath] at hid ⊢
    rw [GoMap.mem_keys_insert] at hid
    rcases hid with rfl | hid
    · simp
    · exact List.mem_append_left _ (h id hid)

theorem removePath_keysListed (s : Scheduler) (pathId : Nat) (h : KeysListed s) :
    KeysListed (removePath s pathId) := by
  intro id hid
  simp only [removePath, GoMap.keys_delete, List.mem_filter] at hid
  exact h id hid.1

theorem Send_paths (transportSend : Transport → List Nat → Option Nat) (s s1 : Scheduler)
    (p : List Nat) (err : Option Nat) (h : Send transportSend s p = some (s1, err)) :
    s1.paths = s.paths ∧ s1.pathIds = s.pathIds ∧
    s1.lastPath = ((s.lastPath + 1) % 2 ^ 32) % (s.pathIds.length % 2 ^ 32) := by
  unfold Send at h
  simp only at h
  split at h
  · simp at h
  · split at h
    · simp at h
    · split at h
      · simp at h
      · split at h
        · simp only [Option.some.injEq, Prod.mk.injEq] at h
          obtain ⟨rfl, _⟩ := h
          exact ⟨rfl, rfl, rfl⟩
        · split at h
          · simp only [Option.some.injEq, Prod.mk.injEq] at h
            obtain ⟨rfl, _⟩ := h
            exact ⟨rfl, rfl, rfl⟩
          · split at h
            · simp only [Option.some.injEq, Prod.mk.injEq] at h
              obtain ⟨rfl, _⟩ := h
              exact ⟨rfl, rfl, rfl⟩
            · simp at h

/-- The half of C8 that every operation keeps: in every reachable state each
key of `paths` occurs in `pathIds`. -/
theorem reachable_keysListed (s : Scheduler) (h : Reachable s) : KeysListed s := by
  induction h with
  | init ipAddresses ipAddressesBool =>
    intro id hid
    have hk : (NewScheduler ipAddresses ipAddressesBool).paths.keys = [0] := rfl
    have hp : (NewScheduler ipAddresses ipAddressesBool).pathIds = [0] := rfl
    rw [hk] at hid
    rw [hp]
    exact hid
  | send transportSend p err _ hs ih =>
    obtain ⟨h1, h2, _⟩ := Send_paths _ _ _ _ _ hs
    intro id hid
    rw [h1] at hid
    rw [h2]
    exact ih id hid
  | newPath openSocket loc remote _ ih => exact newPath_keysListed _ _ _ _ ih
  | addLocalAddress openSocket loc _ ih =>
    unfold addLocalAddress
    apply foldl_preserves KeysListed _ _ _ _ ih
    intro a b ha
    split
    · exact newPath_keysListed _ _ _ _ ha
    · exact ha
  | addRemoteAddress openSocket remote _ ih =>
    unfold addRemoteAddress
    show KeysListed (List.foldl _ _ _)
    refine foldl_preserves KeysListed _ ?_ _ _ ?_
    · intro a b ha
      split
      · exact newPath_keysListed _ _ _ _ ha
      · exact ha
    · exact KeysListed.congr _ _ (by rfl) (by rfl) ih
  | initializePaths openSocket _ ih =>
    unfold initializePaths
    refine KeysListed.congr _ _ (by rfl) (by rfl) (foldl_preserves KeysListed _ ?_ _ _ ih)
    intro a b ha
    apply foldl_preserves KeysListed _ _ _ _ ha
    intro a1 b1 ha1
    split
    · exact newPath_keysListed _ _ _ _ ha1
    · exact ha1
  | removePath pathId _ ih => exact removePath_keysListed _ _ ih
  | removeAddress address _ ih =>
    unfold removeAddress
    apply foldl_preserves KeysListed
    · intro a b ha
      split
      · exact removePath_keysListed _ _ ha
      · exact ha
    · apply KeysListed.congr _ _ _ _ ih
      · simp only [containsBlocking, delete]
        split_ifs <;> rfl
      · simp only [containsBlocking, delete]
        split_ifs <;> rfl

/-- C8 at `removePath`. The scheduler built by `NewScheduler` has path zero in
both `paths` and `pathIds`; `removePath(0)` deletes the entry of `paths` and
leaves `pathIds` as it was, so the reachable state that results has the ID 0
in `pathIds` and no key in `paths`. -/
theorem removePath_keeps_pathIds :
    Reachable (removePath (NewScheduler [] []) 0) ∧
    (removePath (NewScheduler [] []) 0).pathIds = [0] ∧
    (removePath (NewScheduler [] []) 0).paths.keys = [] ∧
    ¬ Mirrored (removePath (NewScheduler [] []) 0) := by
  refine ⟨Reachable.removePath 0 (Reachable.init [] []), by decide, by decide, ?_⟩
  intro h
  have h0 := h.1 0 (by decide)
  have hk : (removePath (NewScheduler [] []) 0).paths.keys = [] := by decide
  rw [hk] at h0
  simp at h0

theorem isSameVersion_of_eq (loc remote : UDPAddr) (h : remote.is4 = loc.is4) :
    isSameVersion loc remote = true := by
  unfold isSameVersion
  rw [h]
  cases loc.is4 <;> simp

/-- C10, as amended. Two local and two remote addresses, all of the same IP
version, whose four (local, remote) pairs have pairwise distinct derived path
IDs, none of them the ID 0 of path zero: with socket opening succeeding,
`initializePaths` on a freshly constructed scheduler holding these addresses
leaves the path table with exactly five keys, the ID 0 and the four derived
IDs, that is exactly 4 new keys. -/
theorem initializePaths_cross_product (ipAddresses : GoMap GoString UDPAddr)
    (ipAddressesBool : GoMap GoString Bool) (remoteAddrs : GoMap GoString UDPAddr)
    (l1 l2 r1 r2 : UDPAddr) (openSocket : UDPAddr → Option Nat) (u1 u2 : Nat)
    (hl : ipAddresses.values = [l1, l2]) (hr : remoteAddrs.values = [r1, r2])
    (hv1 : l2.is4 = l1.is4) (hv2 : r1.is4 = l1.is4) (hv3 : r2.is4 = l1.is4)
    (ho1 : openSocket l1 = some u1) (ho2 : openSocket l2 = some u2)
    (hid : [0, derivedID l1 r1, derivedID l1 r2, derivedID l2 r1, derivedID l2 r2].Nodup) :
    (freshScheduler ipAddresses ipAddressesBool remoteAddrs).paths.keys = [0] ∧
    (initializePaths openSocket
      (freshScheduler ipAddresses ipAddressesBool remoteAddrs)).paths.keys.Nodup ∧
    (initializePaths openSocket
      (freshScheduler ipAddresses ipAddressesBool remoteAddrs)).paths.keys.length = 5 ∧
    ∀ k, k ∈ (initializePaths openSocket
        (freshScheduler ipAddresses ipAddressesBool remoteAddrs)).paths.keys ↔
      k ∈ [0, derivedID l1 r1, derivedID l1 r2, derivedID l2 r1, derivedID l2 r2] := by
  have e11 := isSameVersion_of_eq l1 r1 hv2
  have e12 := isSameVersion_of_eq l1 r2 hv3
  have e21 := isSameVersion_of_eq l2 r1 (hv2.trans hv1.symm)
  have e22 := isSameVersion_of_eq l2 r2 (hv3.trans hv1.symm)
  have hkeys : (initializePaths openSocket
      (freshScheduler ipAddresses ipAddressesBool remoteAddrs)).paths.keys
      = [0, derivedID l1 r1, derivedID l1 r2, derivedID l2 r1, derivedID l2 r2] := by
    simp only [List.nodup_cons, List.mem_cons, List.mem_singleton, not_or, List.not_mem_nil,
      not_false_eq_true, List.nodup_nil, and_true] at hid
    obtain ⟨⟨h01, h02, h03, h04⟩, ⟨h12, h13, h14⟩, ⟨h23, h24⟩, h34⟩ := hid
    simp only [initializePaths, freshScheduler, NewScheduler, hl, hr, List.foldl_cons,
      List.foldl_nil, e11, e12, e21, e22, if_true,
      newPath_of_socket openSocket _ l1 _ u1 ho1, newPath_of_socket openSocket _ l2 _ u2 ho2,
      GoMap.keys_insert]
    simp [GoMap.keys, List.filter_cons, h01, h02, h03, h04, h12, h13, h14, h23, h24, h34]
  refine ⟨rfl, ?_, ?_, ?_⟩
  · rw [hkeys]; exact hid
  · rw [hkeys]; rfl
  · intro k; rw [hkeys]

/-- Two local ports of 10.0.0.1 and two remote hosts: four distinct path
IDs. -/
theorem initializePaths_cross_product_witness :
    (freshScheduler [(ascii "a", ipv4 "10.0.0.1:443"), (ascii "b", ipv4 "10.0.0.1:444")] []
      [(ascii "c", ipv4 "192.168.0.1:80"), (ascii "d", ipv4 "192.168.0.2:80")]).paths.keys
      = [0] ∧
    (initializePaths (fun _ => some 3)
      (freshScheduler [(ascii "a", ipv4 "10.0.0.1:443"), (ascii "b", ipv4 "10.0.0.1:444")] []
        [(ascii "c", ipv4 "192.168.0.1:80"), (ascii "d", ipv4 "192.168.0.2:80")])).paths.keys.Nodup ∧
    (initializePaths (fun _ => some 3)
      (freshScheduler [(ascii "a", ipv4 "10.0.0.1:443"), (ascii "b", ipv4 "10.0.0.1:444")] []
        [(ascii "c", ipv4 "192.168.0.1:80"), (ascii "d", ipv4 "192.168.0.2:80")])).paths.keys.length
      = 5 ∧
    ∀ k, k ∈ (initializePaths (fun _ => some 3)
        (freshScheduler [(ascii "a", ipv4 "10.0.0.1:443"), (ascii "b", ipv4 "10.0.0.1:444")] []
          [(ascii "c", ipv4 "192.168.0.1:80"), (ascii "d", ipv4 "192.168.0.2:80")])).paths.keys ↔
      k ∈ [0, derivedID (ipv4 "10.0.0.1:443") (ipv4 "192.168.0.1:80"),
        derivedID (ipv4 "10.0.0.1:443") (ipv4 "192.168.0.2:80"),
        derivedID (ipv4 "10.0.0.1:444") (ipv4 "192.168.0.1:80"),
        derivedID (ipv4 "10.0.0.1:444") (ipv4 "192.168.0.2:80")] :=
  initializePaths_cross_product _ [] _ (ipv4 "10.0.0.1:443") (ipv4 "10.0.0.1:444")
    (ipv4 "192.168.0.1:80") (ipv4 "192.168.0.2:80") (fun _ => some 3) 3 3 rfl rfl rfl rfl rfl
    rfl rfl (by decide)

/-- C10 fails for the local addresses 10.0.0.1:443 and 10.0.0.1:4431 and the
remote addresses 192.168.0.1:80 and 92.168.0.1:80, all IPv4 and all different:
the pairs (10.0.0.1:443, 192.168.0.1:80) and (10.0.0.1:4431, 92.168.0.1:80)
concatenate to the same text, get the same path ID, and `initializePaths`
leaves 4 keys in the path table, 3 of them new. -/
theorem initializePaths_colliding_pairs :
    ipv4 "10.0.0.1:443" ≠ ipv4 "10.0.0.1:4431" ∧
    ipv4 "192.168.0.1:80" ≠ ipv4 "92.168.0.1:80" ∧
    derivedID (ipv4 "10.0.0.1:443") (ipv4 "192.168.0.1:80")
      = derivedID (ipv4 "10.0.0.1:4431") (ipv4 "92.168.0.1:80") ∧
    (initializePaths (fun _ => some 3)
      (freshScheduler
        [(ascii "10.0.0.1:443", ipv4 "10.0.0.1:443"),
         (ascii "10.0.0.1:4431", ipv4 "10.0.0.1:4431")] []
        [(ascii "192.168.0.1:80", ipv4 "192.168.0.1:80"),
         (ascii "92.168.0.1:80", ipv4 "92.168.0.1:80")])).paths.keys.length = 4 := by
  decide

theorem GoMap.lookup_delete_ne {K V : Type} [DecidableEq K] (m : GoMap K V) (k x : K)
    (h : x ≠ k) : (m.delete k).lookup x = m.lookup x := by
  unfold GoMap.lookup GoMap.delete
  rw [List.find?_filter]
  congr 2
  funext e
  by_cases he : e.1 = x
  · simp [he, h]
  · simp [he]

theorem GoMap.lookup_insert_ne {K V : Type} [DecidableEq K] (m : GoMap K V) (k x : K) (v : V)
    (h : x ≠ k) : (m.insert k v).lookup x = m.lookup x := by
  have hd := GoMap.lookup_delete_ne m k x h
  unfold GoMap.lookup GoMap.delete at hd
  unfold GoMap.lookup GoMap.insert
  rw [List.find?_append]
  have hk : List.find? (fun e => decide (e.1 = x)) [(k, v)] = none := by
    simp [List.find?_cons, Ne.symm h]
  rw [hk, Option.or_none]
  exact hd

theorem GoMap.not_mem_keys_delete {K V : Type} [DecidableEq K] (m : GoMap K V) (k : K) :
    k ∉ (m.delete k).keys := by
  rw [GoMap.keys_delete]
  simp

theorem GoMap.lookup_isSome {K V : Type} [DecidableEq K] (m : GoMap K V) (k : K) :
    (m.lookup k).isSome = true ↔ k ∈ m.keys := by
  unfold GoMap.lookup GoMap.keys
  rw [Option.isSome_map', List.find?_isSome]
  simp only [decide_eq_true_eq, List.mem_map]

theorem GoMap.delete_eq_self {K V : Type} [DecidableEq K] (m : GoMap K V) (k : K)
    (h : (m.lookup k).isSome = false) : m.delete k = m := by
  unfold GoMap.delete
  rw [List.filter_eq_self]
  intro e he
  have hk : ¬ k ∈ m.keys := by
    rw [← GoMap.lookup_isSome, h]
    simp
  have : e.1 ≠ k := by
    intro hek
    apply hk
    rw [← hek]
    exact List.mem_map_of_mem Prod.fst he
  simpa using this

/-- The loop of `removeAddress` over the path table, started from a state `s`
on a list `l` of entries. -/
theorem removeLoop_tables (address : GoString) : ∀ (l : List (Nat × Path)) (s : Scheduler),
    (l.foldl (fun s e => if e.2.contains address then removePath s e.1 else s) s).localAddrs
      = s.localAddrs ∧
    (l.foldl (fun s e => if e.2.contains address then removePath s e.1 else s) s).remoteAddrs
      = s.remoteAddrs ∧
    (l.foldl (fun s e => if e.2.contains address then removePath s e.1 else s) s).pathIds
      = s.pathIds ∧
    (l.foldl (fun s e => if e.2.contains address then removePath s e.1 else s) s).lastPath
      = s.lastPath
  | [], _ => ⟨rfl, rfl, rfl, rfl⟩
  | e :: l, s => by
    rw [List.foldl_cons]
    have ih := removeLoop_tables address l
      (if e.2.contains address then removePath s e.1 else s)
    by_cases hc : e.2.contains address = true
    · simp only [hc, if_true] at ih ⊢
      exact ih
    · simp only [hc] at ih ⊢
      exact ih

theorem removeLoop_paths (address : GoString) : ∀ (l : List (Nat × Path)) (s : Scheduler),
    (l.foldl (fun s e => if e.2.contains address then removePath s e.1 else s) s).paths
      = s.paths.filter (fun e =>
          decide (e.1 ∉ (l.filter (fun x => x.2.contains address)).map Prod.fst))
  | [], s => by simp
  | x :: l, s => by
    rw [List.foldl_cons, removeLoop_paths address l]
    by_cases hc : x.2.contains address = true
    · simp only [hc, if_true, removePath, GoMap.delete, List.filter_filter, List.filter_cons,
        List.map_cons, List.mem_cons, not_or]
      apply List.filter_congr
      intro e _
      by_cases h1 : e.1 = x.1 <;> simp [h1]
    · simp only [hc, List.filter_cons]
      rfl

theorem removeAddress_keeps (s : Scheduler) (address : UDPAddr) :
    (removeAddress s address).localAddrs = s.localAddrs.delete address.str ∧
    (removeAddress s address).remoteAddrs = s.remoteAddrs.delete address.str ∧
    (removeAddress s address).pathIds = s.pathIds ∧
    (removeAddress s address).lastPath = s.lastPath := by
  unfold removeAddress
  simp only
  obtain ⟨h1, h2, h3, h4⟩ := removeLoop_tables address.str
    (if containsBlocking (if containsBlocking s address .remote then delete s address .remote
        else s) address .loc = true
      then delete (if containsBlocking s address .remote then delete s address .remote else s)
        address .loc
      else (if containsBlocking s address .remote then delete s address .remote else s)).paths
    (if containsBlocking (if containsBlocking s address .remote then delete s address .remote
        else s) address .loc = true
      then delete (if containsBlocking s address .remote then delete s address .remote else s)
        address .loc
      else (if containsBlocking s address .remote then delete s address .remote else s))
  rw [h1, h2, h3, h4]
  by_cases hr : (s.remoteAddrs.lookup address.str).isSome = true
  · by_cases hl : (s.localAddrs.lookup address.str).isSome = true
    · simp [containsBlocking, delete, hr, hl]
    · simp only [Bool.not_eq_true] at hl
      simp [containsBlocking, delete, hr, hl, GoMap.delete_eq_self _ _ hl]
  · simp only [Bool.not_eq_true] at hr
    by_cases hl : (s.localAddrs.lookup address.str).isSome = true
    · simp [containsBlocking, delete, hr, hl, GoMap.delete_eq_self _ _ hr]
    · simp only [Bool.not_eq_true] at hl
      simp [containsBlocking, delete, hr, hl, GoMap.delete_eq_self _ _ hr,
        GoMap.delete_eq_self _ _ hl]

/-- C17. After `removeAddress(a)` the string form of `a` is a key of neither
address table, and both tables are what they were without the entries under
that key: every other entry is unchanged. -/
theorem removeAddress_tables (s : Scheduler) (address : UDPAddr) :
    address.str ∉ (removeAddress s address).localAddrs.keys ∧
    address.str ∉ (removeAddress s address).remoteAddrs.keys ∧
    (removeAddress s address).localAddrs
      = s.localAddrs.filter (fun e => decide (e.1 ≠ address.str)) ∧
    (removeAddress s address).remoteAddrs
      = s.remoteAddrs.filter (fun e => decide (e.1 ≠ address.str)) ∧
    ∀ k, k ≠ address.str →
      (removeAddress s address).localAddrs.lookup k = s.localAddrs.lookup k ∧
      (removeAddress s address).remoteAddrs.lookup k = s.remoteAddrs.lookup k := by
  obtain ⟨h1, h2, _, _⟩ := removeAddress_keeps s address
  rw [h1, h2]
  refine ⟨GoMap.not_mem_keys_delete _ _, GoMap.not_mem_keys_delete _ _, rfl, rfl, ?_⟩
  intro k hk
  exact ⟨GoMap.lookup_delete_ne _ _ _ hk, GoMap.lookup_delete_ne _ _ _ hk⟩

theorem removeAddress_loop (s : Scheduler) (address : UDPAddr) :
    ∃ s2 : Scheduler, s2.paths = s.paths ∧
      removeAddress s address = s2.paths.foldl
        (fun s e => if e.2.contains address.str then removePath s e.1 else s) s2 := by
  refine ⟨_, ?_, rfl⟩
  simp only [containsBlocking, delete]
  split_ifs <;> rfl

/-- C12. Removal cascade: in a state whose path table holds no key twice,
`removeAddress(a)` leaves the path table as it was without the entries whose
path has `a` as its local or remote endpoint (`Path.contains` of the string
form of `a`); the entries that stay are unchanged and in place. -/
theorem removeAddress_paths (s : Scheduler) (address : UDPAddr)
    (hnd : s.paths.keys.Nodup) :
    (removeAddress s address).paths
      = s.paths.filter (fun e => !e.2.contains address.str) ∧
    ∀ e, e ∈ (removeAddress s address).paths ↔
      e ∈ s.paths ∧ e.2.contains address.str = false := by
  have h : (removeAddress s address).paths
      = s.paths.filter (fun e => !e.2.contains address.str) := by
    obtain ⟨s2, hp, hr⟩ := removeAddress_loop s address
    rw [hr, removeLoop_paths, hp]
    apply List.filter_congr
    intro e he
    by_cases hc : e.2.contains address.str = true
    · have hm : e.1 ∈ (s.paths.filter (fun x => x.2.contains address.str)).map Prod.fst :=
        List.mem_map_of_mem Prod.fst (List.mem_filter.mpr ⟨he, hc⟩)
      simp [hc, hm]
    · have hm : e.1 ∉ (s.paths.filter (fun x => x.2.contains address.str)).map Prod.fst := by
        intro hmem
        obtain ⟨x, hx, hxe⟩ := List.mem_map.mp hmem
        obtain ⟨hx1, hx2⟩ := List.mem_filter.mp hx
        have := List.inj_on_of_nodup_map hnd hx1 he hxe
        rw [this] at hx2
        exact hc hx2
      simp [hc, hm]
  refine ⟨h, ?_⟩
  intro e
  rw [h, List.mem_filter]
  simp

/-- The example of C12: 10.0.0.1:443 is the local endpoint of two of the three
paths created and the remote endpoint of none; removing it leaves path zero and
the third path. -/
theorem removeAddress_paths_witness :
    (removeAddress
      (newPath (fun _ => some 3)
        (newPath (fun _ => some 3)
          (newPath (fun _ => some 3) (NewScheduler [] [])
            (ipv4 "10.0.0.1:443") (ipv4 "192.168.0.1:80"))
          (ipv4 "10.0.0.1:443") (ipv4 "192.168.0.2:80"))
        (ipv4 "10.0.0.2:443") (ipv4 "192.168.0.1:80"))
      (ipv4 "10.0.0.1:443")).paths.keys
      = [0, derivedID (ipv4 "10.0.0.2:443") (ipv4 "192.168.0.1:80")] ∧
    ∀ e, e ∈ (removeAddress
      (newPath (fun _ => some 3)
        (newPath (fun _ => some 3)
          (newPath (fun _ => some 3) (NewScheduler [] [])
            (ipv4 "10.0.0.1:443") (ipv4 "192.168.0.1:80"))
          (ipv4 "10.0.0.1:443") (ipv4 "192.168.0.2:80"))
        (ipv4 "10.0.0.2:443") (ipv4 "192.168.0.1:80"))
      (ipv4 "10.0.0.1:443")).paths ↔
      e ∈ (newPath (fun _ => some 3)
        (newPath (fun _ => some 3)
          (newPath (fun _ => some 3) (NewScheduler [] [])
            (ipv4 "10.0.0.1:443") (ipv4 "192.168.0.1:80"))
          (ipv4 "10.0.0.1:443") (ipv4 "192.168.0.2:80"))
        (ipv4 "10.0.0.2:443") (ipv4 "192.168.0.1:80")).paths ∧
      e.2.contains (ipv4 "10.0.0.1:443").str = false :=
  ⟨by decide,
   (removeAddress_paths _ (ipv4 "10.0.0.1:443") (by decide)).2⟩

theorem isSameVersion_iff (loc remote : UDPAddr) :
    isSameVersion loc remote = true ↔ loc.is4 = remote.is4 := by
  unfold isSameVersion
  cases loc.is4 <;> cases remote.is4 <;> simp

theorem newPath_tables (openSocket : UDPAddr → Option Nat) (s : Scheduler)
    (loc remote : UDPAddr) :
    (newPath openSocket s loc remote).localAddrs = s.localAddrs ∧
    (newPath openSocket s loc remote).remoteAddrs = s.remoteAddrs ∧
    (newPath openSocket s loc remote).localAddrsBool = s.localAddrsBool := by
  unfold newPath
  cases openSocket loc <;> exact ⟨rfl, rfl, rfl⟩

theorem newPath_lookup_ne (openSocket : UDPAddr → Option Nat) (s : Scheduler)
    (loc remote : UDPAddr) (k : Nat) (h : k ≠ derivedID loc remote) :
    (newPath openSocket s loc remote).paths.lookup k = s.paths.lookup k := by
  cases ho : openSocket loc with
  | none => simp [newPath, ho]
  | some u =>
    rw [newPath_of_socket openSocket s loc remote u ho]
    exact GoMap.lookup_insert_ne _ _ _ _ h

theorem newPath_lookup (openSocket : UDPAddr → Option Nat) (s : Scheduler)
    (loc remote : UDPAddr) (u : Nat) (ho : openSocket loc = some u) :
    (newPath openSocket s loc remote).paths.lookup (derivedID loc remote)
      = some (NewPath (Transport.udp u remote) (derivedID loc remote) loc remote) := by
  rw [newPath_of_socket openSocket s loc remote u ho]
  exact GoMap.lookup_insert _ _ _

/-- The loop of `addRemoteAddress` keeps an entry of the path table that no
later call of `newPath` overwrites with another path. -/
theorem addRemoteLoop_keeps (openSocket : UDPAddr → Option Nat) (remote : UDPAddr) (k : Nat)
    (v : Path) : ∀ (l : List UDPAddr) (s : Scheduler), s.paths.lookup k = some v →
    (∀ y, y ∈ l → isSameVersion y remote = true → derivedID y remote = k →
      ∀ u, openSocket y = some u → NewPath (Transport.udp u remote) k y remote = v) →
    (l.foldl (fun s loc =>
      if isSameVersion loc remote then newPath openSocket s loc remote else s) s).paths.lookup k
      = some v
  | [], _, h, _ => h
  | x :: l, s, h, hx => by
    rw [List.foldl_cons]
    apply addRemoteLoop_keeps openSocket remote k v l
    · by_cases hv : isSameVersion x remote = true
      · simp only [hv, if_true]
        by_cases hk : k = derivedID x remote
        · cases ho : openSocket x with
          | none => simpa [newPath, ho] using h
          | some u =>
            rw [hk, newPath_lookup openSocket s x remote u ho]
            have := hx x (List.mem_cons_self _ _) hv hk.symm u ho
            rw [← this, hk]
        · rw [newPath_lookup_ne openSocket s x remote k hk]
          exact h
      · simp only [hv]
        exact h
    · intro y hy
      exact hx y (List.mem_cons_of_mem _ hy)

/-- The loop of `addRemoteAddress` leaves the path of a local address `x` in
the path table when no other address of the loop whose path is created has the
path ID of `x`. -/
theorem addRemoteLoop_lookup (openSocket : UDPAddr → Option Nat) (remote : UDPAddr) :
    ∀ (l : List UDPAddr) (s : Scheduler) (x : UDPAddr), x ∈ l →
    isSameVersion x remote = true → ∀ u, openSocket x = some u →
    (∀ y, y ∈ l → isSameVersion y remote = true → (openSocket y).isSome = true →
      derivedID y remote = derivedID x remote → y = x) →
    (l.foldl (fun s loc =>
      if isSameVersion loc remote then newPath openSocket s loc remote else s) s).paths.lookup
        (derivedID x remote)
      = some (NewPath (Transport.udp u remote) (derivedID x remote) x remote)
  | [], _, x, hx, _, _, _, _ => by simp at hx
  | y :: l, s, x, hx, hv, u, ho, hone => by
    rw [List.foldl_cons]
    by_cases hxl : x ∈ l
    · exact addRemoteLoop_lookup openSocket remote l _ x hxl hv u ho
        (fun z hz => hone z (List.mem_cons_of_mem _ hz))
    · have hxy : x = y := by
        rcases List.mem_cons.mp hx with h | h
        · exact h
        · exact absurd h hxl
      subst hxy
      apply addRemoteLoop_keeps
      · simp only [hv, if_true]
        exact newPath_lookup openSocket s x remote u ho
      · intro z hz hzv hzk w hw
        have hzx : z = x :=
          hone z (List.mem_cons_of_mem _ hz) hzv (by rw [hw]; rfl) hzk
        subst hzx
        rw [ho] at hw
        cases hw
        rfl

theorem addRemoteLoop_tables (openSocket : UDPAddr → Option Nat) (remote : UDPAddr) :
    ∀ (l : List UDPAddr) (s : Scheduler),
    (l.foldl (fun s loc =>
      if isSameVersion loc remote then newPath openSocket s loc remote else s) s).remoteAddrs
      = s.remoteAddrs ∧
    (l.foldl (fun s loc =>
      if isSameVersion loc remote then newPath openSocket s loc remote else s) s).localAddrs
      = s.localAddrs
  | [], _ => ⟨rfl, rfl⟩
  | x :: l, s => by
    rw [List.foldl_cons]
    obtain ⟨h1, h2⟩ := addRemoteLoop_tables openSocket remote l
      (if isSameVersion x remote then newPath openSocket s x remote else s)
    rw [h1, h2]
    by_cases hv : isSameVersion x remote = true
    · simp only [hv, if_true]
      exact ⟨(newPath_tables openSocket s x remote).2.1, (newPath_tables openSocket s x remote).1⟩
    · simp only [hv]
      exact ⟨rfl, rfl⟩

/-- C16, as amended. After `addRemoteAddress(r)` the remote table maps the
string form of `r` to `r` and every other key to what it mapped to before.
And for every local address `l` of the IP version of `r` whose socket opens:
if no other address of the local table of that version whose socket opens
gives the derived path ID of `(l, r)` with `r`, then the path table holds,
under that ID, the path of the pair `(l, r)`. -/
theorem addRemoteAddress_effect (openSocket : UDPAddr → Option Nat) (s : Scheduler)
    (remote : UDPAddr) :
    (addRemoteAddress openSocket s remote).remoteAddrs.lookup remote.str = some remote ∧
    (∀ k, k ≠ remote.str →
      (addRemoteAddress openSocket s remote).remoteAddrs.lookup k = s.remoteAddrs.lookup k) ∧
    ∀ l, l ∈ s.localAddrs.values → isSameVersion l remote = true →
      ∀ u, openSocket l = some u →
      (∀ l2, l2 ∈ s.localAddrs.values → isSameVersion l2 remote = true →
        (openSocket l2).isSome = true → derivedID l2 remote = derivedID l remote → l2 = l) →
      (addRemoteAddress openSocket s remote).paths.lookup (derivedID l remote)
        = some (NewPath (Transport.udp u remote) (derivedID l remote) l remote) := by
  unfold addRemoteAddress
  simp only
  refine ⟨?_, ?_, ?_⟩
  · rw [(addRemoteLoop_tables openSocket remote _ _).1]
    exact GoMap.lookup_insert _ _ _
  · intro k hk
    rw [(addRemoteLoop_tables openSocket remote _ _).1]
    exact GoMap.lookup_insert_ne _ _ _ _ hk
  · intro l hl hv u ho hone
    exact addRemoteLoop_lookup openSocket remote _ _ l hl hv u ho hone

/-- One remote address added to a scheduler with three local addresses, two of
which give the same path ID with it: the third, 10.0.0.1:443, shares its path
ID with neither and has its path in the path table. -/
theorem addRemoteAddress_effect_witness :
    derivedID (ipv4 "10.0.0.1:121") (ipv4 "192.168.0.1:80")
      = derivedID (ipv4 "10.0.0.1:202") (ipv4 "192.168.0.1:80") ∧
    (addRemoteAddress (fun _ => some 3)
      (NewScheduler [(ascii "10.0.0.1:121", ipv4 "10.0.0.1:121"),
        (ascii "10.0.0.1:443", ipv4 "10.0.0.1:443"),
        (ascii "10.0.0.1:202", ipv4 "10.0.0.1:202")] [])
      (ipv4 "192.168.0.1:80")).paths.lookup
        (derivedID (ipv4 "10.0.0.1:443") (ipv4 "192.168.0.1:80"))
      = some (NewPath (Transport.udp 3 (ipv4 "192.168.0.1:80"))
          (derivedID (ipv4 "10.0.0.1:443") (ipv4 "192.168.0.1:80"))
          (ipv4 "10.0.0.1:443") (ipv4 "192.168.0.1:80")) :=
  ⟨by decide,
   (addRemoteAddress_effect (fun _ => some 3)
    (NewScheduler [(ascii "10.0.0.1:121", ipv4 "10.0.0.1:121"),
      (ascii "10.0.0.1:443", ipv4 "10.0.0.1:443"),
      (ascii "10.0.0.1:202", ipv4 "10.0.0.1:202")] [])
    (ipv4 "192.168.0.1:80")).2.2 (ipv4 "10.0.0.1:443") (by decide) (by decide) 3 rfl
    (by decide)⟩

/-- C16 fails for the local addresses 10.0.0.1:121 and 10.0.0.1:202 and the
remote address 192.168.0.1:80, all IPv4: the two pairs have the same Adler-32
path ID, so the second `newPath` of the loop overwrites the first. Whichever
local address the loop visits first, the path table ends with no path for
it. -/
theorem addRemoteAddress_colliding_locals :
    ipv4 "10.0.0.1:121" ≠ ipv4 "10.0.0.1:202" ∧
    derivedID (ipv4 "10.0.0.1:121") (ipv4 "192.168.0.1:80")
      = derivedID (ipv4 "10.0.0.1:202") (ipv4 "192.168.0.1:80") ∧
    ((addRemoteAddress (fun _ => some 3)
      (NewScheduler [(ascii "10.0.0.1:121", ipv4 "10.0.0.1:121"),
        (ascii "10.0.0.1:202", ipv4 "10.0.0.1:202")] [])
      (ipv4 "192.168.0.1:80")).paths.values.filter
        (fun p => decide (p.loc = some (ipv4 "10.0.0.1:121")))) = [] ∧
    ((addRemoteAddress (fun _ => some 3)
      (NewScheduler [(ascii "10.0.0.1:202", ipv4 "10.0.0.1:202"),
        (ascii "10.0.0.1:121", ipv4 "10.0.0.1:121")] [])
      (ipv4 "192.168.0.1:80")).paths.values.filter
        (fun p => decide (p.loc = some (ipv4 "10.0.0.1:202")))) = [] := by
  decide

/-- The loop over the remote addresses for one local address `loc`, as in
`addLocalAddress` and in the inner loop of `initializePaths`: its state is that
of the loop without the log, its log grows by the pairs of `loc` with the
remote addresses of the same version, and the remote table stays. -/
theorem remoteLoop_logged (openSocket : UDPAddr → Option Nat) (loc : UDPAddr) :
    ∀ (l : List UDPAddr) (t : Scheduler × Calls),
    (l.foldl (fun t remote =>
        if isSameVersion loc remote then newPathLogged openSocket t loc remote else t) t).1
      = l.foldl (fun s remote =>
        if isSameVersion loc remote then newPath openSocket s loc remote else s) t.1 ∧
    (l.foldl (fun t remote =>
        if isSameVersion loc remote then newPathLogged openSocket t loc remote else t) t).2
      = t.2 ++ (l.filter (fun remote => isSameVersion loc remote)).map (fun remote => (loc, remote)) ∧
    (l.foldl (fun t remote =>
        if isSameVersion loc remote then newPathLogged openSocket t loc remote else t)
        t).1.remoteAddrs = t.1.remoteAddrs
  | [], t => by simp
  | x :: l, t => by
    rw [List.foldl_cons, List.foldl_cons]
    obtain ⟨h1, h2, h3⟩ := remoteLoop_logged openSocket loc l
      (if isSameVersion loc x then newPathLogged openSocket t loc x else t)
    rw [h3, h1, h2]
    by_cases hv : isSameVersion loc x = true
    · simp [hv, newPathLogged, List.filter_cons, (newPath_tables openSocket t.1 loc x).2.1]
    · simp [hv, List.filter_cons]

/-- The loop over the local addresses for one remote address, as in
`addRemoteAddress`. -/
theorem localLoop_logged (openSocket : UDPAddr → Option Nat) (remote : UDPAddr) :
    ∀ (l : List UDPAddr) (t : Scheduler × Calls),
    (l.foldl (fun t loc =>
        if isSameVersion loc remote then newPathLogged openSocket t loc remote else t) t).1
      = l.foldl (fun s loc =>
        if isSameVersion loc remote then newPath openSocket s loc remote else s) t.1 ∧
    (l.foldl (fun t loc =>
        if isSameVersion loc remote then newPathLogged openSocket t loc remote else t) t).2
      = t.2 ++ (l.filter (fun loc => isSameVersion loc remote)).map (fun loc => (loc, remote))
  | [], t => by simp
  | x :: l, t => by
    rw [List.foldl_cons, List.foldl_cons]
    obtain ⟨h1, h2⟩ := localLoop_logged openSocket remote l
      (if isSameVersion x remote then newPathLogged openSocket t x remote else t)
    rw [h1, h2]
    by_cases hv : isSameVersion x remote = true
    · simp [hv, newPathLogged, List.filter_cons]
    · simp [hv, List.filter_cons]

/-- The outer loop of `initializePaths`. -/
theorem crossLoop_logged (openSocket : UDPAddr → Option Nat) :
    ∀ (l : List UDPAddr) (t : Scheduler × Calls),
    (l.foldl (fun t loc => t.1.remoteAddrs.values.foldl
        (fun t remote =>
          if isSameVersion loc remote then newPathLogged openSocket t loc remote else t) t) t).1
      = l.foldl (fun s loc => s.remoteAddrs.values.foldl
        (fun s remote =>
          if isSameVersion loc remote then newPath openSocket s loc remote else s) s) t.1 ∧
    (l.foldl (fun t loc => t.1.remoteAddrs.values.foldl
        (fun t remote =>
          if isSameVersion loc remote then newPathLogged openSocket t loc remote else t) t) t).2
      = t.2 ++ l.flatMap (fun loc =>
          (t.1.remoteAddrs.values.filter (fun remote => isSameVersion loc remote)).map
            (fun remote => (loc, remote)))
  | [], t => by simp
  | x :: l, t => by
    rw [List.foldl_cons, List.foldl_cons]
    obtain ⟨g1, g2, g3⟩ := remoteLoop_logged openSocket x t.1.remoteAddrs.values t
    obtain ⟨h1, h2⟩ := crossLoop_logged openSocket l
      (t.1.remoteAddrs.values.foldl (fun t remote =>
        if isSameVersion x remote then newPathLogged openSocket t x remote else t) t)
    rw [h1, h2, g3, g1, g2]
    simp [List.flatMap_cons]

/-- C11. The calls of `newPath`. `initializePaths` calls it exactly for the
pairs of a local and a remote address of the two tables that have the same IP
version (both with `IP.To4() != nil` or both without), for every such pair;
`addLocalAddress` and `addRemoteAddress` call it only for pairs of the same
version, the given address with an address of the other table. None of the
three calls it for an IPv4 address with an address that is not IPv4. The
logged methods leave the scheduler as the methods themselves do. -/
theorem newPath_calls_same_version (openSocket : UDPAddr → Option Nat) (s : Scheduler)
    (loc remote : UDPAddr) :
    ((initializePathsLogged openSocket (s, [])).1 = initializePaths openSocket s ∧
      (addLocalAddressLogged openSocket (s, []) loc).1 = addLocalAddress openSocket s loc ∧
      (addRemoteAddressLogged openSocket (s, []) remote).1
        = addRemoteAddress openSocket s remote) ∧
    (∀ c, c ∈ (initializePathsLogged openSocket (s, [])).2 →
      c.1 ∈ s.localAddrs.values ∧ c.2 ∈ s.remoteAddrs.values ∧ c.1.is4 = c.2.is4) ∧
    (∀ l, l ∈ s.localAddrs.values → ∀ r, r ∈ s.remoteAddrs.values → l.is4 = r.is4 →
      (l, r) ∈ (initializePathsLogged openSocket (s, [])).2) ∧
    (∀ c, c ∈ (addLocalAddressLogged openSocket (s, []) loc).2 →
      c.1 = loc ∧ c.2 ∈ s.remoteAddrs.values ∧ c.1.is4 = c.2.is4) ∧
    (∀ c, c ∈ (addRemoteAddressLogged openSocket (s, []) remote).2 →
      c.1 ∈ s.localAddrs.values ∧ c.2 = remote ∧ c.1.is4 = c.2.is4) := by
  obtain ⟨i1, i2⟩ := crossLoop_logged openSocket s.localAddrs.values (s, [])
  obtain ⟨a1, a2, _⟩ := remoteLoop_logged openSocket loc s.remoteAddrs.values (s, [])
  obtain ⟨r1, r2⟩ := localLoop_logged openSocket remote s.localAddrs.values
    ({ s with remoteAddrs := s.remoteAddrs.insert remote.str remote }, [])
  refine ⟨⟨?_, a1, r1⟩, ?_, ?_, ?_, ?_⟩
  · simp only [initializePathsLogged, initializePaths, i1]
  · intro c hc
    simp only [initializePathsLogged, i2, List.nil_append, List.mem_flatMap, List.mem_map,
      List.mem_filter] at hc
    obtain ⟨l, hl, r, ⟨hr, hv⟩, rfl⟩ := hc
    exact ⟨hl, hr, (isSameVersion_iff l r).mp hv⟩
  · intro l hl r hr hv
    simp only [initializePathsLogged, i2, List.nil_append, List.mem_flatMap, List.mem_map,
      List.mem_filter]
    exact ⟨l, hl, r, ⟨hr, (isSameVersion_iff l r).mpr hv⟩, rfl⟩
  · intro c hc
    simp only [addLocalAddressLogged, a2, List.nil_append, List.mem_map, List.mem_filter] at hc
    obtain ⟨r, ⟨hr, hv⟩, rfl⟩ := hc
    exact ⟨rfl, hr, (isSameVersion_iff loc r).mp hv⟩
  · intro c hc
    simp only [addRemoteAddressLogged, r2, List.nil_append, List.mem_map, List.mem_filter] at hc
    obtain ⟨l, ⟨hl, hv⟩, rfl⟩ := hc
    exact ⟨hl, rfl, (isSameVersion_iff l remote).mp hv⟩

theorem CursorValid.mono (s t : Scheduler) (hl : t.lastPath = s.lastPath)
    (hp : s.pathIds.length ≤ t.pathIds.length) (h : CursorValid s) : CursorValid t := by
  obtain ⟨h1, h2⟩ := h
  have h3 : 0 < s.pathIds.length := List.length_pos.mpr h1
  refine ⟨List.ne_nil_of_length_pos (by omega), ?_⟩
  rw [hl]
  omega

theorem newPath_cursorValid (openSocket : UDPAddr → Option Nat) (s : Scheduler)
    (loc remote : UDPAddr) (h : CursorValid s) :
    CursorValid (newPath openSocket s loc remote) := by
  apply CursorValid.mono s _ _ _ h
  · unfold newPath
    cases openSocket loc <;> rfl
  · unfold newPath
    cases openSocket loc
    · exact Nat.le_refl _
    · simp

theorem Send_divisor (transportSend : Transport → List Nat → Option Nat) (s s1 : Scheduler)
    (p : List Nat) (err : Option Nat) (h : Send transportSend s p = some (s1, err)) :
    s.pathIds.length % 2 ^ 32 ≠ 0 := by
  intro h0
  rw [Send] at h
  dsimp only at h
  rw [if_pos h0] at h
  exact absurd h (by simp)

/-- Where C19 holds. In every state reachable from `NewScheduler` by `Send`,
`newPath`, `addLocalAddress`, `addRemoteAddress`, `initializePaths`,
`removePath` and `removeAddress`, the path-ID sequence is not empty and
`lastPath` is an index into it. The divisor of the modulo in `Send` is the
length of the sequence converted to `uint32`: whenever it is not zero, that is
whenever the length is not a multiple of 2^32, the index `Send` computes is in
range. -/
theorem reachable_cursorValid (s : Scheduler) (h : Reachable s) :
    s.pathIds ≠ [] ∧ s.lastPath < s.pathIds.length ∧
    (s.pathIds.length % 2 ^ 32 ≠ 0 →
      (s.pathIds[((s.lastPath + 1) % 2 ^ 32) % (s.pathIds.length % 2 ^ 32)]?).isSome = true) := by
  have hv : CursorValid s := by
    induction h with
    | init ipAddresses ipAddressesBool =>
      exact ⟨by simp [NewScheduler], by simp [NewScheduler]⟩
    | @send s0 s1 transportSend p err _ hs ih =>
      obtain ⟨_, h2, h3⟩ := Send_paths _ _ _ _ _ hs
      have hd := Send_divisor _ _ _ _ _ hs
      have hlt := Nat.mod_lt ((s0.lastPath + 1) % 2 ^ 32) (Nat.pos_of_ne_zero hd)
      have hle : s0.pathIds.length % 2 ^ 32 ≤ s0.pathIds.length := Nat.mod_le _ (2 ^ 32)
      refine ⟨by rw [h2]; exact ih.1, ?_⟩
      rw [h2, h3]
      exact Nat.lt_of_lt_of_le hlt hle
    | newPath openSocket loc remote _ ih => exact newPath_cursorValid _ _ _ _ ih
    | addLocalAddress openSocket loc _ ih =>
      unfold addLocalAddress
      apply foldl_preserves CursorValid _ _ _ _ ih
      intro a b ha
      split
      · exact newPath_cursorValid _ _ _ _ ha
      · exact ha
    | addRemoteAddress openSocket remote _ ih =>
      unfold addRemoteAddress
      show CursorValid (List.foldl _ _ _)
      refine foldl_preserves CursorValid _ ?_ _ _ ?_
      · intro a b ha
        split
        · exact newPath_cursorValid _ _ _ _ ha
        · exact ha
      · exact CursorValid.mono _ _ (by rfl) (Nat.le_refl _) ih
    | initializePaths openSocket _ ih =>
      unfold initializePaths
      refine CursorValid.mono _ _ (by rfl) (Nat.le_refl _)
        (foldl_preserves CursorValid _ ?_ _ _ ih)
      intro a b ha
      apply foldl_preserves CursorValid _ _ _ _ ha
      intro a1 b1 ha1
      split
      · exact newPath_cursorValid _ _ _ _ ha1
      · exact ha1
    | removePath pathId _ ih => exact CursorValid.mono _ _ (by rfl) (Nat.le_refl _) ih
    | removeAddress address _ ih =>
      obtain ⟨_, _, h3, h4⟩ := removeAddress_keeps _ address
      exact CursorValid.mono _ _ h4 (by rw [h3]) ih
  obtain ⟨h1, h2⟩ := hv
  refine ⟨h1, h2, ?_⟩
  intro hn
  have hlt : (s.lastPath + 1) % 2 ^ 32 % (s.pathIds.length % 2 ^ 32) < s.pathIds.length :=
    Nat.lt_of_lt_of_le (Nat.mod_lt _ (Nat.pos_of_ne_zero hn)) (Nat.mod_le _ _)
  rw [List.getElem?_eq_getElem hlt]
  rfl

/-- The scheduler after one `newPath`, a reachable state with two path IDs. -/
theorem reachable_cursorValid_example :
    (newPathTimes (fun _ => some 3) (ipv4 "10.0.0.1:443") (ipv4 "192.168.0.1:80") 1).pathIds
      ≠ [] ∧
    (newPathTimes (fun _ => some 3) (ipv4 "10.0.0.1:443") (ipv4 "192.168.0.1:80") 1).lastPath
      < (newPathTimes (fun _ => some 3) (ipv4 "10.0.0.1:443")
          (ipv4 "192.168.0.1:80") 1).pathIds.length :=
  ⟨(reachable_cursorValid _ (Reachable.newPath _ _ _ (Reachable.init [] []))).1,
   (reachable_cursorValid _ (Reachable.newPath _ _ _ (Reachable.init [] []))).2.1⟩

theorem newPathTimes_reachable (openSocket : UDPAddr → Option Nat) (loc remote : UDPAddr) :
    ∀ n, Reachable (newPathTimes openSocket loc remote n)
  | 0 => Reachable.init [] []
  | n + 1 => Reachable.newPath openSocket loc remote (newPathTimes_reachable openSocket loc remote n)

theorem newPathTimes_length (openSocket : UDPAddr → Option Nat) (loc remote : UDPAddr)
    (u : Nat) (ho : openSocket loc = some u) :
    ∀ n, (newPathTimes openSocket loc remote n).pathIds.length = n + 1
  | 0 => rfl
  | n + 1 => by
    rw [newPathTimes, newPath_of_socket openSocket _ loc remote u ho]
    simp only [List.length_append, List.length_singleton]
    rw [newPathTimes_length openSocket loc remote u ho n]

theorem Send_zero_divisor (transportSend : Transport → List Nat → Option Nat) (s : Scheduler)
    (p : List Nat) (h : s.pathIds.length % 2 ^ 32 = 0) : Send transportSend s p = none := by
  rw [Send]
  dsimp only
  rw [if_pos h]

/-- C19 after `2^32 - 1` calls of `newPath`. The state is reachable, and each
call appends an ID to `pathIds` (here the ID of one pair of endpoints, again
and again), so `pathIds` holds `2^32` IDs. It is not empty and `lastPath`, 0, is
an index into it; but `uint32(len(s.pathIds))` is 0, and the modulo in `Send`
divides by zero: `Send` panics, whatever the payload and the transport. -/
theorem Send_divides_by_zero :
    Reachable (newPathTimes (fun _ => some 3) (ipv4 "10.0.0.1:443") (ipv4 "192.168.0.1:80")
      (2 ^ 32 - 1)) ∧
    (newPathTimes (fun _ => some 3) (ipv4 "10.0.0.1:443") (ipv4 "192.168.0.1:80")
      (2 ^ 32 - 1)).pathIds.length = 2 ^ 32 ∧
    (newPathTimes (fun _ => some 3) (ipv4 "10.0.0.1:443") (ipv4 "192.168.0.1:80")
      (2 ^ 32 - 1)).lastPath
      < (newPathTimes (fun _ => some 3) (ipv4 "10.0.0.1:443") (ipv4 "192.168.0.1:80")
          (2 ^ 32 - 1)).pathIds.length ∧
    (newPathTimes (fun _ => some 3) (ipv4 "10.0.0.1:443") (ipv4 "192.168.0.1:80")
      (2 ^ 32 - 1)).pathIds.length % 2 ^ 32 = 0 ∧
    ∀ (transportSend : Transport → List Nat → Option Nat) (p : List Nat),
      Send transportSend
        (newPathTimes (fun _ => some 3) (ipv4 "10.0.0.1:443") (ipv4 "192.168.0.1:80")
          (2 ^ 32 - 1)) p = none := by
  have hr := newPathTimes_reachable (fun _ => some 3) (ipv4 "10.0.0.1:443")
    (ipv4 "192.168.0.1:80") (2 ^ 32 - 1)
  have hlen := newPathTimes_length (fun _ => some 3) (ipv4 "10.0.0.1:443")
    (ipv4 "192.168.0.1:80") 3 rfl (2 ^ 32 - 1)
  have e : 2 ^ 32 - 1 + 1 = 2 ^ 32 := by norm_num
  rw [e] at hlen
  have hmod : (newPathTimes (fun _ => some 3) (ipv4 "10.0.0.1:443") (ipv4 "192.168.0.1:80")
      (2 ^ 32 - 1)).pathIds.length % 2 ^ 32 = 0 := by
    rw [hlen, Nat.mod_self]
  refine ⟨hr, hlen, (reachable_cursorValid _ hr).2.1, hmod, ?_⟩
  intro transportSend p
  exact Send_zero_divisor transportSend _ p hmod

theorem SendLogged_fst (transportSend : Transport → List Nat → Option Nat) (s : Scheduler)
    (p : List Nat) : (SendLogged transportSend s p).1 = Send transportSend s p := by
  unfold SendLogged Send
  dsimp only
  split
  · rfl
  · split
    · rfl
    · split
      · rfl
      · split
        · rfl
        · split
          · rfl
          · split <;> rfl

/-- C13 at a scheduler on which one pair was created twice. After
`newPath(local, remote)` twice on a new scheduler the path table has 2 paths
(path zero and the path of the pair) and `pathIds` is `[0, id, id]`. Two
consecutive `Send` calls, both successful, move the cursor to 1 and then to 2
and both forward their payload to the transport of the path `id`; path zero is
not selected. -/
theorem Send_repeats_path :
    Reachable (newPath (fun _ => some 3)
      (newPath (fun _ => some 3) (NewScheduler [] []) (ipv4 "10.0.0.1:443")
        (ipv4 "192.168.0.1:80"))
      (ipv4 "10.0.0.1:443") (ipv4 "192.168.0.1:80")) ∧
    (newPath (fun _ => some 3)
      (newPath (fun _ => some 3) (NewScheduler [] []) (ipv4 "10.0.0.1:443")
        (ipv4 "192.168.0.1:80"))
      (ipv4 "10.0.0.1:443") (ipv4 "192.168.0.1:80")).paths.keys
      = [0, derivedID (ipv4 "10.0.0.1:443") (ipv4 "192.168.0.1:80")] ∧
    (newPath (fun _ => some 3)
      (newPath (fun _ => some 3) (NewScheduler [] []) (ipv4 "10.0.0.1:443")
        (ipv4 "192.168.0.1:80"))
      (ipv4 "10.0.0.1:443") (ipv4 "192.168.0.1:80")).pathIds
      = [0, derivedID (ipv4 "10.0.0.1:443") (ipv4 "192.168.0.1:80"),
          derivedID (ipv4 "10.0.0.1:443") (ipv4 "192.168.0.1:80")] ∧
    SendLogged (fun _ _ => none)
      (newPath (fun _ => some 3)
        (newPath (fun _ => some 3) (NewScheduler [] []) (ipv4 "10.0.0.1:443")
          (ipv4 "192.168.0.1:80"))
        (ipv4 "10.0.0.1:443") (ipv4 "192.168.0.1:80")) [0x01]
      = (some ({ newPath (fun _ => some 3)
          (newPath (fun _ => some 3) (NewScheduler [] []) (ipv4 "10.0.0.1:443")
            (ipv4 "192.168.0.1:80"))
          (ipv4 "10.0.0.1:443") (ipv4 "192.168.0.1:80") with lastPath := 1 }, none),
        [(Transport.udp 3 (ipv4 "192.168.0.1:80"), [0x01])]) ∧
    SendLogged (fun _ _ => none)
      { newPath (fun _ => some 3)
          (newPath (fun _ => some 3) (NewScheduler [] []) (ipv4 "10.0.0.1:443")
            (ipv4 "192.168.0.1:80"))
          (ipv4 "10.0.0.1:443") (ipv4 "192.168.0.1:80") with lastPath := 1 } [0x02]
      = (some ({ newPath (fun _ => some 3)
          (newPath (fun _ => some 3) (NewScheduler [] []) (ipv4 "10.0.0.1:443")
            (ipv4 "192.168.0.1:80"))
          (ipv4 "10.0.0.1:443") (ipv4 "192.168.0.1:80") with lastPath := 2 }, none),
        [(Transport.udp 3 (ipv4 "192.168.0.1:80"), [0x02])]) := by
  refine ⟨Reachable.newPath _ _ _ (Reachable.newPath _ _ _ (Reachable.init [] [])),
    by decide, by decide, by decide, by decide⟩

/-- Where C14 holds. In a state whose path-ID sequence is not empty and has
fewer than 2^32 IDs, with the cursor inside it, and whose path table has,
under the ID at position `(lastPath + 1) mod N`, a path with a transport (and
with both endpoints set unless that position is 0): `Send` sets the cursor to
`(lastPath + 1) mod N`, calls `Transport.Send` exactly once, with the payload,
on the transport of that path, and returns what that call returns, an error
exactly when the transport fails. -/
theorem Send_forwards (transportSend : Transport → List Nat → Option Nat) (s : Scheduler)
    (p : List Nat) (id : Nat) (path : Path) (transport : Transport)
    (hc : CursorValid s) (hn : s.pathIds.length < 2 ^ 32)
    (hid : s.pathIds[(s.lastPath + 1) % s.pathIds.length]? = some id)
    (hp : s.paths.lookup id = some path) (ht : path.transport = some transport)
    (he : (s.lastPath + 1) % s.pathIds.length = 0 ∨
      (path.loc.isSome = true ∧ path.remote.isSome = true)) :
    SendLogged transportSend s p
      = (some ({ s with lastPath := (s.lastPath + 1) % s.pathIds.length },
          transportSend transport p), [(transport, p)]) ∧
    Send transportSend s p
      = some ({ s with lastPath := (s.lastPath + 1) % s.pathIds.length },
          transportSend transport p) := by
  obtain ⟨h1, h2⟩ := hc
  have hpos : 0 < s.pathIds.length := List.length_pos.mpr h1
  have hm : s.pathIds.length % 2 ^ 32 = s.pathIds.length := Nat.mod_eq_of_lt hn
  have hl : (s.lastPath + 1) % 2 ^ 32 = s.lastPath + 1 := Nat.mod_eq_of_lt (by omega)
  have h0 : s.pathIds.length ≠ 0 := by omega
  have key : SendLogged transportSend s p
      = (some ({ s with lastPath := (s.lastPath + 1) % s.pathIds.length },
          transportSend transport p), [(transport, p)]) := by
    unfold SendLogged
    simp only [hm, hl, h0, if_false, hid, hp, Option.getD_some, ht]
    cases hts : transportSend transport p with
    | some err => rfl
    | none =>
      simp only
      rcases he with he | ⟨he1, he2⟩
      · simp [he]
      · obtain ⟨l, hl1⟩ := Option.isSome_iff_exists.mp he1
        obtain ⟨r, hr1⟩ := Option.isSome_iff_exists.mp he2
        simp [hl1, hr1]
  refine ⟨key, ?_⟩
  rw [← SendLogged_fst, key]

/-- A scheduler with path zero and one more path: `Send` moves the cursor from
0 to 1 and forwards to the transport of that path. -/
theorem Send_forwards_example :
    SendLogged (fun _ _ => some 7)
      (newPath (fun _ => some 3) (NewScheduler [] []) (ipv4 "10.0.0.1:443")
        (ipv4 "192.168.0.1:80")) [0x01]
      = (some ({ newPath (fun _ => some 3) (NewScheduler [] []) (ipv4 "10.0.0.1:443")
            (ipv4 "192.168.0.1:80") with
          lastPath := ((newPath (fun _ => some 3) (NewScheduler [] []) (ipv4 "10.0.0.1:443")
            (ipv4 "192.168.0.1:80")).lastPath + 1) %
            (newPath (fun _ => some 3) (NewScheduler [] []) (ipv4 "10.0.0.1:443")
              (ipv4 "192.168.0.1:80")).pathIds.length },
          (fun _ _ => some 7 : Transport → List Nat → Option Nat)
            (Transport.udp 3 (ipv4 "192.168.0.1:80")) [0x01]),
        [(Transport.udp 3 (ipv4 "192.168.0.1:80"), [0x01])]) ∧
    Send (fun _ _ => some 7)
      (newPath (fun _ => some 3) (NewScheduler [] []) (ipv4 "10.0.0.1:443")
        (ipv4 "192.168.0.1:80")) [0x01]
      = some ({ newPath (fun _ => some 3) (NewScheduler [] []) (ipv4 "10.0.0.1:443")
            (ipv4 "192.168.0.1:80") with
          lastPath := ((newPath (fun _ => some 3) (NewScheduler [] []) (ipv4 "10.0.0.1:443")
            (ipv4 "192.168.0.1:80")).lastPath + 1) %
            (newPath (fun _ => some 3) (NewScheduler [] []) (ipv4 "10.0.0.1:443")
              (ipv4 "192.168.0.1:80")).pathIds.length },
          (fun _ _ => some 7 : Transport → List Nat → Option Nat)
            (Transport.udp 3 (ipv4 "192.168.0.1:80")) [0x01]) :=
  Send_forwards (fun _ _ => some 7)
    (newPath (fun _ => some 3) (NewScheduler [] []) (ipv4 "10.0.0.1:443")
      (ipv4 "192.168.0.1:80")) [0x01]
    (derivedID (ipv4 "10.0.0.1:443") (ipv4 "192.168.0.1:80"))
    (NewPath (Transport.udp 3 (ipv4 "192.168.0.1:80"))
      (derivedID (ipv4 "10.0.0.1:443") (ipv4 "192.168.0.1:80"))
      (ipv4 "10.0.0.1:443") (ipv4 "192.168.0.1:80"))
    (Transport.udp 3 (ipv4 "192.168.0.1:80"))
    ⟨by decide, by decide⟩ (by decide) (by decide) (by decide) rfl
    (Or.inr ⟨rfl, rfl⟩)

/-- C14 in the reachable state left by `newPath` and `removePath` of the path
just created. The path-ID sequence is not empty: `removePath` has taken the
path out of the path table and left its ID in `pathIds`. `Send` moves the
cursor to that ID, gets the zero `Path` from the table and calls `Send` on its
nil transport: a run-time panic, nothing is forwarded and nothing returned. -/
theorem Send_stale_id :
    Reachable (removePath
      (newPath (fun _ => some 3) (NewScheduler [] []) (ipv4 "10.0.0.1:443")
        (ipv4 "192.168.0.1:80"))
      (derivedID (ipv4 "10.0.0.1:443") (ipv4 "192.168.0.1:80"))) ∧
    (removePath
      (newPath (fun _ => some 3) (NewScheduler [] []) (ipv4 "10.0.0.1:443")
        (ipv4 "192.168.0.1:80"))
      (derivedID (ipv4 "10.0.0.1:443") (ipv4 "192.168.0.1:80"))).pathIds
      = [0, derivedID (ipv4 "10.0.0.1:443") (ipv4 "192.168.0.1:80")] ∧
    (removePath
      (newPath (fun _ => some 3) (NewScheduler [] []) (ipv4 "10.0.0.1:443")
        (ipv4 "192.168.0.1:80"))
      (derivedID (ipv4 "10.0.0.1:443") (ipv4 "192.168.0.1:80"))).paths.keys = [0] ∧
    SendLogged (fun _ _ => none)
      (removePath
        (newPath (fun _ => some 3) (NewScheduler [] []) (ipv4 "10.0.0.1:443")
          (ipv4 "192.168.0.1:80"))
        (derivedID (ipv4 "10.0.0.1:443") (ipv4 "192.168.0.1:80"))) [0x01] = (none, []) := by
  refine ⟨Reachable.removePath _ (Reachable.newPath _ _ _ (Reachable.init [] [])),
    by decide, by decide, by decide⟩

/-- The turn of the listener on an address that is in the local address table:
the address is deleted from the table and one `Delete` frame is handed to the
connection. -/
theorem listenStep_known (w : Listener) (addr : UDPAddr) (rest : List UDPAddr)
    (he : w.established = true) (hq : w.addrChan = addr :: rest)
    (hk : containsBlocking w.s addr .loc = true) :
    listenStep w =
      { w with
        s := delete w.s addr .loc
        addrChan := rest
        sent := w.sent ++ [[frame.AddrMod .kDeleteAddress addr]] } := by
  simp [listenStep, he, hq, hk, assembleAddrModFrame, newAddrModFrame]

/-- The turn of the listener on an address that is not in the local address
table: the address is written to `localAddrsBool`, the local address table
stays as it is, and one `Add` frame is handed to the connection. -/
theorem listenStep_unknown (w : Listener) (addr : UDPAddr) (rest : List UDPAddr)
    (he : w.established = true) (hq : w.addrChan = addr :: rest)
    (hk : containsBlocking w.s addr .loc = false) :
    listenStep w =
      { w with
        s := { w.s with localAddrsBool := w.s.localAddrsBool.insert addr.str false }
        addrChan := rest
        sent := w.sent ++ [[frame.AddrMod .kAddAddress addr]] } ∧
    containsBlocking (listenStep w).s addr .loc = false := by
  have h : listenStep w =
      { w with
        s := { w.s with localAddrsBool := w.s.localAddrsBool.insert addr.str false }
        addrChan := rest
        sent := w.sent ++ [[frame.AddrMod .kAddAddress addr]] } := by
    simp [listenStep, he, hq, hk, assembleAddrModFrame, newAddrModFrame, write]
  refine ⟨h, ?_⟩
  rw [h]
  exact hk

/-- C15 at an address delivered twice. In the Established state, with an empty
local address table, the address 10.0.0.1:443 is delivered twice in a row. The
first turn writes it to `localAddrsBool` only, so it is still not in the local
address table; the two turns hand two `Add` frames to the connection, and no
`Delete` frame. -/
theorem listenStep_twice :
    containsBlocking
      (listenStep ⟨NewScheduler [] [], true, [ipv4 "10.0.0.1:443", ipv4 "10.0.0.1:443"], []⟩).s
      (ipv4 "10.0.0.1:443") .loc = false ∧
    (listenStep ⟨NewScheduler [] [], true, [ipv4 "10.0.0.1:443", ipv4 "10.0.0.1:443"], []⟩).s.localAddrs
      = [] ∧
    (listenStep ⟨NewScheduler [] [], true, [ipv4 "10.0.0.1:443", ipv4 "10.0.0.1:443"], []⟩).s.localAddrsBool
      = [(ascii "10.0.0.1:443", false)] ∧
    (listenStep
      (listenStep ⟨NewScheduler [] [], true, [ipv4 "10.0.0.1:443", ipv4 "10.0.0.1:443"], []⟩)).sent
      = [[frame.AddrMod .kAddAddress (ipv4 "10.0.0.1:443")],
         [frame.AddrMod .kAddAddress (ipv4 "10.0.0.1:443")]] ∧
    (listenStep
      (listenStep ⟨NewScheduler [] [], true, [ipv4 "10.0.0.1:443", ipv4 "10.0.0.1:443"], []⟩)).addrChan
      = [] := by
  decide

/-- C18. Listener gating: while the connection is not Established, a turn of
the listener receives no address from the channel, leaves the local address
table and `localAddrsBool` as they are and hands no frame to the connection;
it changes nothing at all. -/
theorem listenStep_not_established (w : Listener) (h : w.established = false) :
    listenStep w = w ∧
    (listenStep w).addrChan = w.addrChan ∧
    (listenStep w).s.localAddrs = w.s.localAddrs ∧
    (listenStep w).s.localAddrsBool = w.s.localAddrsBool ∧
    (listenStep w).sent = w.sent := by
  have hw : listenStep w = w := by simp [listenStep, h]
  rw [hw]
  exact ⟨rfl, rfl, rfl, rfl, rfl⟩

/-- An address that waits while the connection is not Established stays in the
channel. -/
theorem listenStep_not_established_witness :
    listenStep ⟨NewScheduler [] [], false, [ipv4 "10.0.0.1:443"], []⟩
      = ⟨NewScheduler [] [], false, [ipv4 "10.0.0.1:443"], []⟩ ∧
    (listenStep ⟨NewScheduler [] [], false, [ipv4 "10.0.0.1:443"], []⟩).addrChan
      = [ipv4 "10.0.0.1:443"] ∧
    (listenStep ⟨NewScheduler [] [], false, [ipv4 "10.0.0.1:443"], []⟩).s.localAddrs = [] ∧
    (listenStep ⟨NewScheduler [] [], false, [ipv4 "10.0.0.1:443"], []⟩).s.localAddrsBool = [] ∧
    (listenStep ⟨NewScheduler [] [], false, [ipv4 "10.0.0.1:443"], []⟩).sent = [] :=
  listenStep_not_established ⟨NewScheduler [] [], false, [ipv4 "10.0.0.1:443"], []⟩ rfl

/-- A turn of the listener that changes anything is a turn in the Established
state. -/
theorem listenStep_changes (w : Listener) (h : listenStep w ≠ w) : w.established = true := by
  by_contra he
  simp only [Bool.not_eq_true] at he
  exact h (by simp [listenStep, he])

theorem GoMap.mem_insert {K V : Type} [DecidableEq K] (m : GoMap K V) (k : K) (v : V)
    (e : K × V) (h : e ∈ m.insert k v) : e = (k, v) ∨ e ∈ m := by
  simp only [GoMap.insert, List.mem_append, List.mem_filter, List.mem_singleton] at h
  rcases h with h | h
  · exact Or.inr h.1
  · exact Or.inl h

theorem GoMap.mem_delete {K V : Type} [DecidableEq K] (m : GoMap K V) (k : K)
    (e : K × V) (h : e ∈ m.delete k) : e ∈ m := by
  simp only [GoMap.delete, List.mem_filter] at h
  exact h.1

theorem GoMap.lookup_delete_some {K V : Type} [DecidableEq K] (m : GoMap K V) (k x : K)
    (v : V) (h : (m.delete k).lookup x = some v) : m.lookup x = some v := by
  by_cases hx : x = k
  · subst hx
    have hk := GoMap.not_mem_keys_delete m x
    rw [← GoMap.lookup_isSome, h] at hk
    simp at hk
  · rw [GoMap.lookup_delete_ne m k x hx] at h
    exact h

theorem pathsSound_congr (s t : Scheduler) (hp : t.paths = s.paths)
    (hi : t.pathIds = s.pathIds) (h : PathsSound s) : PathsSound t := by
  unfold PathsSound
  rw [hp, hi]
  exact h

theorem newPath_pathsSound (openSocket : UDPAddr → Option Nat) (s : Scheduler)
    (loc remote : UDPAddr) (hc : s.pathIds ≠ []) (h : PathsSound s) :
    PathsSound (newPath openSocket s loc remote) := by
  cases ho : openSocket loc with
  | none =>
    have : newPath openSocket s loc remote = s := by simp [newPath, ho]
    rw [this]
    exact h
  | some u =>
    rw [newPath_of_socket openSocket s loc remote u ho]
    obtain ⟨h1, h2⟩ := h
    constructor
    · intro e he
      rcases GoMap.mem_insert _ _ _ _ he with rfl | he
      · rfl
      · exact h1 e he
    · intro id hid path hl
      simp only at hid hl
      by_cases hk : id = derivedID loc remote
      · subst hk
        rw [GoMap.lookup_insert] at hl
        cases hl
        exact ⟨rfl, rfl⟩
      · rw [GoMap.lookup_insert_ne _ _ _ _ hk] at hl
        rw [List.tail_append_of_ne_nil hc] at hid
        rcases List.mem_append.mp hid with hid | hid
        · exact h2 id hid path hl
        · simp only [List.mem_singleton] at hid
          exact absurd hid hk

theorem removePath_pathsSound (s : Scheduler) (pathId : Nat) (h : PathsSound s) :
    PathsSound (removePath s pathId) := by
  obtain ⟨h1, h2⟩ := h
  constructor
  · intro e he
    exact h1 e (GoMap.mem_delete _ _ _ he)
  · intro id hid path hl
    exact h2 id hid path (GoMap.lookup_delete_some _ _ _ _ hl)

theorem sendReady_congr (s t : Scheduler) (hp : t.paths = s.paths)
    (hi : t.pathIds = s.pathIds) (hl : t.lastPath = s.lastPath) (h : SendReady s) :
    SendReady t :=
  ⟨CursorValid.mono s t hl (by rw [hi]) h.1, pathsSound_congr s t hp hi h.2⟩

theorem newPath_sendReady (openSocket : UDPAddr → Option Nat) (s : Scheduler)
    (loc remote : UDPAddr) (h : SendReady s) : SendReady (newPath openSocket s loc remote) :=
  ⟨newPath_cursorValid _ _ _ _ h.1, newPath_pathsSound _ _ _ _ h.1.1 h.2⟩

theorem removePath_sendReady (s : Scheduler) (pathId : Nat) (h : SendReady s) :
    SendReady (removePath s pathId) :=
  ⟨CursorValid.mono _ _ (by rfl) (Nat.le_refl _) h.1, removePath_pathsSound _ _ h.2⟩

/-- In every reachable state the cursor is usable and the paths `Send` can find
are usable: each has a transport, and each one found under an ID behind the
first position of `pathIds` has both endpoints. What can be missing is the path
itself. -/
theorem reachable_sendReady (s : Scheduler) (h : Reachable s) : SendReady s := by
  induction h with
  | init ipAddresses ipAddressesBool =>
    refine ⟨⟨by simp [NewScheduler], by simp [NewScheduler]⟩, ?_, ?_⟩
    · intro e he
      simp only [NewScheduler, GoMap.insert, List.filter_nil, List.nil_append,
        List.mem_singleton] at he
      rw [he]
      rfl
    · intro id hid
      simp [NewScheduler] at hid
  | @send s0 s1 transportSend p err _ hs ih =>
    obtain ⟨h1, h2, h3⟩ := Send_paths _ _ _ _ _ hs
    have hd := Send_divisor _ _ _ _ _ hs
    have hlt := Nat.mod_lt ((s0.lastPath + 1) % 2 ^ 32) (Nat.pos_of_ne_zero hd)
    have hle : s0.pathIds.length % 2 ^ 32 ≤ s0.pathIds.length := Nat.mod_le _ (2 ^ 32)
    refine ⟨⟨by rw [h2]; exact ih.1.1, ?_⟩, pathsSound_congr _ _ h1 h2 ih.2⟩
    rw [h2, h3]
    exact Nat.lt_of_lt_of_le hlt hle
  | newPath openSocket loc remote _ ih => exact newPath_sendReady _ _ _ _ ih
  | addLocalAddress openSocket loc _ ih =>
    unfold addLocalAddress
    apply foldl_preserves SendReady _ _ _ _ ih
    intro a b ha
    split
    · exact newPath_sendReady _ _ _ _ ha
    · exact ha
  | addRemoteAddress openSocket remote _ ih =>
    unfold addRemoteAddress
    show SendReady (List.foldl _ _ _)
    refine foldl_preserves SendReady _ ?_ _ _ ?_
    · intro a b ha
      split
      · exact newPath_sendReady _ _ _ _ ha
      · exact ha
    · exact sendReady_congr _ _ (by rfl) (by rfl) (by rfl) ih
  | initializePaths openSocket _ ih =>
    unfold initializePaths
    refine sendReady_congr _ _ (by rfl) (by rfl) (by rfl)
      (foldl_preserves SendReady _ ?_ _ _ ih)
    intro a b ha
    apply foldl_preserves SendReady _ _ _ _ ha
    intro a1 b1 ha1
    split
    · exact newPath_sendReady _ _ _ _ ha1
    · exact ha1
  | removePath pathId _ ih => exact removePath_sendReady _ _ ih
  | @removeAddress s0 address _ ih =>
    unfold removeAddress
    apply foldl_preserves SendReady
    · intro a b ha
      split
      · exact removePath_sendReady _ _ ha
      · exact ha
    · apply sendReady_congr _ _ _ _ _ ih
      · simp only [containsBlocking, delete]
        split_ifs <;> rfl
      · simp only [containsBlocking, delete]
        split_ifs <;> rfl
      · simp only [containsBlocking, delete]
        split_ifs <;> rfl

end Minq

/-! ## The codec: the count `decode` returns -/

namespace Codec

theorem decodeLoop_prefix_ok (methods : Methods) (a b j : Nat) (i : Struct) (buf : List Nat)
    (br : Nat) (h : (decodeLoop methods (a + b) j i buf br).err = none) :
    (decodeLoop methods a j i buf br).err = none := by
  rw [decodeLoop_add] at h
  by_cases ha : (decodeLoop methods a j i buf br).err = none
  · exact ha
  · rw [if_neg ha] at h
    exact h

theorem uintRead_size (buf : List Nat) (kind : UKind) (size v : Nat) (buf1 : List Nat)
    (n : Nat) (h : uintRead buf kind size = .ok (v, buf1, n)) : n = size := by
  unfold uintRead readerRead at h
  by_cases h0 : buf.length = 0
  · simp [h0] at h
  · by_cases hl : buf.length < size
    · simp [h0, hl] at h
    · simp only [h0, if_false, List.length_take, ne_eq, Nat.min_eq_left (Nat.not_lt.mp hl),
        not_true_eq_false, Except.ok.injEq, Prod.mk.injEq] at h
      exact h.2.2.symm

theorem uintDecode_size (buf : List Nat) (kind : UKind) (es v : Nat) (buf1 : List Nat)
    (n : Nat) (h : uintDecode buf kind es = .ok (v, buf1, n)) :
    n = if es = CodecDefaultSize then kind.size else es := by
  unfold uintDecode at h
  by_cases hd : es = CodecDefaultSize
  · simp only [hd, ne_eq, not_true_eq_false, if_false] at h
    rw [if_pos hd]
    exact uintRead_size _ _ _ _ _ _ h
  · simp only [hd, ne_eq, not_false_eq_true, if_true] at h
    rw [if_neg hd]
    by_cases hw : es > kind.size
    · simp [hw] at h
    · simp only [hw, if_false] at h
      exact uintRead_size _ _ _ _ _ _ h

theorem arrayRead_size (buf : List Nat) (slice : Bool) (n : Nat) (val buf1 : List Nat)
    (br : Nat) (h : arrayRead buf slice n = .ok (val, buf1, br)) : br = n :=
  (arrayRead_inv buf slice n val buf1 br h).2.2.2.2.2.2

theorem arrayDecode_size (buf : List Nat) (slice : Bool) (es : Nat) (val buf1 : List Nat)
    (n : Nat) (h : arrayDecode buf slice es = .ok (val, buf1, n)) :
    n = if es = CodecDefaultSize then buf.length % 2 ^ 64 else es := by
  unfold arrayDecode at h
  by_cases hd : es = CodecDefaultSize
  · rw [if_pos hd] at h ⊢
    exact arrayRead_size _ _ _ _ _ _ h
  · rw [if_neg hd] at h ⊢
    exact arrayRead_size _ _ _ _ _ _ h

/-- One field read without error adds to the count what the field takes. -/
theorem decodeLoop_one (methods : Methods) (j : Nat) (i : Struct) (buf : List Nat) (br : Nat)
    (hlen : buf.length < 2 ^ 64) (h : (decodeLoop methods 1 j i buf br).err = none) :
    (decodeLoop methods 1 j i buf br).n = br + taken methods i j buf := by
  unfold taken
  cases hi : i[j]? with
  | none => simp [decodeLoop, hi] at h
  | some f =>
    cases f with
    | uint kind val =>
      cases hu : uintDecode buf kind (encodingSizeOf methods i j) with
      | error e => simp [decodeLoop, hi, hu] at h
      | ok r =>
        obtain ⟨v, buf1, n1⟩ := r
        have := uintDecode_size _ _ _ _ _ _ hu
        simp only [decodeLoop, hi, hu]
        rw [this]
    | bytes b =>
      cases hu : arrayDecode buf true (encodingSizeOf methods i j) with
      | error e => simp [decodeLoop, hi, hu] at h
      | ok r =>
        obtain ⟨v, buf1, n1⟩ := r
        have := arrayDecode_size _ _ _ _ _ _ hu
        rw [Nat.mod_eq_of_lt hlen] at this
        simp only [decodeLoop, hi, hu]
        rw [this]
    | array b =>
      cases hu : arrayDecode buf false (encodingSizeOf methods i j) with
      | error e => simp [decodeLoop, hi, hu] at h
      | ok r =>
        obtain ⟨v, buf1, n1⟩ := r
        have := arrayDecode_size _ _ _ _ _ _ hu
        rw [Nat.mod_eq_of_lt hlen] at this
        simp only [decodeLoop, hi, hu]
        rw [this]
    | other => simp [decodeLoop, hi] at h

/-- The count after `k` fields read without error is the sum of what the
fields took. -/
theorem decodeLoop_sum (methods : Methods) (i : Struct) (data : List Nat)
    (hlen : data.length < 2 ^ 64) : ∀ (k : Nat),
    (decodeLoop methods k 0 i data 0).err = none →
    (decodeLoop methods k 0 i data 0).n
      = ((List.range k).map (fun j =>
          taken methods (decodeLoop methods j 0 i data 0).i j
            (decodeLoop methods j 0 i data 0).buf)).sum
  | 0, _ => rfl
  | k + 1, h => by
    have hk := decodeLoop_prefix_ok methods k 1 0 i data 0 h
    have ih := decodeLoop_sum methods i data hlen k hk
    have hc := decodeLoop_consumed methods k 0 i data 0 hk
    rw [decodeLoop_add, if_pos hk, Nat.zero_add] at h ⊢
    rw [decodeLoop_one methods k _ _ _ (by omega) h, List.sum_range_succ, ih]

theorem decodeLoop_buf_le (methods : Methods) (k j : Nat) (i : Struct) (buf : List Nat)
    (br : Nat) (h : (decodeLoop methods k j i buf br).err = none) :
    (decodeLoop methods k j i buf br).buf.length ≤ buf.length ∧
    br ≤ (decodeLoop methods k j i buf br).n := by
  induction k generalizing j i buf br with
  | zero => exact ⟨Nat.le_refl _, Nat.le_refl _⟩
  | succ k ih =>
    cases hi : i[j]? with
    | none => simp [decodeLoop, hi] at h
    | some f =>
      cases f with
      | uint kind val =>
        cases hu : uintDecode buf kind (encodingSizeOf methods i j) with
        | error e => simp [decodeLoop, hi, hu] at h
        | ok r =>
          obtain ⟨v, buf1, n1⟩ := r
          simp only [decodeLoop, hi, hu] at h ⊢
          have := uintDecode_ok _ _ _ _ _ _ hu
          obtain ⟨h1, h2⟩ := ih _ _ _ _ h
          exact ⟨by omega, by omega⟩
      | bytes b =>
        cases hu : arrayDecode buf true (encodingSizeOf methods i j) with
        | error e => simp [decodeLoop, hi, hu] at h
        | ok r =>
          obtain ⟨v, buf1, n1⟩ := r
          simp only [decodeLoop, hi, hu] at h ⊢
          have := arrayDecode_ok _ _ _ _ _ _ hu
          obtain ⟨h1, h2⟩ := ih _ _ _ _ h
          exact ⟨by omega, by omega⟩
      | array b =>
        cases hu : arrayDecode buf false (encodingSizeOf methods i j) with
        | error e => simp [decodeLoop, hi, hu] at h
        | ok r =>
          obtain ⟨v, buf1, n1⟩ := r
          simp only [decodeLoop, hi, hu] at h ⊢
          have := arrayDecode_ok _ _ _ _ _ _ hu
          obtain ⟨h1, h2⟩ := ih _ _ _ _ h
          exact ⟨by omega, by omega⟩
      | other => simp [decodeLoop, hi] at h

theorem uintRead_agree (c r r1 : List Nat) (kind : UKind) (size v : Nat) (buf1 : List Nat)
    (n1 : Nat) (h : uintRead (c ++ r) kind size = .ok (v, buf1, n1)) (hn : n1 ≤ c.length)
    (hne : r1 = [] → r = []) :
    ∃ c1, buf1 = c1 ++ r ∧ uintRead (c ++ r1) kind size = .ok (v, c1 ++ r1, n1) := by
  have hs := uintRead_size _ _ _ _ _ _ h
  subst hs
  unfold uintRead readerRead at h ⊢
  by_cases h0 : (c ++ r).length = 0
  · simp [h0] at h
  · have h1 : (c ++ r1).length ≠ 0 := by
      intro h1
      have h2 := List.length_eq_zero.mp h1
      have h3 := List.append_eq_nil.mp h2
      apply h0
      rw [h3.1, hne h3.2]
      rfl
    have hlen : (List.take n1 c).length = n1 := by
      rw [List.length_take]
      omega
    simp only [h0, if_false, List.take_append_of_le_length hn,
      List.drop_append_of_le_length hn, hlen, ne_eq, not_true_eq_false, Except.ok.injEq,
      Prod.mk.injEq, and_true] at h
    simp only [h1, if_false, List.take_append_of_le_length hn,
      List.drop_append_of_le_length hn, hlen, ne_eq, not_true_eq_false]
    obtain ⟨hv, hb⟩ := h
    exact ⟨c.drop n1, hb.symm, by rw [hv]⟩

theorem uintDecode_agree (c r r1 : List Nat) (kind : UKind) (es v : Nat) (buf1 : List Nat)
    (n1 : Nat) (h : uintDecode (c ++ r) kind es = .ok (v, buf1, n1)) (hn : n1 ≤ c.length)
    (hne : r1 = [] → r = []) :
    ∃ c1, buf1 = c1 ++ r ∧ uintDecode (c ++ r1) kind es = .ok (v, c1 ++ r1, n1) := by
  unfold uintDecode at h ⊢
  by_cases hd : es = CodecDefaultSize
  · simp only [hd, ne_eq, not_true_eq_false, if_false] at h ⊢
    exact uintRead_agree c r r1 kind _ v buf1 n1 h hn hne
  · simp only [hd, ne_eq, not_false_eq_true, if_true] at h ⊢
    by_cases hw : es > kind.size
    · simp [hw] at h
    · simp only [hw, if_false] at h ⊢
      exact uintRead_agree c r r1 kind _ v buf1 n1 h hn hne

theorem arrayRead_agree (c r r1 : List Nat) (slice : Bool) (n : Nat) (val buf1 : List Nat)
    (n1 : Nat) (h : arrayRead (c ++ r) slice n = .ok (val, buf1, n1))
    (hn : n1 ≤ c.length) (hne : r1 = [] → r = []) :
    ∃ c1, buf1 = c1 ++ r ∧ arrayRead (c ++ r1) slice n = .ok (val, c1 ++ r1, n1) := by
  obtain ⟨hs, hm, h0, _, hv, hb, hn1⟩ := arrayRead_inv _ _ _ _ _ _ h
  subst hn1 hs
  have h1 : c ++ r1 ≠ [] := by
    intro h2
    have h3 := List.append_eq_nil.mp h2
    apply h0
    rw [h3.1, hne h3.2]
    rfl
  refine ⟨c.drop n1, ?_, ?_⟩
  · rw [hb, List.drop_append_of_le_length hn]
  · rw [arrayRead_eq _ _ hm h1 (by rw [List.length_append]; omega), hv,
      List.take_append_of_le_length hn, List.take_append_of_le_length hn,
      List.drop_append_of_le_length hn]

theorem arrayDecode_agree (c r r1 : List Nat) (slice : Bool) (es : Nat) (val buf1 : List Nat)
    (n1 : Nat) (h : arrayDecode (c ++ r) slice es = .ok (val, buf1, n1)) (hn : n1 ≤ c.length)
    (hne : r1 = [] → r = []) (hl : es = CodecDefaultSize → r.length = r1.length) :
    ∃ c1, buf1 = c1 ++ r ∧ arrayDecode (c ++ r1) slice es = .ok (val, c1 ++ r1, n1) := by
  unfold arrayDecode at h ⊢
  by_cases hd : es = CodecDefaultSize
  · have hlen : (c ++ r1).length = (c ++ r).length := by
      simp only [List.length_append]
      have := hl hd
      omega
    rw [if_pos hd] at h ⊢
    rw [hlen]
    exact arrayRead_agree c r r1 slice _ val buf1 n1 h hn hne
  · rw [if_neg hd] at h ⊢
    exact arrayRead_agree c r r1 slice _ val buf1 n1 h hn hne

/-- A run of the field loop without error does not look at the bytes it
leaves. On a buffer that differs only in them it reads the same fields and
returns the same count, if the other buffer has as many bytes, or if every
field of the run is read at a fixed width and the other buffer does not end
where the run stops. -/
theorem decodeLoop_agree (methods : Methods) (r r1 : List Nat) (hne : r1 = [] → r = []) :
    ∀ (k j : Nat) (i : Struct) (c : List Nat) (br : Nat),
    (decodeLoop methods k j i (c ++ r) br).err = none →
    r.length ≤ (decodeLoop methods k j i (c ++ r) br).buf.length →
    (r.length = r1.length ∨ ∀ t, t < k →
      (required methods (decodeLoop methods t j i (c ++ r) br).i (j + t)).isSome = true) →
    ∃ c2, (decodeLoop methods k j i (c ++ r) br).buf = c2 ++ r ∧
      decodeLoop methods k j i (c ++ r1) br
        = ⟨(decodeLoop methods k j i (c ++ r) br).i, c2 ++ r1,
            (decodeLoop methods k j i (c ++ r) br).n, none⟩
  | 0, _, _, c, _, _, _, _ => ⟨c, rfl, rfl⟩
  | k + 1, j, i, c, br, h, hb, hq => by
    cases hi : i[j]? with
    | none => simp [decodeLoop, hi] at h
    | some f =>
      cases f with
      | uint kind val =>
        cases hu : uintDecode (c ++ r) kind (encodingSizeOf methods i j) with
        | error e => simp [decodeLoop, hi, hu] at h
        | ok res =>
          obtain ⟨v, buf1, n1⟩ := res
          have hq1 : r.length = r1.length ∨ ∀ t, t < k →
              (required methods (decodeLoop methods t (j + 1) (i.set j (.uint kind v)) buf1
                (br + n1)).i (j + 1 + t)).isSome = true := by
            rcases hq with hq | hq
            · exact Or.inl hq
            · refine Or.inr (fun t ht => ?_)
              have := hq (t + 1) (by omega)
              simp only [decodeLoop, hi, hu] at this
              rwa [show j + (t + 1) = j + 1 + t by omega] at this
          simp only [decodeLoop, hi, hu] at h hb ⊢
          have hok := uintDecode_ok _ _ _ _ _ _ hu
          have hle := (decodeLoop_buf_le methods k _ _ _ _ h).1
          have hn : n1 ≤ c.length := by
            simp only [List.length_append] at hok
            omega
          obtain ⟨c1, hb1, hu1⟩ := uintDecode_agree c r r1 kind _ v buf1 n1 hu hn hne
          subst hb1
          rw [hu1]
          exact decodeLoop_agree methods r r1 hne k (j + 1) _ c1 _ h hb hq1
      | bytes b =>
        cases hu : arrayDecode (c ++ r) true (encodingSizeOf methods i j) with
        | error e => simp [decodeLoop, hi, hu] at h
        | ok res =>
          obtain ⟨v, buf1, n1⟩ := res
          have hq1 : r.length = r1.length ∨ ∀ t, t < k →
              (required methods (decodeLoop methods t (j + 1) (i.set j (.bytes v)) buf1
                (br + n1)).i (j + 1 + t)).isSome = true := by
            rcases hq with hq | hq
            · exact Or.inl hq
            · refine Or.inr (fun t ht => ?_)
              have := hq (t + 1) (by omega)
              simp only [decodeLoop, hi, hu] at this
              rwa [show j + (t + 1) = j + 1 + t by omega] at this
          have hdef : encodingSizeOf methods i j = CodecDefaultSize → r.length = r1.length := by
            intro hd
            rcases hq with hq | hq
            · exact hq
            · have := hq 0 (by omega)
              simp [decodeLoop, required, hi, hd] at this
          simp only [decodeLoop, hi, hu] at h hb ⊢
          have hok := arrayDecode_ok _ _ _ _ _ _ hu
          have hle := (decodeLoop_buf_le methods k _ _ _ _ h).1
          have hn : n1 ≤ c.length := by
            simp only [List.length_append] at hok
            omega
          obtain ⟨c1, hb1, hu1⟩ := arrayDecode_agree c r r1 true _ v buf1 n1 hu hn hne hdef
          subst hb1
          rw [hu1]
          exact decodeLoop_agree methods r r1 hne k (j + 1) _ c1 _ h hb hq1
      | array b =>
        cases hu : arrayDecode (c ++ r) false (encodingSizeOf methods i j) with
        | error e => simp [decodeLoop, hi, hu] at h
        | ok res =>
          obtain ⟨v, buf1, n1⟩ := res
          unfold arrayDecode at hu
          split_ifs at hu
          · exact absurd (arrayRead_inv _ _ _ _ _ _ hu).1 (by simp)
          · exact absurd (arrayRead_inv _ _ _ _ _ _ hu).1 (by simp)
      | other => simp [decodeLoop, hi] at h

/-- C20, as amended. When `decode` succeeds (on a buffer of a length below
2^64, as every Go slice has), the count `n` it returns is the sum over the
fields of the bytes each took when it was reached: the override width or the
native width for an integer, the override length or all the bytes left for a
byte sequence. The count is at most the length of the buffer. And `decode`
succeeds with the same struct and the same count on every buffer with the same
first `n` bytes that has the same length, or that is longer than `n` when
every field is read at a fixed width (an integer, or a byte sequence with an
override in force). -/
theorem decode_count (methods : Methods) (i : Struct) (data : List Nat)
    (hok : (decode methods i data).err = none) (hlen : data.length < 2 ^ 64) :
    (decode methods i data).n
      = ((List.range i.length).map (fun j =>
          taken methods (decodeLoop methods j 0 i data 0).i j
            (decodeLoop methods j 0 i data 0).buf)).sum ∧
    (decode methods i data).n ≤ data.length ∧
    ∀ data1 : List Nat,
      data1.take (decode methods i data).n = data.take (decode methods i data).n →
      (data1.length = data.length ∨
        ((decode methods i data).n < data1.length ∧ ∀ j, j < i.length →
          (required methods (decodeLoop methods j 0 i data 0).i j).isSome = true)) →
      (decode methods i data1).err = none ∧
      (decode methods i data1).i = (decode methods i data).i ∧
      (decode methods i data1).n = (decode methods i data).n := by
  have hc := decodeLoop_consumed methods i.length 0 i data 0 hok
  have hn : (decode methods i data).n ≤ data.length := by
    unfold decode
    omega
  refine ⟨decodeLoop_sum methods i data hlen i.length hok, hn, ?_⟩
  intro data1 ht hq
  have hd : data = data.take (decode methods i data).n ++ data.drop (decode methods i data).n :=
    (List.take_append_drop _ _).symm
  have hd1 : data1
      = data.take (decode methods i data).n ++ data1.drop (decode methods i data).n := by
    rw [← ht]
    exact (List.take_append_drop _ _).symm
  have hne : data1.drop (decode methods i data).n = [] →
      data.drop (decode methods i data).n = [] := by
    intro h1
    have h2 : data1.length ≤ (decode methods i data).n := List.drop_eq_nil_iff.mp h1
    rcases hq with hq | hq
    · exact List.drop_eq_nil_iff.mpr (by omega)
    · omega
  have hq1 : (data.drop (decode methods i data).n).length
        = (data1.drop (decode methods i data).n).length ∨
      ∀ t, t < i.length → (required methods (decodeLoop methods t 0 i
        (data.take (decode methods i data).n ++ data.drop (decode methods i data).n) 0).i
        (0 + t)).isSome = true := by
    rcases hq with hq | hq
    · left
      simp only [List.length_drop, hq]
    · right
      intro t ht
      rw [← hd, Nat.zero_add]
      exact hq.2 t ht
  have hbuf : (data.drop (decode methods i data).n).length
      ≤ (decode methods i data).buf.length := by
    simp only [List.length_drop]
    unfold decode at hc ⊢
    omega
  have hok1 : (decodeLoop methods i.length 0 i
      (data.take (decode methods i data).n ++ data.drop (decode methods i data).n) 0).err
      = none := by
    rw [← hd]
    exact hok
  have hbuf1 : (data.drop (decode methods i data).n).length
      ≤ (decodeLoop methods i.length 0 i
        (data.take (decode methods i data).n ++ data.drop (decode methods i data).n) 0).buf.length := by
    rw [← hd]
    exact hbuf
  obtain ⟨c2, _, h2⟩ := decodeLoop_agree methods _ _ hne i.length 0 i _ 0 hok1 hbuf1 hq1
  rw [← hd1, ← hd] at h2
  unfold decode
  rw [h2]
  exact ⟨rfl, rfl, rfl⟩

/-- A 2-byte integer and a byte sequence of override length 2, decoded from
five bytes: the count is 2 + 2, at most 5, and a buffer of six bytes with the
same first four decodes to the same struct and count. -/
theorem decode_count_witness :
    (decode (fun j => if j = 1 then some (fun _ => 2) else none)
        [.uint .u16 0, .bytes []] [0x00, 0x01, 0xAA, 0xBB, 0xCC]).n
      ≤ [0x00, 0x01, 0xAA, 0xBB, 0xCC].length ∧
    ((decode (fun j => if j = 1 then some (fun _ => 2) else none)
        [.uint .u16 0, .bytes []] [0x00, 0x01, 0xAA, 0xBB, 0x11, 0x22]).err = none ∧
      (decode (fun j => if j = 1 then some (fun _ => 2) else none)
        [.uint .u16 0, .bytes []] [0x00, 0x01, 0xAA, 0xBB, 0x11, 0x22]).i
        = (decode (fun j => if j = 1 then some (fun _ => 2) else none)
          [.uint .u16 0, .bytes []] [0x00, 0x01, 0xAA, 0xBB, 0xCC]).i ∧
      (decode (fun j => if j = 1 then some (fun _ => 2) else none)
        [.uint .u16 0, .bytes []] [0x00, 0x01, 0xAA, 0xBB, 0x11, 0x22]).n
        = (decode (fun j => if j = 1 then some (fun _ => 2) else none)
          [.uint .u16 0, .bytes []] [0x00, 0x01, 0xAA, 0xBB, 0xCC]).n) :=
  ⟨(decode_count (fun j => if j = 1 then some (fun _ => 2) else none)
      [.uint .u16 0, .bytes []] [0x00, 0x01, 0xAA, 0xBB, 0xCC] (by decide) (by decide)).2.1,
   (decode_count (fun j => if j = 1 then some (fun _ => 2) else none)
      [.uint .u16 0, .bytes []] [0x00, 0x01, 0xAA, 0xBB, 0xCC] (by decide) (by decide)).2.2
      [0x00, 0x01, 0xAA, 0xBB, 0x11, 0x22] (by decide) (Or.inr ⟨by decide, by decide⟩)⟩

/-- C20 fails at a byte sequence without a length overrider, which takes all
the bytes left. Against `{u16; bytes}` the buffer `[0x00, 0x01, 0xAA]` decodes
with count 3 and the byte sequence `[0xAA]`; the buffer
`[0x00, 0x01, 0xAA, 0xBB]` has the same 3 leading bytes and decodes to the
byte sequence `[0xAA, 0xBB]`. -/
theorem decode_tail_takes_rest :
    decode (fun _ => none) [.uint .u16 0, .bytes []] [0x00, 0x01, 0xAA]
      = ⟨[.uint .u16 1, .bytes [0xAA]], [], 3, none⟩ ∧
    [0x00, 0x01, 0xAA, 0xBB].take 3 = [0x00, 0x01, 0xAA].take 3 ∧
    decode (fun _ => none) [.uint .u16 0, .bytes []] [0x00, 0x01, 0xAA, 0xBB]
      = ⟨[.uint .u16 1, .bytes [0xAA, 0xBB]], [], 4, none⟩ := by
  decide

/-- Why the other buffer has to be longer than the count when the lengths
differ: a field of width 0 is read without error while bytes are left and
gives `io.EOF` at the end of the data. Against `{u16; bytes}` with the
override length 0 the buffer `[0x00, 0x01, 0x02]` decodes with count 2, the
buffer `[0x00, 0x01]` does not. -/
theorem decode_zero_width_at_end :
    decode (fun j => if j = 1 then some (fun _ => 0) else none)
        [.uint .u16 0, .bytes []] [0x00, 0x01, 0x02]
      = ⟨[.uint .u16 1, .bytes []], [0x02], 2, none⟩ ∧
    decode (fun j => if j = 1 then some (fun _ => 0) else none)
        [.uint .u16 0, .bytes []] [0x00, 0x01]
      = ⟨[.uint .u16 1, .bytes []], [], 2, some .eof⟩ := by
  decide

end Codec
